import Mathlib

/-!
# Darling `libmach-o`: a shallow embedding of `MachOImpl.cpp`

The Mach-O parser of `src/libmach-o/MachOImpl.cpp` is embedded as pure
functions over an explicit byte memory.  Pointers into the mapping are
natural-number byte offsets from `m_base`; machine integers are naturals
reduced modulo `2^w` where the C++ code can wrap; a function that can throw,
abort or fail to return yields a `Res`.

Diagnostics (`LOG`, `LOGF`, `std::cerr`) are not part of the model.  An
`assert` is modelled as active: a failed one ends the call with a fault.
-/

namespace Darling

/-! ## Memory -/

/-- A run of bytes: a C string without its terminator, or a name buffer. -/
abbrev Bytes := List Nat

/-- The mapped window of the file, indexed by byte offset from `m_base`.
Offsets past the window read as zero (the tail of the last mapped page). -/
abbrev Mem := List Nat

/-- One byte of the mapping. -/
def u8 (mem : Mem) (off : Nat) : Nat := mem.getD off 0 % 256

/-- Little-endian `uint16_t` at a byte offset. -/
def u16 (mem : Mem) (off : Nat) : Nat := u8 mem off + 256 * u8 mem (off + 1)

/-- Little-endian `uint32_t` at a byte offset. -/
def u32 (mem : Mem) (off : Nat) : Nat := u16 mem off + 65536 * u16 mem (off + 2)

/-- Little-endian `uint64_t` at a byte offset. -/
def u64 (mem : Mem) (off : Nat) : Nat := u32 mem off + 4294967296 * u32 mem (off + 4)

/-- The NUL-terminated string starting at a byte offset (what `std::string(const char*)`,
`strcmp` and the `while (*p)` loop of `readExport` see). -/
def cstr (mem : Mem) (off : Nat) : Bytes := ((mem.drop off).map (· % 256)).takeWhile (· ≠ 0)

/-! ## Outcomes -/

/-- The `std::runtime_error`s thrown by the parser, by message. -/
inductive ParseError where
  /-- Message "broken export trie". -/
  | brokenExportTrie
  /-- Message "Unsupported endianness". -/
  | unsupportedEndianness
  /-- Message "Not a Mach-O file". -/
  | notMachO
  /-- Message "Unsupported CPU type in Mach-O". -/
  | unsupportedCpu
  /-- Message "Invalid external relocation". -/
  | invalidExternalRelocation
  deriving DecidableEq, Repr

/-- Ways in which a call fails to return normally. -/
inductive Fault where
  /-- A `std::runtime_error` unwinds the parse. -/
  | error (e : ParseError)
  /-- The call of `abort()` on an unknown section type. -/
  | abort
  /-- A failed `assert`. -/
  | assertion
  /-- An integer division by zero. -/
  | divideByZero
  /-- A read through a null pointer. -/
  | nullPointer
  /-- The model ran out of fuel: the loop or recursion had not returned yet. -/
  | fuel
  deriving DecidableEq, Repr

/-- Result of a call that may not return normally. -/
inductive Res (α : Type) where
  | ok (a : α)
  | fault (f : Fault)
  deriving DecidableEq, Repr

/-- Sequencing of fallible calls: the continuation runs when the call returned,
a fault propagates. -/
def Res.bind {α β : Type} (r : Res α) (k : α → Res β) : Res β :=
  match r with
  | .ok a => k a
  | .fault f => .fault f

/-- Whether the call returned normally. -/
def Res.isOk {α : Type} (r : Res α) : Bool :=
  match r with
  | .ok _ => true
  | .fault _ => false

/-! ## Output records

The record types are declared in `MachO.h`, which is not among the sources;
the fields are those the parser assigns.  Address, value and flag fields are
taken to be 64-bit unsigned fields that hold the assigned value, except the
address and size of a `Section`, which the parser converts to `uintptr_t`
itself (source line 132).  The member `m_ptrsize` is taken to be an `int`, so
that `sec.addr + i * m_ptrsize` is formed in the width of `sec.addr`. -/

/-- Record `MachO::Section`. -/
structure Section where
  segment : Bytes
  sect : Bytes
  addr : Nat
  size : Nat
  deriving DecidableEq, Repr

/-- Record `MachO::Symbol`. -/
structure Symbol where
  name : Bytes
  addr : Nat
  deriving DecidableEq, Repr

/-- Record `MachO::Rebase`. -/
structure Rebase where
  vmaddr : Nat
  type : Nat
  deriving DecidableEq, Repr

/-- Binding kinds: `BIND_TYPE_POINTER`, `BIND_TYPE_STUB`, or another code set
by the opcode machine. -/
inductive BindType where
  | BIND_TYPE_POINTER
  | BIND_TYPE_STUB
  | other (code : Nat)
  deriving DecidableEq, Repr

/-- Record `MachO::Bind`. -/
structure Bind where
  name : Bytes
  vmaddr : Nat
  value : Nat
  type : BindType
  ordinal : Nat
  is_weak : Bool
  is_classic : Bool
  is_lazy : Bool
  deriving DecidableEq, Repr

/-- Record `MachO::Export`. -/
structure Export where
  name : Bytes
  flag : Nat
  addr : Nat
  deriving DecidableEq, Repr

/-- Record `MachO::Relocation`. -/
structure Relocation where
  addr : Nat
  name : Bytes
  pcrel : Bool
  deriving DecidableEq, Repr

/-! ## Constants of `<mach-o/loader.h>`, `<mach-o/reloc.h>` -/

/-- Modelled from the spec: the 32-bit magic of the absent system header. -/
def MH_MAGIC : Nat := 0xfeedface
/-- Modelled from the spec: the 64-bit magic of the absent system header. -/
def MH_MAGIC_64 : Nat := 0xfeedfacf
/-- Modelled from the spec: the byte-reversed 32-bit magic. -/
def MH_CIGAM : Nat := 0xcefaedfe
/-- Modelled from the spec: the byte-reversed 64-bit magic. -/
def MH_CIGAM_64 : Nat := 0xcffaedfe
/-- Modelled from the spec: the x86 family code of the absent system header. -/
def CPU_TYPE_X86 : Nat := 7

def LC_REQ_DYLD : Nat := 0x80000000
def LC_SEGMENT : Nat := 0x1
def LC_SYMTAB : Nat := 0x2
def LC_UNIXTHREAD : Nat := 0x5
def LC_DYSYMTAB : Nat := 0xb
def LC_LOAD_DYLIB : Nat := 0xc
def LC_LOAD_DYLINKER : Nat := 0xe
def LC_SEGMENT_64 : Nat := 0x19
def LC_UUID : Nat := 0x1b
def LC_RPATH : Nat := 0x8000001c
def LC_DYLD_INFO : Nat := 0x22
def LC_DYLD_INFO_ONLY : Nat := 0x80000022
def LC_MAIN : Nat := 0x80000028

def SECTION_TYPE : Nat := 0x000000ff
def S_REGULAR : Nat := 0x0
def S_ZEROFILL : Nat := 0x1
def S_CSTRING_LITERALS : Nat := 0x2
def S_4BYTE_LITERALS : Nat := 0x3
def S_8BYTE_LITERALS : Nat := 0x4
def S_LITERAL_POINTERS : Nat := 0x5
def S_NON_LAZY_SYMBOL_POINTERS : Nat := 0x6
def S_LAZY_SYMBOL_POINTERS : Nat := 0x7
def S_SYMBOL_STUBS : Nat := 0x8
def S_MOD_INIT_FUNC_POINTERS : Nat := 0x9
def S_MOD_TERM_FUNC_POINTERS : Nat := 0xa
def S_COALESCED : Nat := 0xb
def S_GB_ZEROFILL : Nat := 0xc
def S_INTERPOSING : Nat := 0xd
def S_16BYTE_LITERALS : Nat := 0xe
def S_DTRACE_DOF : Nat := 0xf
def S_LAZY_DYLIB_SYMBOL_POINTERS : Nat := 0x10

/-- Source line 35: `#define N_WEAK_DEF 0x0080`. -/
def N_WEAK_DEF : Nat := 0x0080
def R_ABS : Nat := 0
def R_SCATTERED : Nat := 0x80000000
def GENERIC_RELOC_VANILLA : Nat := 0
def X86_64_RELOC_UNSIGNED : Nat := 0
def REBASE_TYPE_POINTER : Nat := 1

/-- The C string "__TEXT". -/
def str_TEXT : Bytes := [95, 95, 84, 69, 88, 84]
/-- The C string "__DATA". -/
def str_DATA : Bytes := [95, 95, 68, 65, 84, 65]
/-- The C string "__dyld". -/
def str_dyld : Bytes := [95, 95, 100, 121, 108, 100]
/-- The C string "__eh_frame". -/
def str_eh_frame : Bytes := [95, 95, 101, 104, 95, 102, 114, 97, 109, 101]
/-- The C string "__unwind_info". -/
def str_unwind_info : Bytes := [95, 95, 117, 110, 119, 105, 110, 100, 95, 105, 110, 102, 111]

/-! ## The build target -/

/-- The architecture the parser is compiled for (`__i386__` or `__x86_64__`). -/
inductive Host where
  | i386
  | x86_64
  deriving DecidableEq, Repr

/-- Macro `RELOC_VANILLA` (source lines 622-628). -/
def RELOC_VANILLA (h : Host) : Nat :=
  match h with
  | .i386 => GENERIC_RELOC_VANILLA
  | .x86_64 => X86_64_RELOC_UNSIGNED

/-- Macro `RELOC_PTRLEN` (source lines 622-628). -/
def RELOC_PTRLEN (h : Host) : Nat :=
  match h with
  | .i386 => 2
  | .x86_64 => 3

/-- Width in bits of `uintptr_t` and `intptr_t`. -/
def Host.ptrBits (h : Host) : Nat :=
  match h with
  | .i386 => 32
  | .x86_64 => 64

/-- Conversion to `uintptr_t` (also the bit pattern of a conversion to `intptr_t`). -/
def toUIntPtr (h : Host) (x : Nat) : Nat := x % 2 ^ h.ptrBits

/-- Conversion of an `intptr_t` bit pattern to `uint64_t` (sign extension). -/
def intPtrToU64 (h : Host) (x : Nat) : Nat :=
  if 2 ^ (h.ptrBits - 1) ≤ x then (x + 2 ^ 64 - 2 ^ h.ptrBits) % 2 ^ 64 else x

/-- Conversion of an `int32_t` bit pattern to `uint64_t` (sign extension). -/
def int32ToU64 (x : Nat) : Nat :=
  if 2 ^ 31 ≤ x then x + 2 ^ 64 - 2 ^ 32 else x

/-- Conversion of an unsigned value to `int` (two's complement, 32 bits). -/
def toInt32 (x : Nat) : Int :=
  if x % 2 ^ 32 < 2 ^ 31 then (x % 2 ^ 32 : Nat) else (x % 2 ^ 32 : Nat) - 2 ^ 32

/-! ## On-disk structures

Field offsets of the structures of `<mach-o/loader.h>`, `<mach-o/reloc.h>` and
of the parser's own `nlist` (a `uint64_t n_value` at byte 8, which the casts
`(uint32_t) nl->n_value` and `value &= 0xffffffff` of the source presuppose).
`wide` selects the `_64` variant of a structure. -/

def sizeof_mach_header (is64 : Bool) : Nat := if is64 then 32 else 28
def sizeof_segment_command (wide : Bool) : Nat := if wide then 72 else 56
def sizeof_section (wide : Bool) : Nat := if wide then 80 else 68

def hdr_magic (mem : Mem) : Nat := u32 mem 0
def hdr_cputype (mem : Mem) : Nat := u32 mem 4
def hdr_ncmds (mem : Mem) : Nat := u32 mem 16

def lc_cmd (mem : Mem) (c : Nat) : Nat := u32 mem c
def lc_cmdsize (mem : Mem) (c : Nat) : Nat := u32 mem (c + 4)

def seg_segname (mem : Mem) (seg : Nat) : Bytes := cstr mem (seg + 8)
def seg_vmaddr (mem : Mem) (wide : Bool) (seg : Nat) : Nat :=
  if wide then u64 mem (seg + 24) else u32 mem (seg + 24)
def seg_nsects (mem : Mem) (wide : Bool) (seg : Nat) : Nat :=
  if wide then u32 mem (seg + 64) else u32 mem (seg + 48)

def sec_sectname (mem : Mem) (sec : Nat) : Bytes := cstr mem sec
def sec_segname (mem : Mem) (sec : Nat) : Bytes := cstr mem (sec + 16)
def sec_addr (mem : Mem) (wide : Bool) (sec : Nat) : Nat :=
  if wide then u64 mem (sec + 32) else u32 mem (sec + 32)
def sec_size (mem : Mem) (wide : Bool) (sec : Nat) : Nat :=
  if wide then u64 mem (sec + 40) else u32 mem (sec + 36)
def sec_flags (mem : Mem) (wide : Bool) (sec : Nat) : Nat :=
  if wide then u32 mem (sec + 64) else u32 mem (sec + 56)
def sec_reserved1 (mem : Mem) (wide : Bool) (sec : Nat) : Nat :=
  if wide then u32 mem (sec + 68) else u32 mem (sec + 60)
def sec_reserved2 (mem : Mem) (wide : Bool) (sec : Nat) : Nat :=
  if wide then u32 mem (sec + 72) else u32 mem (sec + 64)

def n_strx (mem : Mem) (sym : Nat) : Nat := u32 mem sym
def n_desc (mem : Mem) (sym : Nat) : Nat := u16 mem (sym + 6)
def n_value (mem : Mem) (sym : Nat) : Nat := u64 mem (sym + 8)

def r_address (mem : Mem) (reloc : Nat) : Nat := u32 mem reloc
def r_symbolnum (mem : Mem) (reloc : Nat) : Nat := u32 mem (reloc + 4) % 2 ^ 24
def r_pcrel (mem : Mem) (reloc : Nat) : Nat := u32 mem (reloc + 4) / 2 ^ 24 % 2
def r_length (mem : Mem) (reloc : Nat) : Nat := u32 mem (reloc + 4) / 2 ^ 25 % 4
def r_extern (mem : Mem) (reloc : Nat) : Nat := u32 mem (reloc + 4) / 2 ^ 27 % 2
def r_type (mem : Mem) (reloc : Nat) : Nat := u32 mem (reloc + 4) / 2 ^ 28 % 16

def scattered_r_address (mem : Mem) (reloc : Nat) : Nat := u32 mem reloc % 2 ^ 24
def scattered_r_type (mem : Mem) (reloc : Nat) : Nat := u32 mem reloc / 2 ^ 24 % 16
def scattered_r_length (mem : Mem) (reloc : Nat) : Nat := u32 mem reloc / 2 ^ 28 % 4

/-! ## The varint reader -/

/-- Modelled from the spec: the loop of `uleb128` of the absent `leb.h`, an
unsigned little-endian base-128 varint read from a byte cursor.  `s` is the
shift, `r` the accumulated `uint64_t`, `n` the number of bytes consumed. -/
def uleb128Loop : List Nat → Nat → Nat → Nat → Nat × Nat
  | [], _, r, n => (r, n + 1)
  | b :: rest, s, r, n =>
    if 128 ≤ b % 256 then
      uleb128Loop rest (s + 7) (r ||| (b % 128 * 2 ^ s % 2 ^ 64)) (n + 1)
    else (r ||| (b % 128 * 2 ^ s % 2 ^ 64), n + 1)

/-- Modelled from the spec: `uleb128(p)` of the absent `leb.h`; returns the
decoded value and the advanced cursor. -/
def uleb128 (mem : Mem) (p : Nat) : Nat × Nat :=
  ((uleb128Loop (mem.drop p) 0 0 0).1, p + (uleb128Loop (mem.drop p) 0 0 0).2)

/-! ## `readExport` (source lines 235-277) -/

/-- The `for` loop over the children of a node in `readExport`; `recur` is the
recursive call, `n` the number of children still to read, `p` the cursor, and
the state is the pair of `*name_buf` and `m_exports`. -/
def readExportChildren (recur : Nat → Bytes × List Export → Res (Bytes × List Export))
    (mem : Mem) (start : Nat) : Nat → Nat → Bytes × List Export → Res (Bytes × List Export)
  | 0, _, st => .ok st
  | n + 1, p, st =>
    let orig_name_size := st.1.length
    let label := cstr mem p
    let p1 := p + label.length + 1
    let off := (uleb128 mem p1).1
    let p2 := (uleb128 mem p1).2
    if off = 0 then .fault .assertion
    else
      (recur (start + off) (st.1 ++ label, st.2)).bind fun st1 =>
        readExportChildren recur mem start n p2 (st1.1.take orig_name_size, st1.2)

/-- The function `MachOImpl::readExport(start, p, end, name_buf)`; the state is
the pair of `*name_buf` and `m_exports`. -/
def readExport (mem : Mem) (start end_ : Nat) :
    Nat → Nat → Bytes × List Export → Res (Bytes × List Export)
  | 0, _, _ => .fault .fuel
  | fuel + 1, p, st =>
    if end_ ≤ p then .fault (.error .brokenExportTrie)
    else
      let term_size := u8 mem p
      if term_size ≠ 0 then
        let expected_term_end := p + 1 + term_size
        let flag := (uleb128 mem (p + 1)).1
        let p1 := (uleb128 mem (p + 1)).2
        if flag &&& 8 ≠ 0 then .ok st
        else
          let addr := (uleb128 mem p1).1
          let p2 := (uleb128 mem p1).2
          if expected_term_end ≠ p2 then .fault .assertion
          else
            readExportChildren (readExport mem start end_ fuel) mem start (u8 mem p2) (p2 + 1)
              (st.1, st.2 ++ [{ name := st.1, flag := flag, addr := addr }])
      else
        readExportChildren (readExport mem start end_ fuel) mem start (u8 mem (p + 1)) (p + 2) st

/-! ## Abstract export tries -/

mutual
/-- A finite export trie: a node may be terminal (flags and address) and has
labelled children. -/
inductive Trie where
  | node (term : Option (Nat × Nat)) (kids : Kids)
/-- The labelled children of a trie node, in stream order. -/
inductive Kids where
  | nil
  | cons (label : Bytes) (child : Trie) (rest : Kids)
end

mutual
/-- Height of a trie (number of nodes on its longest root path). -/
def Trie.depth : Trie → Nat
  | .node _ ks => ks.depth + 1
/-- Largest height among the children. -/
def Kids.depth : Kids → Nat
  | .nil => 0
  | .cons _ c r => max c.depth r.depth
end

/-- Number of children. -/
def Kids.length : Kids → Nat
  | .nil => 0
  | .cons _ _ r => r.length + 1

mutual
/-- The terminal nodes of a trie in depth-first pre-order, each with the
concatenation of the edge labels on its path (after `pre`), its flags and its
address. -/
def Trie.exports : Trie → Bytes → List Export
  | .node term ks, pre =>
    (match term with
      | some fa => [{ name := pre, flag := fa.1, addr := fa.2 }]
      | none => []) ++ ks.exports pre
/-- The terminal nodes below the children, in order. -/
def Kids.exports : Kids → Bytes → List Export
  | .nil, _ => []
  | .cons label c r, pre => c.exports (pre ++ label) ++ r.exports pre
end

mutual
/-- No terminal node carries the re-export flag (bit 8). -/
def Trie.noReexport : Trie → Bool
  | .node term ks =>
    (match term with
      | some fa => fa.1 &&& 8 == 0
      | none => true) && ks.noReexport
/-- No terminal node below the children carries the re-export flag. -/
def Kids.noReexport : Kids → Bool
  | .nil => true
  | .cons _ c r => c.noReexport && r.noReexport
end

mutual
/-- The sub-stream `[start, end_)` of `mem` holds the trie node `t` at offset `p`:
a terminal-size byte (zero exactly for a non-terminal node), for a terminal node
the flags and the address as varints filling exactly the terminal size, a child
count byte, and the child entries. -/
def Trie.encodedAt (mem : Mem) (start end_ : Nat) : Trie → Nat → Bool
  | .node none ks, p =>
    decide (p < end_) && u8 mem p == 0 && u8 mem (p + 1) == ks.length &&
      ks.encodedAt mem start end_ (p + 2)
  | .node (some fa) ks, p =>
    decide (p < end_) && u8 mem p != 0 &&
      (uleb128 mem (p + 1)).1 == fa.1 &&
      (uleb128 mem (uleb128 mem (p + 1)).2).1 == fa.2 &&
      (uleb128 mem (uleb128 mem (p + 1)).2).2 == p + 1 + u8 mem p &&
      u8 mem (p + 1 + u8 mem p) == ks.length &&
      ks.encodedAt mem start end_ (p + 1 + u8 mem p + 1)
/-- The child entries at offset `p`: for each child its NUL-terminated label and
a non-zero varint offset (relative to `start`) at which the child node is held. -/
def Kids.encodedAt (mem : Mem) (start end_ : Nat) : Kids → Nat → Bool
  | .nil, _ => true
  | .cons label c r, p =>
    cstr mem p == label &&
      (uleb128 mem (p + label.length + 1)).1 != 0 &&
      c.encodedAt mem start end_ (start + (uleb128 mem (p + label.length + 1)).1) &&
      r.encodedAt mem start end_ (uleb128 mem (p + label.length + 1)).2
end

/-! ## Parser state -/

/-- The members of `MachOImpl` that the parser assigns (the class is declared
in the absent `MachOImpl.h`).  `m_segments` and `m_segments64` hold pointers to
the segment commands, `m_mapped` records whether the mapping pointer is
non-null. -/
structure MachOImpl where
  m_is64 : Bool
  m_ptrsize : Nat
  m_need_exports : Bool
  m_mapped : Bool
  m_fd : Int
  m_text_offset : Nat
  m_main : Nat
  m_entry : Nat
  m_dyld_data : Nat
  m_eh_frame : Nat × Nat
  m_unwind_info : Nat × Nat
  m_segments : List Nat
  m_segments64 : List Nat
  m_sections : List Section
  m_init_funcs : List Nat
  m_exit_funcs : List Nat
  m_symbols : List Symbol
  m_rebases : List Rebase
  m_binds : List Bind
  m_exports : List Export
  m_relocations : List Relocation
  m_dylibs : List Bytes
  m_rpaths : List Bytes
  deriving DecidableEq, Repr

/-- The local variables of `processLoaderCommands` (source lines 342-351); a
pointer is `none` while it is null. -/
structure Locals where
  symtab : Option Nat
  dysyms : Option Nat
  symstrtab : Option Nat
  dyinfo : Option Nat
  ext_relocinfo : Option Nat
  loc_relocinfo : Option Nat
  ext_reloccount : Nat
  loc_reloccount : Nat
  bind_sections_64 : List Nat
  bind_sections_32 : List Nat
  deriving DecidableEq, Repr

/-- The opcode machines `RebaseState` and `BindState`, whose sources are absent:
the records each `while (p < end)` loop appends, as a function of the mapping,
the segments known so far (32- and 64-bit lists), the sub-stream bounds and, for
binds, the `is_weak` and `is_lazy` flags. -/
structure Decoders where
  rebaseOps : Mem → List Nat → List Nat → Nat → Nat → List Rebase
  bindOps : Mem → List Nat → List Nat → Nat → Nat → Bool → Bool → List Bind

/-! ## `readSegment` (source lines 112-212) -/

/-- The loops `for (uint64_t p = sec.addr; p < sec.addr + sec.size; p += m_ptrsize)`
of source lines 172-173 and 178-179, appending to `funcs`. -/
def funcPointerLoop (ptrsize bound : Nat) : Nat → Nat → List Nat → Res (List Nat)
  | 0, _, _ => .fault .fuel
  | fuel + 1, p, funcs =>
    if p < bound then funcPointerLoop ptrsize bound fuel ((p + ptrsize) % 2 ^ 64) (funcs ++ [p])
    else .ok funcs

/-- The value of `sec.addr + sec.size` in the width of the section's fields. -/
def sec_end (mem : Mem) (wide : Bool) (sec : Nat) : Nat :=
  (sec_addr mem wide sec + sec_size mem wide sec) % 2 ^ (if wide then 64 else 32)

/-- The local `savedSection` of source lines 132-144. -/
def savedSection (h : Host) (mem : Mem) (wide : Bool) (sec : Nat) : Section :=
  { segment := (sec_segname mem sec).take 16
    sect := (sec_sectname mem sec).take 16
    addr := toUIntPtr h (sec_addr mem wide sec)
    size := toUIntPtr h (sec_size mem wide sec) }

/-- Source lines 147-161: the `__dyld`, `__eh_frame` and `__unwind_info` records. -/
def noteSpecialSection (mem : Mem) (wide : Bool) (sec : Nat) (s : Section) (m : MachOImpl) :
    MachOImpl :=
  let m1 := if s.sect = str_dyld ∧ s.segment = str_DATA then
    { m with m_dyld_data := sec_addr mem wide sec } else m
  if s.segment = str_TEXT then
    if s.sect = str_eh_frame then
      { m1 with m_eh_frame := (sec_addr mem wide sec, sec_size mem wide sec) }
    else if s.sect = str_unwind_info then
      { m1 with m_unwind_info := (sec_addr mem wide sec, sec_size mem wide sec) }
    else m1
  else m1

/-- One iteration of the section loop of `readSegment` (source lines 131-210)
for the section at `sec`; the state is the object and `*bind_sections`. -/
def readSection (h : Host) (mem : Mem) (wide : Bool) (fuel : Nat) (sec : Nat)
    (st : MachOImpl × List Nat) : Res (MachOImpl × List Nat) :=
  let m := noteSpecialSection mem wide sec (savedSection h mem wide sec)
    { st.1 with m_sections := st.1.m_sections ++ [savedSection h mem wide sec] }
  let section_type := sec_flags mem wide sec &&& SECTION_TYPE
  if section_type = S_REGULAR then .ok (m, st.2)
  else if section_type = S_MOD_INIT_FUNC_POINTERS then
    (funcPointerLoop m.m_ptrsize (sec_end mem wide sec) fuel (sec_addr mem wide sec)
      m.m_init_funcs).bind fun funcs => .ok ({ m with m_init_funcs := funcs }, st.2)
  else if section_type = S_MOD_TERM_FUNC_POINTERS then
    (funcPointerLoop m.m_ptrsize (sec_end mem wide sec) fuel (sec_addr mem wide sec)
      m.m_exit_funcs).bind fun funcs => .ok ({ m with m_exit_funcs := funcs }, st.2)
  else if section_type = S_NON_LAZY_SYMBOL_POINTERS ∨ section_type = S_LAZY_SYMBOL_POINTERS then
    .ok (m, st.2 ++ [sec])
  else if section_type = S_SYMBOL_STUBS then
    if m.m_is64 = false then .ok (m, st.2 ++ [sec]) else .ok (m, st.2)
  else if section_type = S_ZEROFILL ∨ section_type = S_CSTRING_LITERALS
      ∨ section_type = S_4BYTE_LITERALS ∨ section_type = S_8BYTE_LITERALS
      ∨ section_type = S_LITERAL_POINTERS ∨ section_type = S_COALESCED
      ∨ section_type = S_GB_ZEROFILL ∨ section_type = S_INTERPOSING
      ∨ section_type = S_16BYTE_LITERALS ∨ section_type = S_DTRACE_DOF
      ∨ section_type = S_LAZY_DYLIB_SYMBOL_POINTERS then .ok (m, st.2)
  else .fault .abort

/-- The section loop `for (uint32_t j = 0; j < segment->nsects; j++)` of
`readSegment`: `n` iterations remain, starting with index `j`. -/
def readSections (h : Host) (mem : Mem) (wide : Bool) (fuel : Nat) (sections : Nat) :
    Nat → Nat → MachOImpl × List Nat → Res (MachOImpl × List Nat)
  | 0, _, st => .ok st
  | n + 1, j, st =>
    (readSection h mem wide fuel (sections + j * sizeof_section wide) st).bind fun st1 =>
      readSections h mem wide fuel sections n (j + 1) st1

/-- The function `MachOImpl::readSegment<segment_command, section>` (`wide = false`)
or `<segment_command_64, section_64>` (`wide = true`); `segments` is `m_segments`
or `m_segments64` accordingly, and the state is the object and `*bind_sections`. -/
def readSegment (h : Host) (mem : Mem) (wide : Bool) (fuel : Nat) (cmds_ptr : Nat)
    (st : MachOImpl × List Nat) : Res (MachOImpl × List Nat) :=
  let m := if wide then { st.1 with m_segments64 := st.1.m_segments64 ++ [cmds_ptr] }
    else { st.1 with m_segments := st.1.m_segments ++ [cmds_ptr] }
  let sections := cmds_ptr + sizeof_segment_command wide
  let m1 := if seg_segname mem cmds_ptr = str_TEXT then
    { m with m_text_offset := toUIntPtr h (seg_vmaddr mem wide cmds_ptr) } else m
  readSections h mem wide fuel sections (seg_nsects mem wide cmds_ptr) 0 (m1, st.2)

/-! ## Classic binding (source lines 39-110) -/

/-- Byte offset of the symbol-table entry `symtab + index * stride`, where
`symtab` is a `uint32_t*` and the product is computed in `uint32_t`. -/
def symEntry (symtab index stride : Nat) : Nat := symtab + 4 * (index * stride % 2 ^ 32)

/-- Byte offset of `dysyms[indirect_offset + i]`, the index computed in `uint32_t`. -/
def dysymEntry (dysyms indirect_offset i : Nat) : Nat :=
  dysyms + 4 * ((indirect_offset + i) % 2 ^ 32)

/-- The record built by iteration `i` of the loop of `readClassicBind`.  The
sum `sec.addr + i * m_ptrsize` is formed in the width of `sec.addr`. -/
def classicBindAt (mem : Mem) (m : MachOImpl) (wide : Bool) (sec dysyms symtab symstrtab : Nat)
    (i : Nat) : Bind :=
  let dysym := u32 mem (dysymEntry dysyms (sec_reserved1 mem wide sec) i)
  let index := dysym &&& 0x3fffffff
  let sym := symEntry symtab index (if m.m_is64 then 4 else 3)
  let vmaddr := (sec_addr mem wide sec + i * m.m_ptrsize) % 2 ^ (if wide then 64 else 32)
  { name := cstr mem (symstrtab + n_strx mem sym)
    vmaddr := if m.m_is64 = false then vmaddr &&& 0xffffffff else vmaddr
    value := if m.m_is64 = false then n_value mem sym &&& 0xffffffff else n_value mem sym
    type := .BIND_TYPE_POINTER
    ordinal := 1
    is_weak := n_desc mem sym &&& N_WEAK_DEF ≠ 0
    is_classic := true
    is_lazy := false }

/-- The function `MachOImpl::readClassicBind<section>` (`wide = false`) or
`<section_64>` (`wide = true`): the new content of `m_binds`. -/
def readClassicBind (mem : Mem) (m : MachOImpl) (wide : Bool)
    (sec dysyms symtab symstrtab : Nat) (binds : List Bind) : List Bind :=
  let count := toInt32 (sec_size mem wide sec / m.m_ptrsize)
  binds ++ (List.range count.toNat).map (classicBindAt mem m wide sec dysyms symtab symstrtab)

/-- The record built by iteration `i` of the loop of `readStubBind`. -/
def stubBindAt (mem : Mem) (m : MachOImpl) (sec dysyms symtab symstrtab : Nat) (i : Nat) :
    Bind :=
  let element_size := sec_reserved2 mem false sec
  let dysym := u32 mem (dysymEntry dysyms (sec_reserved1 mem false sec) i)
  let index := dysym &&& 0x3fffffff
  let sym := symEntry symtab index 3
  let vmaddr := (sec_addr mem false sec + i * element_size) % 2 ^ 32
  { name := cstr mem (symstrtab + n_strx mem sym)
    vmaddr := if m.m_is64 = false then vmaddr &&& 0xffffffff else vmaddr
    value := if m.m_is64 = false then n_value mem sym &&& 0xffffffff else n_value mem sym
    type := .BIND_TYPE_STUB
    ordinal := 1
    is_weak := n_desc mem sym &&& N_WEAK_DEF ≠ 0
    is_classic := true
    is_lazy := false }

/-- The function `MachOImpl::readStubBind`: the new content of `m_binds`.  The
quotient `sec.size / element_size` is evaluated before the element size is
tested (source lines 77-79). -/
def readStubBind (mem : Mem) (m : MachOImpl) (sec dysyms symtab symstrtab : Nat)
    (binds : List Bind) : Res (List Bind) :=
  let element_size := sec_reserved2 mem false sec
  if element_size = 0 then .fault .divideByZero
  else
    let count := toInt32 (sec_size mem false sec / element_size)
    if element_size ≠ 5 then .ok binds
    else .ok (binds ++ (List.range count.toNat).map (stubBindAt mem m sec dysyms symtab symstrtab))

/-! ## Legacy relocations (source lines 630-752) -/

/-- The function `MachOImpl::readInternalRelocation`: the new content of `m_rebases`. -/
def readInternalRelocation (h : Host) (mem : Mem) (reloc : Nat) (rebases : List Rebase) :
    List Rebase :=
  if h = .i386 ∧ r_address mem reloc &&& R_SCATTERED ≠ 0 then
    if scattered_r_type mem reloc ≠ RELOC_VANILLA h then rebases
    else if scattered_r_length mem reloc ≠ RELOC_PTRLEN h then rebases
    else rebases ++ [{ vmaddr := scattered_r_address mem reloc, type := REBASE_TYPE_POINTER }]
  else
    if r_symbolnum mem reloc = R_ABS then rebases
    else if r_type mem reloc ≠ RELOC_VANILLA h then rebases
    else if r_length mem reloc ≠ RELOC_PTRLEN h then rebases
    else rebases ++
      [{ vmaddr := int32ToU64 (r_address mem reloc) &&& 0xffffffff, type := REBASE_TYPE_POINTER }]

/-- The function `MachOImpl::readExternalRelocation`: the new content of
`m_relocations`. -/
def readExternalRelocation (h : Host) (mem : Mem) (m : MachOImpl) (reloc : Nat)
    (symtab symstrtab : Option Nat) (relocations : List Relocation) : Res (List Relocation) :=
  if r_extern mem reloc = 0 then .fault (.error .invalidExternalRelocation)
  else if r_length mem reloc ≠ RELOC_PTRLEN h then .ok relocations
  else if r_type mem reloc = RELOC_VANILLA h then
    match symtab, symstrtab with
    | some symtab, some symstrtab =>
      let sym := symEntry symtab (r_symbolnum mem reloc) (if m.m_is64 then 4 else 3)
      .ok (relocations ++
        [{ addr := int32ToU64 (r_address mem reloc)
           name := cstr mem (symstrtab + n_strx mem sym)
           pcrel := r_pcrel mem reloc ≠ 0 }])
    | _, _ => .fault .nullPointer
  else .ok relocations

/-- The loop of source lines 612-613 over the external relocation table. -/
def readExternalRelocations (h : Host) (mem : Mem) (m : MachOImpl) (ext_relocinfo : Nat)
    (symtab symstrtab : Option Nat) : Nat → Nat → List Relocation → Res (List Relocation)
  | 0, _, relocations => .ok relocations
  | n + 1, i, relocations =>
    (readExternalRelocation h mem m (ext_relocinfo + 8 * i) symtab symstrtab relocations).bind
      fun relocations1 =>
        readExternalRelocations h mem m ext_relocinfo symtab symstrtab n (i + 1) relocations1

/-- The loop of source lines 617-618 over the local relocation table. -/
def readInternalRelocations (h : Host) (mem : Mem) (loc_relocinfo : Nat) :
    Nat → Nat → List Rebase → List Rebase
  | 0, _, rebases => rebases
  | n + 1, i, rebases =>
    readInternalRelocations h mem loc_relocinfo n (i + 1)
      (readInternalRelocation h mem (loc_relocinfo + 8 * i) rebases)

/-! ## `processLoaderCommands` (source lines 336-620) -/

/-- The function `MachOImpl::readRebase(p, end)`: the new content of `m_rebases`. -/
def readRebase (d : Decoders) (mem : Mem) (m : MachOImpl) (p end_ : Nat) : List Rebase :=
  if p < end_ then m.m_rebases ++ d.rebaseOps mem m.m_segments m.m_segments64 p end_
  else m.m_rebases

/-- The function `MachOImpl::readBind(start, end, is_weak, is_lazy)`: the new
content of `m_binds`. -/
def readBind (d : Decoders) (mem : Mem) (m : MachOImpl) (start end_ : Nat)
    (is_weak is_lazy : Bool) : List Bind :=
  if start < end_ then
    m.m_binds ++ d.bindOps mem m.m_segments m.m_segments64 start end_ is_weak is_lazy
  else m.m_binds

/-- The symbol loop of the `LC_SYMTAB` case (source lines 441-460): `n` entries
remain, `symtab` is the advancing cursor. -/
def readSymbols (mem : Mem) (is64 : Bool) (symstrtab : Nat) :
    Nat → Nat → List Symbol → List Symbol
  | 0, _, symbols => symbols
  | n + 1, symtab, symbols =>
    readSymbols mem is64 symstrtab n (symtab + (if is64 then 4 * 4 else 4 * 3))
      (symbols ++
        [{ name := cstr mem (symstrtab + n_strx mem symtab)
           addr := if is64 then n_value mem symtab else n_value mem symtab % 2 ^ 32 }])

/-- The rebase block of the `LC_DYLD_INFO` case (source lines 383-389). -/
def readDyldRebase (d : Decoders) (mem : Mem) (dyinfo : Nat) (m : MachOImpl) : MachOImpl :=
  let rebase_off := u32 mem (dyinfo + 8)
  let rebase_size := u32 mem (dyinfo + 12)
  if rebase_off ≠ 0 ∧ rebase_size ≠ 0 then
    { m with m_rebases := readRebase d mem m rebase_off (rebase_off + rebase_size) }
  else m

/-- The three bind blocks of the `LC_DYLD_INFO` case (source lines 391-411):
the regular, the lazy and the weak sub-stream, in this order.  The calls
`readBind(p, end, false)` and `readBind(p, end, true)` leave out `is_lazy`; its
default value, declared in the header `MachOImpl.h`, is taken to be `false`. -/
def readDyldBinds (d : Decoders) (mem : Mem) (dyinfo : Nat) (m : MachOImpl) : MachOImpl :=
  let bind_off := u32 mem (dyinfo + 16)
  let bind_size := u32 mem (dyinfo + 20)
  let weak_bind_off := u32 mem (dyinfo + 24)
  let weak_bind_size := u32 mem (dyinfo + 28)
  let lazy_bind_off := u32 mem (dyinfo + 32)
  let lazy_bind_size := u32 mem (dyinfo + 36)
  let m2 := { m with m_binds := readBind d mem m bind_off (bind_off + bind_size) false false }
  let m3 := { m2 with
    m_binds := readBind d mem m2 lazy_bind_off (lazy_bind_off + lazy_bind_size) false true }
  { m3 with
    m_binds := readBind d mem m3 weak_bind_off (weak_bind_off + weak_bind_size) true false }

/-- The export block of the `LC_DYLD_INFO` case (source lines 413-423). -/
def readDyldExports (mem : Mem) (fuel : Nat) (dyinfo : Nat) (m : MachOImpl) : Res MachOImpl :=
  let export_off := u32 mem (dyinfo + 40)
  let export_size := u32 mem (dyinfo + 44)
  if m.m_need_exports then
    if export_off ≠ 0 ∧ export_size ≠ 0 then
      (readExport mem export_off (export_off + export_size) fuel export_off
        ([], m.m_exports)).bind fun st => .ok { m with m_exports := st.2 }
    else .ok m
  else .ok m

/-- The `LC_DYLD_INFO` / `LC_DYLD_INFO_ONLY` case (source lines 368-426). -/
def readDyldInfo (d : Decoders) (mem : Mem) (fuel : Nat) (dyinfo : Nat) (m : MachOImpl) :
    Res MachOImpl :=
  readDyldExports mem fuel dyinfo (readDyldBinds d mem dyinfo (readDyldRebase d mem dyinfo m))

/-- The `LC_DYSYMTAB` case (source lines 469-533). -/
def readDysymtab (mem : Mem) (cmd : Nat) (l : Locals) : Locals :=
  let indirectsymoff := u32 mem (cmd + 56)
  let nindirectsyms := u32 mem (cmd + 60)
  let extreloff := u32 mem (cmd + 64)
  let nextrel := u32 mem (cmd + 68)
  let locreloff := u32 mem (cmd + 72)
  let nlocrel := u32 mem (cmd + 76)
  let l1 := if nindirectsyms ≠ 0 then { l with dysyms := some indirectsymoff } else l
  let l2 := if nextrel ≠ 0 then
    { l1 with ext_reloccount := nextrel, ext_relocinfo := some extreloff } else l1
  if nlocrel ≠ 0 then { l2 with loc_reloccount := nlocrel, loc_relocinfo := some locreloff }
  else l2

/-- The body of the `switch (cmds_ptr->cmd)` of source lines 357-584 for the
command at `cmds_ptr`. -/
def processCommand (h : Host) (d : Decoders) (mem : Mem) (fuel : Nat) (cmds_ptr : Nat)
    (st : MachOImpl × Locals) : Res (MachOImpl × Locals) :=
  let m := st.1
  let l := st.2
  let cmd := lc_cmd mem cmds_ptr
  if cmd = LC_SEGMENT_64 then
    (readSegment h mem true fuel cmds_ptr (m, l.bind_sections_64)).bind fun r =>
      .ok (r.1, { l with bind_sections_64 := r.2 })
  else if cmd = LC_SEGMENT then
    (readSegment h mem false fuel cmds_ptr (m, l.bind_sections_32)).bind fun r =>
      .ok (r.1, { l with bind_sections_32 := r.2 })
  else if cmd = LC_DYLD_INFO ∨ cmd = LC_DYLD_INFO_ONLY then
    (readDyldInfo d mem fuel cmds_ptr m).bind fun m1 =>
      .ok (m1, { l with dyinfo := some cmds_ptr })
  else if cmd = LC_SYMTAB then
    let symoff := u32 mem (cmds_ptr + 8)
    let nsyms := u32 mem (cmds_ptr + 12)
    let stroff := u32 mem (cmds_ptr + 16)
    .ok ({ m with m_symbols := readSymbols mem m.m_is64 stroff nsyms symoff m.m_symbols },
      { l with symtab := some symoff, symstrtab := some stroff })
  else if cmd = LC_DYSYMTAB then .ok (m, readDysymtab mem cmds_ptr l)
  else if cmd = LC_LOAD_DYLINKER then .ok st
  else if cmd = LC_UUID then .ok st
  else if cmd = LC_UNIXTHREAD then
    .ok ({ m with
      m_entry := if m.m_is64 then u64 mem (cmds_ptr + 8 * 18) else u32 mem (cmds_ptr + 4 * 14) }, l)
  else if cmd = LC_MAIN then
    .ok ({ m with
      m_main := (intPtrToU64 h m.m_text_offset + u64 mem (cmds_ptr + 8)) % 2 ^ 64 }, l)
  else if cmd = LC_LOAD_DYLIB then
    .ok ({ m with m_dylibs := m.m_dylibs ++ [cstr mem (cmds_ptr + u32 mem (cmds_ptr + 8))] }, l)
  else if cmd = LC_RPATH then
    .ok ({ m with m_rpaths := m.m_rpaths ++ [cstr mem (cmds_ptr + u32 mem (cmds_ptr + 8))] }, l)
  else .ok st

/-- The loop `for (uint32_t ii = 0; ii < header->ncmds; ii++)` of source lines
353-588: `n` iterations remain, `cmds_ptr` is the advancing command pointer. -/
def walkCommands (h : Host) (d : Decoders) (mem : Mem) (fuel : Nat) :
    Nat → Nat → MachOImpl × Locals → Res (MachOImpl × Locals)
  | 0, _, st => .ok st
  | n + 1, cmds_ptr, st =>
    (processCommand h d mem fuel cmds_ptr st).bind fun st1 =>
      walkCommands h d mem fuel n (cmds_ptr + lc_cmdsize mem cmds_ptr) st1

/-- Initial values of the locals of `processLoaderCommands` (source lines 342-351). -/
def Locals.init : Locals :=
  { symtab := none, dysyms := none, symstrtab := none, dyinfo := none,
    ext_relocinfo := none, loc_relocinfo := none, ext_reloccount := 0, loc_reloccount := 0,
    bind_sections_64 := [], bind_sections_32 := [] }

/-- The test `!dyinfo && dysyms && symtab && symstrtab` of source line 594. -/
def classicBindGate (l : Locals) : Bool :=
  l.dyinfo.isNone && l.dysyms.isSome && l.symtab.isSome && l.symstrtab.isSome

/-- The loop of source lines 597-600 over `bind_sections_64`. -/
def readClassicBinds64 (mem : Mem) (m : MachOImpl) (dysyms symtab symstrtab : Nat) :
    List Nat → List Bind → List Bind
  | [], binds => binds
  | sec :: rest, binds =>
    readClassicBinds64 mem m dysyms symtab symstrtab rest
      (readClassicBind mem m true sec dysyms symtab symstrtab binds)

/-- The loop of source lines 601-607 over `bind_sections_32`. -/
def readClassicBinds32 (mem : Mem) (m : MachOImpl) (dysyms symtab symstrtab : Nat) :
    List Nat → List Bind → Res (List Bind)
  | [], binds => .ok binds
  | sec :: rest, binds =>
    if sec_flags mem false sec &&& SECTION_TYPE = S_SYMBOL_STUBS then
      (readStubBind mem m sec dysyms symtab symstrtab binds).bind fun binds1 =>
        readClassicBinds32 mem m dysyms symtab symstrtab rest binds1
    else
      readClassicBinds32 mem m dysyms symtab symstrtab rest
        (readClassicBind mem m false sec dysyms symtab symstrtab binds)

/-- Source lines 594-608: classic binding, when it applies. -/
def readClassicBinds (mem : Mem) (m : MachOImpl) (l : Locals) : Res MachOImpl :=
  match l.dyinfo, l.dysyms, l.symtab, l.symstrtab with
  | none, some dysyms, some symtab, some symstrtab =>
    (readClassicBinds32 mem m dysyms symtab symstrtab l.bind_sections_32
      (readClassicBinds64 mem m dysyms symtab symstrtab l.bind_sections_64 m.m_binds)).bind
      fun binds => .ok { m with m_binds := binds }
  | _, _, _, _ => .ok m

/-- Source lines 610-619: the external, then the local relocation table. -/
def readRelocations (h : Host) (mem : Mem) (m : MachOImpl) (l : Locals) : Res MachOImpl :=
  let r := match l.ext_relocinfo with
    | some ext_relocinfo =>
      readExternalRelocations h mem m ext_relocinfo l.symtab l.symstrtab l.ext_reloccount 0
        m.m_relocations
    | none => .ok m.m_relocations
  r.bind fun relocations =>
    match l.loc_relocinfo with
    | some loc_relocinfo =>
      .ok { m with
        m_relocations := relocations
        m_rebases := readInternalRelocations h mem loc_relocinfo l.loc_reloccount 0 m.m_rebases }
    | none => .ok { m with m_relocations := relocations }

/-- The function `MachOImpl::processLoaderCommands`. -/
def processLoaderCommands (h : Host) (d : Decoders) (mem : Mem) (fuel : Nat) (m : MachOImpl) :
    Res MachOImpl :=
  (walkCommands h d mem fuel (hdr_ncmds mem) (sizeof_mach_header m.m_is64)
    (m, Locals.init)).bind fun st =>
      (readClassicBinds mem st.1 st.2).bind fun m1 => readRelocations h mem m1 st.2

/-! ## The constructor (source lines 279-334) -/

/-- The object before the header is examined (source lines 280-311); the
containers start empty. -/
def MachOImpl.fresh (need_exports : Bool) (fd : Int) : MachOImpl :=
  { m_is64 := false, m_ptrsize := 0, m_need_exports := need_exports, m_mapped := true,
    m_fd := fd, m_text_offset := 0, m_main := 0, m_entry := 0, m_dyld_data := 0,
    m_eh_frame := (0, 0), m_unwind_info := (0, 0), m_segments := [], m_segments64 := [],
    m_sections := [], m_init_funcs := [], m_exit_funcs := [], m_symbols := [], m_rebases := [],
    m_binds := [], m_exports := [], m_relocations := [], m_dylibs := [], m_rpaths := [] }

/-- The header checks of the constructor (source lines 310-331): the object
with `m_is64` and `m_ptrsize` set, or the error thrown. -/
def validateHeader (mem : Mem) (m : MachOImpl) : Res MachOImpl :=
  let is64 : Res Bool :=
    if hdr_magic mem = MH_MAGIC_64 then .ok true
    else if hdr_magic mem = MH_CIGAM then .fault (.error .unsupportedEndianness)
    else if hdr_magic mem ≠ MH_MAGIC then .fault (.error .notMachO)
    else .ok false
  is64.bind fun b =>
    if hdr_cputype mem &&& 0x00ffffff ≠ CPU_TYPE_X86 then .fault (.error .unsupportedCpu)
    else .ok { m with m_is64 := b, m_ptrsize := if b then 8 else 4 }

/-- The constructor `MachOImpl::MachOImpl` on a successfully mapped window `mem`. -/
def MachOImpl.construct (h : Host) (d : Decoders) (mem : Mem) (fuel : Nat)
    (need_exports : Bool) (fd : Int) : Res MachOImpl :=
  if fd ≤ 0 then .fault .assertion
  else
    (validateHeader mem (MachOImpl.fresh need_exports fd)).bind fun m =>
      processLoaderCommands h d mem fuel m

/-- The function `MachOImpl::close`. -/
def MachOImpl.close (m : MachOImpl) : MachOImpl :=
  let m1 := { m with m_binds := [], m_rebases := [], m_exports := [], m_relocations := [] }
  if m1.m_mapped then { m1 with m_mapped := false, m_fd := -1 } else m1

/-! ## Reference descriptions of the walk -/

/-- The command pointers visited by the loop of `processLoaderCommands`: `n`
pointers starting at `cmds_ptr`, each advanced by the command's `cmdsize`. -/
def commandOffsets (mem : Mem) : Nat → Nat → List Nat
  | 0, _ => []
  | n + 1, cmds_ptr => cmds_ptr :: commandOffsets mem n (cmds_ptr + lc_cmdsize mem cmds_ptr)

/-- The load commands of an image of the given width, in command order. -/
def imageCommands (mem : Mem) (is64 : Bool) : List Nat :=
  commandOffsets mem (hdr_ncmds mem) (sizeof_mach_header is64)

/-- The section records declared by the segment command at `seg`, in declared order. -/
def segmentSections (h : Host) (mem : Mem) (wide : Bool) (seg : Nat) : List Section :=
  (List.range (seg_nsects mem wide seg)).map fun j =>
    savedSection h mem wide (seg + sizeof_segment_command wide + j * sizeof_section wide)

/-- The section records a load command contributes: those of a segment command
of either width, none for any other command. -/
def commandSections (h : Host) (mem : Mem) (c : Nat) : List Section :=
  if lc_cmd mem c = LC_SEGMENT_64 then segmentSections h mem true c
  else if lc_cmd mem c = LC_SEGMENT then segmentSections h mem false c
  else []

/-- The segment command type of an image width. -/
def segmentCommandOf (is64 : Bool) : Nat := if is64 then LC_SEGMENT_64 else LC_SEGMENT

/-! ## Building test images -/

/-- Little-endian bytes of a 32-bit value. -/
def le32 (n : Nat) : List Nat := [n % 256, n / 256 % 256, n / 65536 % 256, n / 16777216 % 256]

/-- Little-endian bytes of a 64-bit value. -/
def le64 (n : Nat) : List Nat := le32 (n % 4294967296) ++ le32 (n / 4294967296)

/-- A name padded with NULs to a 16-byte field. -/
def fixed16 (s : Bytes) : List Nat := (s ++ List.replicate 16 0).take 16

/-- Opcode machines that emit nothing. -/
def noDecoders : Decoders :=
  { rebaseOps := fun _ _ _ _ _ => [], bindOps := fun _ _ _ _ _ _ _ => [] }

/-- A 64-bit x86 header announcing `ncmds` commands. -/
def header64 (ncmds : Nat) : List Nat :=
  le32 MH_MAGIC_64 ++ le32 0x01000007 ++ le32 3 ++ le32 2 ++ le32 ncmds ++ le32 0 ++ le32 0 ++
    le32 0

/-- A 32-bit x86 header announcing `ncmds` commands. -/
def header32 (ncmds : Nat) : List Nat :=
  le32 MH_MAGIC ++ le32 7 ++ le32 3 ++ le32 2 ++ le32 ncmds ++ le32 0 ++ le32 0

/-- A `section_64` descriptor. -/
def mkSection64 (sectname segname : Bytes) (addr size flags reserved1 reserved2 : Nat) :
    List Nat :=
  fixed16 sectname ++ fixed16 segname ++ le64 addr ++ le64 size ++ le32 0 ++ le32 0 ++ le32 0 ++
    le32 0 ++ le32 flags ++ le32 reserved1 ++ le32 reserved2 ++ le32 0

/-- A `section` descriptor. -/
def mkSection32 (sectname segname : Bytes) (addr size flags reserved1 reserved2 : Nat) :
    List Nat :=
  fixed16 sectname ++ fixed16 segname ++ le32 addr ++ le32 size ++ le32 0 ++ le32 0 ++ le32 0 ++
    le32 0 ++ le32 flags ++ le32 reserved1 ++ le32 reserved2

/-- An `LC_SEGMENT_64` command followed by its section descriptors. -/
def mkSegment64 (segname : Bytes) (vmaddr : Nat) (sections : List (List Nat)) : List Nat :=
  le32 LC_SEGMENT_64 ++ le32 (72 + 80 * sections.length) ++ fixed16 segname ++ le64 vmaddr ++
    le64 0x1000 ++ le64 0 ++ le64 0 ++ le32 7 ++ le32 5 ++ le32 sections.length ++ le32 0 ++
    sections.flatten

/-- An `LC_SEGMENT` command followed by its section descriptors. -/
def mkSegment32 (segname : Bytes) (vmaddr : Nat) (sections : List (List Nat)) : List Nat :=
  le32 LC_SEGMENT ++ le32 (56 + 68 * sections.length) ++ fixed16 segname ++ le32 vmaddr ++
    le32 0x1000 ++ le32 0 ++ le32 0 ++ le32 7 ++ le32 5 ++ le32 sections.length ++ le32 0 ++
    sections.flatten

/-- An `LC_MAIN` command. -/
def mkMain (entryoff : Nat) : List Nat := le32 LC_MAIN ++ le32 24 ++ le64 entryoff ++ le64 0

/-- The C string "__text". -/
def str_text : Bytes := [95, 95, 116, 101, 120, 116]

/-- A 64-bit image with two segment commands of two sections each. -/
def imageTwoByTwo : Mem :=
  header64 2 ++
    mkSegment64 str_TEXT 0x1000
      [mkSection64 str_text str_TEXT 0x1000 0x20 0 0 0,
       mkSection64 str_eh_frame str_TEXT 0x1020 0x10 0 0 0] ++
    mkSegment64 str_DATA 0x2000
      [mkSection64 str_dyld str_DATA 0x2000 0x8 0 0 0,
       mkSection64 [100] str_DATA 0x2008 0x8 1 0 0]

/-- The object the constructor yields on `imageTwoByTwo` (host x86-64, descriptor 3). -/
def imageTwoByTwoParsed : MachOImpl :=
  { m_is64 := true, m_ptrsize := 8, m_need_exports := true, m_mapped := true, m_fd := 3,
    m_text_offset := 4096, m_main := 0, m_entry := 0, m_dyld_data := 8192,
    m_eh_frame := (4128, 16), m_unwind_info := (0, 0), m_segments := [],
    m_segments64 := [32, 264],
    m_sections :=
      [{ segment := str_TEXT, sect := str_text, addr := 4096, size := 32 },
       { segment := str_TEXT, sect := str_eh_frame, addr := 4128, size := 16 },
       { segment := str_DATA, sect := str_dyld, addr := 8192, size := 8 },
       { segment := str_DATA, sect := [100], addr := 8200, size := 8 }],
    m_init_funcs := [], m_exit_funcs := [], m_symbols := [], m_rebases := [], m_binds := [],
    m_exports := [], m_relocations := [], m_dylibs := [], m_rpaths := [] }

mutual
/-- Number of terminal nodes of a trie. -/
def Trie.terminals : Trie → Nat
  | .node term ks => (if term.isSome then 1 else 0) + ks.terminals
/-- Number of terminal nodes below the children. -/
def Kids.terminals : Kids → Nat
  | .nil => 0
  | .cons _ c r => c.terminals + r.terminals
end

/-- The C string "foo". -/
def str_foo : Bytes := [102, 111, 111]
/-- The C string "bar". -/
def str_bar : Bytes := [98, 97, 114]
/-- The C string "baz". -/
def str_baz : Bytes := [98, 97, 122]

/-- An export sub-stream whose root has the three leaves "foo", "bar", "baz". -/
def trieFlatBytes : Mem :=
  [0, 3, 102, 111, 111, 0, 17, 98, 97, 114, 0, 21, 98, 97, 122, 0, 25,
   2, 0, 1, 0, 2, 0, 2, 0, 2, 0, 3, 0]

/-- The trie held by `trieFlatBytes`. -/
def trieFlat : Trie :=
  .node none (.cons str_foo (.node (some (0, 1)) .nil)
    (.cons str_bar (.node (some (0, 2)) .nil)
      (.cons str_baz (.node (some (0, 3)) .nil) .nil)))

/-- An export sub-stream with the same leaves, "bar" and "baz" sharing the
inner node "ba". -/
def trieBranchedBytes : Mem :=
  [0, 2, 102, 111, 111, 0, 11, 98, 97, 0, 15,
   2, 0, 1, 0,
   0, 2, 114, 0, 23, 122, 0, 27,
   2, 0, 2, 0, 2, 0, 3, 0]

/-- The trie held by `trieBranchedBytes`. -/
def trieBranched : Trie :=
  .node none (.cons str_foo (.node (some (0, 1)) .nil)
    (.cons [98, 97] (.node none
      (.cons [114] (.node (some (0, 2)) .nil) (.cons [122] (.node (some (0, 3)) .nil) .nil)))
      .nil))

/-- An export sub-stream (17 bytes): the root has the child "a", a terminal node
flagged as a re-export (flags 8), which has the child "b", a regular export at
address 0x10. -/
def trieReexportBytes : Mem :=
  [0, 1, 0x61, 0, 5,
   3, 8, 1, 0, 1, 0x62, 0, 13,
   2, 0, 0x10, 0]

/-- The same trie (14 bytes) with the node "a" not terminal. -/
def trieNotTerminalBytes : Mem :=
  [0, 1, 0x61, 0, 5,
   0, 1, 0x62, 0, 10,
   2, 0, 0x10, 0]

/-- A mapping whose export sub-stream is the single byte at offset 0 (a terminal
size of 2); the bytes after it lie beyond the sub-stream. -/
def truncatedTrieA : Mem := [2, 0, 0x10, 0]

/-- The mapping `truncatedTrieA` with a different byte beyond the sub-stream. -/
def truncatedTrieB : Mem := [2, 0, 0x20, 0]

/-! ## Reference description of classic binding -/

/-- The Bind record that classic binding of slot `i` of the pointer section at
`sec` to the symbol-table entry number `index` is to produce in an image of
pointer width `w`: address `sec.addr + i * w` and the symbol's value in the
image's address width, kind pointer, ordinal 1, classic, weak when bit
`0x0080` of the symbol's descriptor is set. -/
def classicBindRecord (mem : Mem) (is64 wide : Bool) (w sec symtab symstrtab i index : Nat) :
    Bind :=
  let sym := symtab + (if is64 then 16 else 12) * index
  { name := cstr mem (symstrtab + n_strx mem sym)
    vmaddr := (sec_addr mem wide sec + i * w) % 2 ^ (8 * w)
    value := n_value mem sym % 2 ^ (8 * w)
    type := .BIND_TYPE_POINTER
    ordinal := 1
    is_weak := decide (n_desc mem sym &&& 0x0080 ≠ 0)
    is_classic := true
    is_lazy := false }

/-- The entry `indirect[k]` of the indirect-symbol array at `dysyms`. -/
def indirectEntry (mem : Mem) (dysyms k : Nat) : Nat := u32 mem (dysyms + 4 * k)

/-- Little-endian bytes of a 16-bit value. -/
def le16 (n : Nat) : List Nat := [n % 256, n / 256 % 256]

/-- A 12-byte symbol-table entry of a 32-bit image. -/
def mkNlist32 (strx type sect desc value : Nat) : List Nat :=
  le32 strx ++ [type, sect] ++ le16 desc ++ le32 value

/-- A mapping holding, at offset 0, a lazy-pointer `section` with address
`0xfffffffc`, size 8 and indirect offset 0; at offset 68 the indirect entries
`0x80000001` and `0x40000000`; at offset 76 two symbol-table entries ("foo",
weak, value `0x1234`, and "bar", value `0x5678`); at offset 100 the strings. -/
def classicBindBytes : Mem :=
  mkSection32 [95, 95, 108, 97] str_DATA 0xfffffffc 8 7 0 0 ++
    le32 0x80000001 ++ le32 0x40000000 ++
    mkNlist32 1 0 0 0x0080 0x1234 ++ mkNlist32 5 0 0 0 0x5678 ++
    [0] ++ str_foo ++ [0] ++ str_bar ++ [0]

/-- A 32-bit object (`m_is64 = false`, `m_ptrsize = 4`). -/
def object32 : MachOImpl := { MachOImpl.fresh true 3 with m_is64 := false, m_ptrsize := 4 }

/-- A 64-bit object (`m_is64 = true`, `m_ptrsize = 8`). -/
def object64 : MachOImpl := { MachOImpl.fresh true 3 with m_is64 := true, m_ptrsize := 8 }

/-- An `LC_SYMTAB` command. -/
def mkSymtab (symoff nsyms stroff strsize : Nat) : List Nat :=
  le32 LC_SYMTAB ++ le32 24 ++ le32 symoff ++ le32 nsyms ++ le32 stroff ++ le32 strsize

/-- An `LC_DYSYMTAB` command with the given indirect-symbol array and
relocation tables (the other fields zero). -/
def mkDysymtab (indirectsymoff nindirectsyms extreloff nextrel locreloff nlocrel : Nat) :
    List Nat :=
  le32 LC_DYSYMTAB ++ le32 80 ++ List.replicate 48 0 ++ le32 indirectsymoff ++
    le32 nindirectsyms ++ le32 extreloff ++ le32 nextrel ++ le32 locreloff ++ le32 nlocrel

/-- A 48-byte command of the given type whose fields are all zero (an empty
`LC_DYLD_INFO_ONLY`, or a padded `LC_UUID`). -/
def mkEmptyCommand (cmd : Nat) : List Nat := le32 cmd ++ le32 48 ++ List.replicate 40 0

/-- A 32-bit image with four commands: an `LC_SEGMENT` with one section at
address `0x2000` of the given size, flags and element size (`reserved2`),
`LC_SYMTAB` (two symbols "foo", "bar"), `LC_DYSYMTAB` (two indirect entries,
for the symbols 1 and 0) and a fourth command of type `cmd4`. -/
def classicImage (cmd4 size flags reserved2 : Nat) : Mem :=
  header32 4 ++
    mkSegment32 str_DATA 0x2000 [mkSection32 [95, 95, 112] str_DATA 0x2000 size flags 0 reserved2] ++
    mkSymtab 312 2 336 9 ++
    mkDysymtab 304 2 0 0 0 0 ++
    mkEmptyCommand cmd4 ++
    le32 0x80000001 ++ le32 0x40000000 ++
    mkNlist32 1 0 0 0x0080 0x1234 ++ mkNlist32 5 0 0 0 0x5678 ++
    [0] ++ str_foo ++ [0] ++ str_bar ++ [0]

/-- Whether the command at `c` is a dynamic-linker-info command. -/
def isDyldInfo (mem : Mem) (c : Nat) : Bool :=
  decide (lc_cmd mem c = LC_DYLD_INFO ∨ lc_cmd mem c = LC_DYLD_INFO_ONLY)

/-- Whether the command at `c` is a symbol-table command. -/
def isSymtab (mem : Mem) (c : Nat) : Bool := decide (lc_cmd mem c = LC_SYMTAB)

/-- Whether the command at `c` is a dynamic-symbol-table command with a
non-empty indirect-symbol array. -/
def isDysymtabWithIndirect (mem : Mem) (c : Nat) : Bool :=
  decide (lc_cmd mem c = LC_DYSYMTAB ∧ u32 mem (c + 60) ≠ 0)

/-- The object the constructor yields on `classicImage LC_DYLD_INFO_ONLY 8 7 0`
(host i386, descriptor 3, opcode machines that emit nothing). -/
def classicImageDyldParsed : MachOImpl :=
  { MachOImpl.fresh true 3 with
    m_is64 := false, m_ptrsize := 4, m_segments := [28],
    m_sections := [{ segment := str_DATA, sect := [95, 95, 112], addr := 8192, size := 8 }],
    m_symbols := [{ name := str_foo, addr := 4660 }, { name := str_bar, addr := 22136 }] }

/-! ## Reference description of the entry-point computation -/

/-- Whether the command at `c` is a segment command (of either width) named "__TEXT". -/
def isTextSegment (mem : Mem) (c : Nat) : Bool :=
  decide ((lc_cmd mem c = LC_SEGMENT_64 ∨ lc_cmd mem c = LC_SEGMENT) ∧
    seg_segname mem c = str_TEXT)

/-- The effect of the command at `c` on the pair of the text-segment base and
the main entry address: a segment command named "__TEXT" sets the base to its
`vmaddr` (as `intptr_t`), a main-entry-point command sets the entry address to
the current base plus its `entryoff`. -/
def entryStep (h : Host) (mem : Mem) (s : Nat × Nat) (c : Nat) : Nat × Nat :=
  if lc_cmd mem c = LC_SEGMENT_64 then
    if seg_segname mem c = str_TEXT then (toUIntPtr h (seg_vmaddr mem true c), s.2) else s
  else if lc_cmd mem c = LC_SEGMENT then
    if seg_segname mem c = str_TEXT then (toUIntPtr h (seg_vmaddr mem false c), s.2) else s
  else if lc_cmd mem c = LC_MAIN then (s.1, (intPtrToU64 h s.1 + u64 mem (c + 8)) % 2 ^ 64)
  else s

/-- A 64-bit image whose main-entry-point command (offset `0x100`) comes before
its text segment command (`vmaddr` `0x1000`). -/
def imageMainFirst : Mem :=
  header64 2 ++ mkMain 0x100 ++
    mkSegment64 str_TEXT 0x1000 [mkSection64 str_text str_TEXT 0x1000 0x20 0 0 0]

/-- A 64-bit image whose text segment command (`vmaddr` `0x1000`) comes before
its main-entry-point command (offset `0x100`). -/
def imageSegmentFirst : Mem :=
  header64 2 ++
    mkSegment64 str_TEXT 0x1000 [mkSection64 str_text str_TEXT 0x1000 0x20 0 0 0] ++
    mkMain 0x100

/-- The object the constructor yields on `imageSegmentFirst` (host x86-64,
descriptor 3). -/
def imageSegmentFirstParsed : MachOImpl :=
  { MachOImpl.fresh true 3 with
    m_is64 := true, m_ptrsize := 8, m_text_offset := 0x1000, m_main := 0x1100
    m_segments64 := [32]
    m_sections := [{ segment := str_TEXT, sect := str_text, addr := 0x1000, size := 0x20 }] }

/-- A mapping holding an `i386` relocation entry at offset 0 (address `0x2000`,
symbol 0, pc-relative, length 2, external, vanilla), a symbol-table entry at
offset 8 and the string table at offset 20. -/
def relocationBytes : Mem :=
  le32 0x2000 ++ le32 0x0d000000 ++ mkNlist32 1 0 0 0 0x1234 ++ [0] ++ str_foo ++ [0]

/-- A 32-bit image without a symbol-table command: its only command is an
`LC_DYSYMTAB` whose external relocation table (offset 108, one entry) holds the
entry of `relocationBytes`: address `0x2000`, symbol 0, pc-relative, length 2,
external, vanilla. -/
def imageRelocationNoSymtab : Mem :=
  header32 1 ++ mkDysymtab 0 0 108 1 0 0 ++ le32 0x2000 ++ le32 0x0d000000

/-- The image `imageRelocationNoSymtab` with a symbol-table command added
after the `LC_DYSYMTAB`: one symbol "foo" at offset 140, string table at offset
152; the relocation entry is at offset 132. -/
def imageRelocationSymtab : Mem :=
  header32 2 ++ mkDysymtab 0 0 132 1 0 0 ++ mkSymtab 140 1 152 5 ++
    le32 0x2000 ++ le32 0x0d000000 ++ mkNlist32 1 0 0 0 0x1234 ++ [0] ++ str_foo ++ [0]

/-- The object the constructor yields on `imageRelocationSymtab` (host i386,
descriptor 3). -/
def imageRelocationSymtabParsed : MachOImpl :=
  { MachOImpl.fresh true 3 with
    m_is64 := false, m_ptrsize := 4
    m_symbols := [{ name := str_foo, addr := 0x1234 }]
    m_relocations := [{ addr := 0x2000, name := str_foo, pcrel := true }] }

/-! ## Reference descriptions for the later stages of the walk -/

/-- The name held by the `LC_LOAD_DYLIB` command at `c` (the string at the
command's `dylib.name.offset`). -/
def dylibName (mem : Mem) (c : Nat) : Bytes := cstr mem (c + u32 mem (c + 8))

/-- The path held by the `LC_RPATH` command at `c` (the string at the
command's `path.offset`). -/
def rpathPath (mem : Mem) (c : Nat) : Bytes := cstr mem (c + u32 mem (c + 8))

/-- The C string "libA". -/
def str_libA : Bytes := [108, 105, 98, 65]
/-- The C string "libB". -/
def str_libB : Bytes := [108, 105, 98, 66]

/-- A 32-byte command of the given type holding a string of at most 7 bytes
at offset 24 (an `LC_LOAD_DYLIB` or, with the unused fields zero, an
`LC_RPATH` whose string offset is 24). -/
def mkStringCommand (cmd : Nat) (s : Bytes) : List Nat :=
  le32 cmd ++ le32 32 ++ le32 24 ++ le32 0 ++ le32 0 ++ le32 0 ++ (s ++ List.replicate 8 0).take 8

/-- A 64-bit image with the dependencies "libA" and "libB", in this order, and
one runtime search path "foo" between them. -/
def imageTwoDylibs : Mem :=
  header64 3 ++ mkStringCommand LC_LOAD_DYLIB str_libA ++ mkStringCommand LC_RPATH str_foo ++
    mkStringCommand LC_LOAD_DYLIB str_libB

/-- The object the constructor yields on `imageTwoDylibs` (host x86-64,
descriptor 3). -/
def imageTwoDylibsParsed : MachOImpl :=
  { MachOImpl.fresh true 3 with
    m_is64 := true, m_ptrsize := 8, m_dylibs := [str_libA, str_libB], m_rpaths := [str_foo] }

/-- A 64-bit image with two segment commands named "__TEXT", at `0x1000` and
then at `0x5000`. -/
def imageTwoText : Mem :=
  header64 2 ++ mkSegment64 str_TEXT 0x1000 [] ++ mkSegment64 str_TEXT 0x5000 []

/-- The command types with a `case` in the `switch` of `processLoaderCommands`. -/
def recognizedCommands : List Nat :=
  [LC_SEGMENT_64, LC_SEGMENT, LC_DYLD_INFO, LC_DYLD_INFO_ONLY, LC_SYMTAB, LC_DYSYMTAB,
   LC_LOAD_DYLINKER, LC_UUID, LC_UNIXTHREAD, LC_MAIN, LC_LOAD_DYLIB, LC_RPATH]

/-- Whether a fault is one of the three errors thrown by the header checks of
the constructor. -/
def Fault.isHeaderError : Fault → Bool
  | .error .unsupportedEndianness => true
  | .error .notMachO => true
  | .error .unsupportedCpu => true
  | _ => false

/-- A bare header (no load command) with the given magic and CPU type. -/
def headerOnly (magic cputype : Nat) : Mem :=
  le32 magic ++ le32 cputype ++ le32 3 ++ le32 2 ++ le32 0 ++ le32 0 ++ le32 0 ++ le32 0

/-- A 64-bit image with one `LC_SEGMENT_64` command whose sections are given. -/
def imageOneSegment64 (sections : List (List Nat)) : Mem :=
  header64 1 ++ mkSegment64 str_DATA 0 sections

/-- A `section_64` of type `S_MOD_INIT_FUNC_POINTERS` at address
`0xfffffffffffffff0` of size 10: it ends 6 bytes below `2^64`. -/
def sectionInitAtTop : List Nat :=
  mkSection64 [95, 95, 105] str_DATA 0xfffffffffffffff0 10 S_MOD_INIT_FUNC_POINTERS 0 0

/-- A `section_64` of type `S_MOD_INIT_FUNC_POINTERS` at address `0x3000` of
size 20. -/
def sectionInitPlain : List Nat :=
  mkSection64 [95, 95, 105] str_DATA 0x3000 20 S_MOD_INIT_FUNC_POINTERS 0 0

/-- A `section_64` whose type code `0x11` is not among the recognized ones. -/
def sectionUnknownType : List Nat := mkSection64 [95, 95, 117] str_DATA 0x4000 8 0x11 0 0

/-- The addresses `a`, `a + w`, `a + 2 w`, ... strictly below `bound`, in
increasing order. -/
def slotAddresses (a bound w : Nat) : List Nat :=
  (List.range ((bound - a + w - 1) / w)).map fun i => a + i * w

/-! ## Reference description of the bind-candidate lists -/

/-- Whether the section loop of `readSegment` pushes a section of masked type
code `t` on its bind-candidate list, in an image of the given width. -/
def isBindCandidate (is64 : Bool) (t : Nat) : Bool :=
  decide (t = S_NON_LAZY_SYMBOL_POINTERS ∨ t = S_LAZY_SYMBOL_POINTERS ∨
    (t = S_SYMBOL_STUBS ∧ is64 = false))

/-- The section descriptors of the segment command at `seg`, in declared order. -/
def sectionPointers (mem : Mem) (wide : Bool) (seg : Nat) : List Nat :=
  (List.range (seg_nsects mem wide seg)).map fun j =>
    seg + sizeof_segment_command wide + j * sizeof_section wide

/-- The bind candidates among the sections of the segment command at `seg`. -/
def segmentCandidates (mem : Mem) (is64 wide : Bool) (seg : Nat) : List Nat :=
  (sectionPointers mem wide seg).filter fun s =>
    isBindCandidate is64 (sec_flags mem wide s &&& SECTION_TYPE)

/-- The bind candidates a load command contributes to the list of the given
width (`wide = true`: `bind_sections_64`, fed by `LC_SEGMENT_64` commands;
`wide = false`: `bind_sections_32`, fed by `LC_SEGMENT` commands). -/
def commandCandidates (mem : Mem) (is64 wide : Bool) (c : Nat) : List Nat :=
  if lc_cmd mem c = segmentCommandOf wide then segmentCandidates mem is64 wide c else []

/-- The bind-candidate list of the given width of an image, in command order
and, within a segment, in declared section order. -/
def bindCandidates (mem : Mem) (is64 wide : Bool) : List Nat :=
  (imageCommands mem is64).flatMap (commandCandidates mem is64 wide)

/-- The records the pointer binder `readClassicBind` emits for a section. -/
def pointerBindRecords (mem : Mem) (m : MachOImpl) (wide : Bool)
    (dysyms symtab symstrtab sec : Nat) : List Bind :=
  readClassicBind mem m wide sec dysyms symtab symstrtab []

/-- The records the stub binder `readStubBind` emits for a section when it
returns: none unless the element size is 5. -/
def stubBindRecords (mem : Mem) (m : MachOImpl) (dysyms symtab symstrtab sec : Nat) :
    List Bind :=
  if sec_reserved2 mem false sec = 5 then
    (List.range (toInt32 (sec_size mem false sec / 5)).toNat).map
      (stubBindAt mem m sec dysyms symtab symstrtab)
  else []

/-- The records the classic binder emits for a section of `bind_sections_32`:
those of the stub binder for a symbol-stub section, those of the pointer binder
otherwise. -/
def narrowBindRecords (mem : Mem) (m : MachOImpl) (dysyms symtab symstrtab sec : Nat) :
    List Bind :=
  if sec_flags mem false sec &&& SECTION_TYPE = S_SYMBOL_STUBS then
    stubBindRecords mem m dysyms symtab symstrtab sec
  else pointerBindRecords mem m false dysyms symtab symstrtab sec

/-- A 32-bit image (`MH_MAGIC`) with three commands: an `LC_SEGMENT_64` whose
only `section_64` is of type symbol-stub (address `0x2000`, size 8, element
size 5), `LC_SYMTAB` (two symbols "foo", "bar") and `LC_DYSYMTAB` (two indirect
entries, for the symbols 1 and 0). -/
def imageStubInWideSegment : Mem :=
  header32 3 ++
    mkSegment64 str_DATA 0x2000
      [mkSection64 [95, 95, 115] str_DATA 0x2000 8 S_SYMBOL_STUBS 0 5] ++
    mkSymtab 292 2 316 9 ++
    mkDysymtab 284 2 0 0 0 0 ++
    le32 0x80000001 ++ le32 0x40000000 ++
    mkNlist32 1 0 0 0x0080 0x1234 ++ mkNlist32 5 0 0 0 0x5678 ++
    [0] ++ str_foo ++ [0] ++ str_bar ++ [0]

/-- The object the constructor yields on `imageStubInWideSegment` (host i386,
descriptor 3): the two Bind records for the symbol-stub section are of kind
pointer, four bytes apart. -/
def imageStubInWideSegmentParsed : MachOImpl :=
  { MachOImpl.fresh true 3 with
    m_is64 := false, m_ptrsize := 4, m_segments64 := [28],
    m_sections := [{ segment := str_DATA, sect := [95, 95, 115], addr := 8192, size := 8 }],
    m_symbols := [{ name := str_foo, addr := 4660 }, { name := str_bar, addr := 22136 }],
    m_binds :=
      [{ name := str_bar, vmaddr := 8192, value := 22136, type := .BIND_TYPE_POINTER,
         ordinal := 1, is_weak := false, is_classic := true, is_lazy := false },
       { name := str_foo, vmaddr := 8196, value := 4660, type := .BIND_TYPE_POINTER,
         ordinal := 1, is_weak := true, is_classic := true, is_lazy := false }] }

/-- The object the constructor yields on `classicImage LC_UUID 10 S_SYMBOL_STUBS 5`
(host i386, descriptor 3): the symbol-stub `section` of an `LC_SEGMENT` command
gives two Bind records of kind stub, five bytes apart. -/
def classicImageStubParsed : MachOImpl :=
  { MachOImpl.fresh true 3 with
    m_is64 := false, m_ptrsize := 4, m_segments := [28],
    m_sections := [{ segment := str_DATA, sect := [95, 95, 112], addr := 8192, size := 10 }],
    m_symbols := [{ name := str_foo, addr := 4660 }, { name := str_bar, addr := 22136 }],
    m_binds :=
      [{ name := str_bar, vmaddr := 8192, value := 22136, type := .BIND_TYPE_STUB,
         ordinal := 1, is_weak := false, is_classic := true, is_lazy := false },
       { name := str_foo, vmaddr := 8197, value := 4660, type := .BIND_TYPE_STUB,
         ordinal := 1, is_weak := true, is_classic := true, is_lazy := false }] }

/-! ## Reference description of the bind passes -/

/-- The records one pass of the bind opcode machine appends for the sub-stream
of `size` bytes at `off`, decoded with the given flags: the machine's records
for the sub-stream, and none for an empty sub-stream. -/
def bindPass (d : Decoders) (mem : Mem) (m : MachOImpl) (off size : Nat)
    (is_weak is_lazy : Bool) : List Bind :=
  if size = 0 then []
  else d.bindOps mem m.m_segments m.m_segments64 off (off + size) is_weak is_lazy

/-- An opcode machine for examples: for each sub-stream it is run on, one Bind
record carrying the start and the end of the sub-stream and the two flags. -/
def tracingDecoders : Decoders :=
  { rebaseOps := fun _ _ _ _ _ => []
    bindOps := fun _ _ _ p e w l =>
      [{ name := [], vmaddr := p, value := e, type := .BIND_TYPE_POINTER, ordinal := 0,
         is_weak := w, is_classic := false, is_lazy := l }] }

/-- A mapping holding at offset 0 an `LC_DYLD_INFO_ONLY` command: no rebase
sub-stream, a regular bind sub-stream (offset `0x100`, size 4), a weak one
(`0x300`, size 2), a lazy one (`0x200`, size 8) and no export sub-stream. -/
def dyldInfoCommand : Mem :=
  le32 LC_DYLD_INFO_ONLY ++ le32 48 ++ le32 0 ++ le32 0 ++ le32 0x100 ++ le32 4 ++
    le32 0x300 ++ le32 2 ++ le32 0x200 ++ le32 8 ++ le32 0 ++ le32 0

/-- The state after the command of `dyldInfoCommand`, processed from
`(object64, Locals.init)` with the machine `tracingDecoders`. -/
def dyldInfoAfter : MachOImpl × Locals :=
  ({ object64 with
      m_binds :=
        [{ name := [], vmaddr := 0x100, value := 0x104, type := .BIND_TYPE_POINTER, ordinal := 0,
           is_weak := false, is_classic := false, is_lazy := false },
         { name := [], vmaddr := 0x200, value := 0x208, type := .BIND_TYPE_POINTER, ordinal := 0,
           is_weak := false, is_classic := false, is_lazy := true },
         { name := [], vmaddr := 0x300, value := 0x302, type := .BIND_TYPE_POINTER, ordinal := 0,
           is_weak := true, is_classic := false, is_lazy := false }] },
    { Locals.init with dyinfo := some 0 })

/-! ## The system calls of `MachOImpl::close` (source lines 777-783) -/

/-- A system call issued by `MachOImpl::close`. -/
inductive SysCall where
  /-- The call `::munmap(m_mapped, m_mapped_size)`. -/
  | munmap
  /-- The call `::close(m_fd)`, with the descriptor passed. -/
  | close (fd : Int)
  deriving DecidableEq, Repr

/-- The system calls `MachOImpl::close` issues in a state: the two calls of
the block guarded by `if (m_mapped)`, none when the mapping pointer is null. -/
def MachOImpl.closeCalls (m : MachOImpl) : List SysCall :=
  if m.m_mapped then [.munmap, .close m.m_fd] else []

/-- The states of a `MachOImpl` object in which `close` can run.  The members
`m_mapped` and `m_fd` are written only by the constructor (source lines 288 and
298) and by `close` itself (lines 781-782), and a constructor that throws
leaves no object behind: `close`, called directly or by the destructor (line
756), runs on the object the constructor returned or on what an earlier call
of `close` left. -/
inductive MachOImpl.ObjectState : MachOImpl → Prop
  /-- The object returned by the constructor. -/
  | construct (h : Host) (d : Decoders) (mem : Mem) (fuel : Nat) (need_exports : Bool)
      (fd : Int) (s : MachOImpl) :
      MachOImpl.construct h d mem fuel need_exports fd = .ok s → MachOImpl.ObjectState s
  /-- The object after a call of `close`. -/
  | close (s : MachOImpl) : MachOImpl.ObjectState s → MachOImpl.ObjectState (MachOImpl.close s)

/-! ## `FSGetCatalogInfo` of `CoreServices/FileManager.cpp` (source lines 245-259)

The inode array `ref->inodes` is a list whose length stands for the constant
`FSRef_MAX_DEPTH` (declared in `FileManager.h`, which is not among the
sources); the two tests of `infoBits` against `kFSCatInfoParentDirID` and
`kFSCatInfoNodeID` are the booleans `wantParent` and `wantNode`. -/

/-- The fields `nodeID` and `parentDirID` of `FSCatalogInfo`. -/
structure CatalogIds where
  nodeID : Nat
  parentDirID : Nat
  deriving DecidableEq, Repr

/-- The loop `for (int i = FSRef_MAX_DEPTH-1; i > 0; i--)` of source lines
249-258, entered with the given value of `i`: a zero inode is skipped, a
non-zero one assigns the requested fields, and the loop goes on to `i - 1`. -/
def catalogIdLoop (inodes : List Nat) (wantParent wantNode : Bool) :
    Nat → CatalogIds → CatalogIds
  | 0, info => info
  | i + 1, info =>
    if inodes.getD (i + 1) 0 = 0 then catalogIdLoop inodes wantParent wantNode i info
    else
      let info1 := if wantParent then { info with parentDirID := inodes.getD i 0 } else info
      let info2 := if wantNode then { info1 with nodeID := inodes.getD (i + 1) 0 } else info1
      catalogIdLoop inodes wantParent wantNode i info2

/-- The block `if (infoBits & (kFSCatInfoParentDirID|kFSCatInfoNodeID))` of
`FSGetCatalogInfo` (source lines 245-259), on the fields of `*infoOut`. -/
def catalogIds (inodes : List Nat) (wantParent wantNode : Bool) (info : CatalogIds) :
    CatalogIds :=
  if wantParent ∨ wantNode then
    let info1 := if wantNode then { info with nodeID := inodes.getD 0 0 } else info
    catalogIdLoop inodes wantParent wantNode (inodes.length - 1) info1
  else info

/-- The fields after `memset(infoOut, 0, sizeof(*infoOut))` (source line 234). -/
def CatalogIds.zero : CatalogIds := { nodeID := 0, parentDirID := 0 }

/-! ## Reference description of the varint encoding -/

/-- The unsigned little-endian base-128 encoding of `n`, with a bound on the
number of continuation bytes: seven bits per byte, least significant group
first, the high bit set on every byte but the last. -/
def encodeUleb128Fuel : Nat → Nat → List Nat
  | 0, n => [n]
  | fuel + 1, n =>
    if n < 128 then [n] else (n % 128 + 128) :: encodeUleb128Fuel fuel (n / 128)

/-- The unsigned little-endian base-128 encoding of `n`. -/
def encodeUleb128 (n : Nat) : List Nat := encodeUleb128Fuel n n

/-! ## Reference description of the symbol list -/

/-- Size in bytes of a symbol-table entry in an image of the given pointer
width: 16 for width 8, 12 for width 4. -/
def symbolStride (ptrsize : Nat) : Nat := if ptrsize = 8 then 16 else 12

/-- The Symbol record of entry `k` of the symbol table at `symoff`, with string
table at `stroff`, in an image of the given pointer width: the name is the C
string at `stroff + n_strx`, the address the entry's value (8 bytes at offset 8
of the entry for width 8, 4 bytes for width 4). -/
def symbolRecord (mem : Mem) (ptrsize symoff stroff k : Nat) : Symbol :=
  { name := cstr mem (stroff + u32 mem (symoff + k * symbolStride ptrsize))
    addr := if ptrsize = 8 then u64 mem (symoff + k * symbolStride ptrsize + 8)
      else u32 mem (symoff + k * symbolStride ptrsize + 8) }

/-- The Symbol records a load command contributes: one per declared entry of a
symbol-table command, in on-disk order, none for any other command. -/
def commandSymbols (mem : Mem) (ptrsize c : Nat) : List Symbol :=
  if lc_cmd mem c = LC_SYMTAB then
    (List.range (u32 mem (c + 12))).map
      (symbolRecord mem ptrsize (u32 mem (c + 8)) (u32 mem (c + 16)))
  else []

/-- The object the constructor yields on `classicImage LC_UUID 8 7 0` (host
i386, descriptor 3): two symbols, and two classic Bind records for the
lazy-pointer section. -/
def classicImagePointerParsed : MachOImpl :=
  { MachOImpl.fresh true 3 with
    m_is64 := false, m_ptrsize := 4, m_segments := [28],
    m_sections := [{ segment := str_DATA, sect := [95, 95, 112], addr := 8192, size := 8 }],
    m_symbols := [{ name := str_foo, addr := 4660 }, { name := str_bar, addr := 22136 }],
    m_binds :=
      [{ name := str_bar, vmaddr := 8192, value := 22136, type := .BIND_TYPE_POINTER,
         ordinal := 1, is_weak := false, is_classic := true, is_lazy := false },
       { name := str_foo, vmaddr := 8196, value := 4660, type := .BIND_TYPE_POINTER,
         ordinal := 1, is_weak := true, is_classic := true, is_lazy := false }] }

/-! ## Reference description of the nodes of an export sub-stream -/

/-- The child offsets the loop over the children of a node reads: `n` children
remain, `p` is the cursor (at the label of the next child). -/
def childOffsets (mem : Mem) : Nat → Nat → List Nat
  | 0, _ => []
  | n + 1, p =>
    (uleb128 mem (p + (cstr mem p).length + 1)).1 ::
      childOffsets mem n (uleb128 mem (p + (cstr mem p).length + 1)).2

/-- The child offsets `readExport` reads at the node entered at `p`: none when
the node is a re-export or its terminal size is wrong (the call ends before
the children), otherwise those of the children that follow the terminal
information. -/
def nodeChildOffsets (mem : Mem) (p : Nat) : List Nat :=
  if u8 mem p ≠ 0 then
    if (uleb128 mem (p + 1)).1 &&& 8 ≠ 0 then []
    else if p + 1 + u8 mem p ≠ (uleb128 mem (uleb128 mem (p + 1)).2).2 then []
    else
      childOffsets mem (u8 mem (uleb128 mem (uleb128 mem (p + 1)).2).2)
        ((uleb128 mem (uleb128 mem (p + 1)).2).2 + 1)
  else childOffsets mem (u8 mem (p + 1)) (p + 2)

/-- The nodes of the export sub-stream starting at `start`: the root, and the
target `start + off` of every child offset read at a node. -/
inductive ExportNode (mem : Mem) (start : Nat) : Nat → Prop where
  | root : ExportNode mem start start
  | child {p off : Nat} : ExportNode mem start p → off ∈ nodeChildOffsets mem p →
      ExportNode mem start (start + off)

/-- An export sub-stream (10 bytes) whose root has the child "a" at offset 5,
and whose node at offset 5 has the child "b" at offset 5: the node itself. -/
def trieCycleBytes : Mem :=
  [0, 1, 0x61, 0, 5,
   0, 1, 0x62, 0, 5]

/-! ## Reference description of the include-exports switch -/

/-- The object with the include-exports switch off and no Export record; every
other member is kept. -/
def MachOImpl.withoutExports (m : MachOImpl) : MachOImpl :=
  { m with m_need_exports := false, m_exports := [] }

/-- A 64-bit image with one `LC_DYLD_INFO_ONLY` command whose only sub-stream
is the export sub-stream of 14 bytes at offset 80, `trieNotTerminalBytes`. -/
def imageWithExports : Mem :=
  header64 1 ++
    (le32 LC_DYLD_INFO_ONLY ++ le32 48 ++ List.replicate 32 0 ++ le32 80 ++ le32 14) ++
    trieNotTerminalBytes

/-- The object the constructor yields on `imageWithExports` with the
include-exports switch on (host x86-64, descriptor 3). -/
def imageWithExportsParsed : MachOImpl :=
  { object64 with m_exports := [{ name := [0x61, 0x62], flag := 0, addr := 0x10 }] }

/-! ## Reference description of the symbol index space -/

/-- The symbol index the classic binder and the stub binder use for slot `i` of
a section whose indirect-table offset is `indirect_offset`: the indirect entry
with its two high bits masked off (source lines 47-48 and 87-88). -/
def symbolIndex (mem : Mem) (dysyms indirect_offset i : Nat) : Nat :=
  u32 mem (dysymEntry dysyms indirect_offset i) &&& 0x3fffffff

/-- A 32-bit image with two symbol-table commands: the first declares one entry
at offset 296 ("bar", `0x5678`), the second two entries at offset 284 ("foo",
`0x1234`, then "bar"); a lazy-pointer section of one slot, whose indirect entry
is the symbol index 0. -/
def imageTwoSymtabs : Mem :=
  header32 4 ++
    mkSegment32 str_DATA 0x2000 [mkSection32 [95, 95, 112] str_DATA 0x2000 4 7 0 0] ++
    mkSymtab 296 1 308 9 ++
    mkSymtab 284 2 308 9 ++
    mkDysymtab 280 1 0 0 0 0 ++
    le32 0 ++
    mkNlist32 1 0 0 0 0x1234 ++ mkNlist32 5 0 0 0 0x5678 ++
    [0] ++ str_foo ++ [0] ++ str_bar ++ [0]

/-- The object the constructor yields on `imageTwoSymtabs` (host i386,
descriptor 3): three symbols ("bar", "foo", "bar"), and one classic Bind
record, produced from symbol index 0 and named "foo". -/
def imageTwoSymtabsParsed : MachOImpl :=
  { MachOImpl.fresh true 3 with
    m_is64 := false, m_ptrsize := 4, m_segments := [28],
    m_sections := [{ segment := str_DATA, sect := [95, 95, 112], addr := 8192, size := 4 }],
    m_symbols := [{ name := str_bar, addr := 22136 }, { name := str_foo, addr := 4660 },
      { name := str_bar, addr := 22136 }],
    m_binds :=
      [{ name := str_foo, vmaddr := 8192, value := 4660, type := .BIND_TYPE_POINTER,
         ordinal := 1, is_weak := false, is_classic := true, is_lazy := false }] }

/-- The Relocation record `readExternalRelocation` builds for the entry at
`reloc` (source lines 699-706). -/
def externalRelocationRecord (mem : Mem) (is64 : Bool) (symtab symstrtab reloc : Nat) :
    Relocation :=
  { addr := int32ToU64 (r_address mem reloc)
    name := cstr mem (symstrtab + n_strx mem
      (symEntry symtab (r_symbolnum mem reloc) (if is64 then 4 else 3)))
    pcrel := r_pcrel mem reloc ≠ 0 }

/-- The records the classic binder appends to the Bind list (source lines
594-608): none unless the gate holds; then those of the pointer binder for
every section of `bind_sections_64`, followed by those of `bind_sections_32`. -/
def classicBinds (mem : Mem) (m : MachOImpl) (l : Locals) : List Bind :=
  match l.dyinfo, l.dysyms, l.symtab, l.symstrtab with
  | none, some dysyms, some symtab, some symstrtab =>
    l.bind_sections_64.flatMap (pointerBindRecords mem m true dysyms symtab symstrtab) ++
      l.bind_sections_32.flatMap (narrowBindRecords mem m dysyms symtab symstrtab)
  | _, _, _, _ => []

set_option maxRecDepth 100000

/-! ## Sequencing -/

@[simp] theorem Res.bind_ok {α β : Type} (a : α) (k : α → Res β) : (Res.ok a).bind k = k a := rfl

@[simp] theorem Res.bind_fault {α β : Type} (f : Fault) (k : α → Res β) :
    (Res.fault f : Res α).bind k = .fault f := rfl

theorem Res.bind_eq_ok {α β : Type} {r : Res α} {k : α → Res β} {b : β} :
    r.bind k = .ok b ↔ ∃ a, r = .ok a ∧ k a = .ok b := by
  cases r with
  | ok a => simp
  | fault f => simp

/-! ## Frame lemmas for `readSegment` -/

theorem noteSpecialSection_frame (mem : Mem) (wide : Bool) (sec : Nat) (s : Section)
    (m : MachOImpl) :
    ∃ dd ef ui, noteSpecialSection mem wide sec s m =
      { m with m_dyld_data := dd, m_eh_frame := ef, m_unwind_info := ui } := by
  unfold noteSpecialSection
  split_ifs <;> exact ⟨_, _, _, rfl⟩

theorem readSection_frame {h : Host} {mem : Mem} {wide : Bool} {fuel sec : Nat}
    {st st' : MachOImpl × List Nat} (hs : readSection h mem wide fuel sec st = .ok st') :
    ∃ dd ef ui inf exf, st'.1 =
      { st.1 with
        m_sections := st.1.m_sections ++ [savedSection h mem wide sec]
        m_dyld_data := dd, m_eh_frame := ef, m_unwind_info := ui
        m_init_funcs := inf, m_exit_funcs := exf } := by
  obtain ⟨dd, ef, ui, hf⟩ := noteSpecialSection_frame mem wide sec (savedSection h mem wide sec)
    { st.1 with m_sections := st.1.m_sections ++ [savedSection h mem wide sec] }
  unfold readSection at hs
  rw [hf] at hs
  dsimp only at hs
  split_ifs at hs
  all_goals first
    | (cases hs; exact ⟨_, _, _, _, _, rfl⟩)
    | (obtain ⟨funcs, -, hk⟩ := Res.bind_eq_ok.mp hs
       cases hk
       exact ⟨_, _, _, _, _, rfl⟩)

theorem readSections_frame {h : Host} {mem : Mem} {wide : Bool} {fuel sections : Nat} :
    ∀ (n j : Nat) {st st' : MachOImpl × List Nat},
      readSections h mem wide fuel sections n j st = .ok st' →
      ∃ dd ef ui inf exf, st'.1 =
        { st.1 with
          m_sections := st.1.m_sections ++ (List.range n).map fun k =>
            savedSection h mem wide (sections + (j + k) * sizeof_section wide)
          m_dyld_data := dd, m_eh_frame := ef, m_unwind_info := ui
          m_init_funcs := inf, m_exit_funcs := exf } := by
  intro n
  induction n with
  | zero =>
    intro j st st' hs
    simp only [readSections, Res.ok.injEq] at hs
    subst hs
    exact ⟨st.1.m_dyld_data, st.1.m_eh_frame, st.1.m_unwind_info, st.1.m_init_funcs,
      st.1.m_exit_funcs, by simp⟩
  | succ n ih =>
    intro j st st' hs
    simp only [readSections] at hs
    obtain ⟨st1, h1, h2⟩ := Res.bind_eq_ok.mp hs
    obtain ⟨dd1, ef1, ui1, inf1, exf1, e1⟩ := readSection_frame h1
    obtain ⟨dd, ef, ui, inf, exf, e2⟩ := ih (j + 1) h2
    refine ⟨dd, ef, ui, inf, exf, ?_⟩
    rw [e2, e1]
    simp [List.range_succ_eq_map, Function.comp_def, Nat.add_assoc, Nat.add_comm 1]

theorem readSegment_frame {h : Host} {mem : Mem} {wide : Bool} {fuel cmds_ptr : Nat}
    {st st' : MachOImpl × List Nat} (hs : readSegment h mem wide fuel cmds_ptr st = .ok st') :
    ∃ dd ef ui inf exf, st'.1 =
      { st.1 with
        m_segments := if wide then st.1.m_segments else st.1.m_segments ++ [cmds_ptr]
        m_segments64 := if wide then st.1.m_segments64 ++ [cmds_ptr] else st.1.m_segments64
        m_sections := st.1.m_sections ++ segmentSections h mem wide cmds_ptr
        m_text_offset :=
          if seg_segname mem cmds_ptr = str_TEXT then toUIntPtr h (seg_vmaddr mem wide cmds_ptr)
          else st.1.m_text_offset
        m_dyld_data := dd, m_eh_frame := ef, m_unwind_info := ui
        m_init_funcs := inf, m_exit_funcs := exf } := by
  unfold readSegment at hs
  obtain ⟨dd, ef, ui, inf, exf, e⟩ := readSections_frame _ _ hs
  refine ⟨dd, ef, ui, inf, exf, ?_⟩
  rw [e]
  cases wide <;> by_cases ht : seg_segname mem cmds_ptr = str_TEXT <;>
    simp [ht, segmentSections]

theorem readDyldRebase_frame (d : Decoders) (mem : Mem) (dyinfo : Nat) (m : MachOImpl) :
    ∃ rb, readDyldRebase d mem dyinfo m = { m with m_rebases := rb } := by
  unfold readDyldRebase
  dsimp only
  split_ifs
  · exact ⟨_, rfl⟩
  · exact ⟨m.m_rebases, rfl⟩

theorem readDyldBinds_frame (d : Decoders) (mem : Mem) (dyinfo : Nat) (m : MachOImpl) :
    readDyldBinds d mem dyinfo m =
      { m with m_binds := (readDyldBinds d mem dyinfo m).m_binds } := rfl

theorem readDyldExports_frame {mem : Mem} {fuel dyinfo : Nat} {m m' : MachOImpl}
    (hs : readDyldExports mem fuel dyinfo m = .ok m') :
    ∃ ex, m' = { m with m_exports := ex } := by
  unfold readDyldExports at hs
  dsimp only at hs
  split_ifs at hs
  · obtain ⟨r, -, hk⟩ := Res.bind_eq_ok.mp hs
    cases hk
    exact ⟨_, rfl⟩
  · cases hs
    exact ⟨m.m_exports, rfl⟩
  · cases hs
    exact ⟨m.m_exports, rfl⟩

theorem readDyldInfo_frame {d : Decoders} {mem : Mem} {fuel dyinfo : Nat} {m m' : MachOImpl}
    (hs : readDyldInfo d mem fuel dyinfo m = .ok m') :
    ∃ rb ex, m' =
      { m with
        m_rebases := rb
        m_binds := (readDyldBinds d mem dyinfo (readDyldRebase d mem dyinfo m)).m_binds
        m_exports := ex } := by
  unfold readDyldInfo at hs
  obtain ⟨ex, e3⟩ := readDyldExports_frame hs
  obtain ⟨rb, e1⟩ := readDyldRebase_frame d mem dyinfo m
  refine ⟨rb, ex, ?_⟩
  rw [e3, readDyldBinds_frame]
  simp only [e1]

/-! ## Segments and sections along the walk -/

/-- What one load command does to the configuration, the segment lists and the
section list. -/
theorem processCommand_segments {h : Host} {d : Decoders} {mem : Mem} {fuel c : Nat}
    {st st' : MachOImpl × Locals} (hs : processCommand h d mem fuel c st = .ok st') :
    st'.1.m_is64 = st.1.m_is64 ∧ st'.1.m_ptrsize = st.1.m_ptrsize ∧
    st'.1.m_need_exports = st.1.m_need_exports ∧
    st'.1.m_segments = st.1.m_segments ++ (if lc_cmd mem c = LC_SEGMENT then [c] else []) ∧
    st'.1.m_segments64 =
      st.1.m_segments64 ++ (if lc_cmd mem c = LC_SEGMENT_64 then [c] else []) ∧
    st'.1.m_sections = st.1.m_sections ++ commandSections h mem c := by
  unfold processCommand at hs
  dsimp only at hs
  by_cases h1 : lc_cmd mem c = LC_SEGMENT_64
  · rw [if_pos h1] at hs
    obtain ⟨r, hr, hk⟩ := Res.bind_eq_ok.mp hs
    obtain ⟨dd, ef, ui, inf, exf, e⟩ := readSegment_frame hr
    cases hk
    simp [e, commandSections, h1, (by decide : LC_SEGMENT_64 ≠ LC_SEGMENT)]
  rw [if_neg h1] at hs
  by_cases h2 : lc_cmd mem c = LC_SEGMENT
  · rw [if_pos h2] at hs
    obtain ⟨r, hr, hk⟩ := Res.bind_eq_ok.mp hs
    obtain ⟨dd, ef, ui, inf, exf, e⟩ := readSegment_frame hr
    cases hk
    simp [e, commandSections, h2, (by decide : LC_SEGMENT ≠ LC_SEGMENT_64)]
  rw [if_neg h2] at hs
  by_cases h3 : lc_cmd mem c = LC_DYLD_INFO ∨ lc_cmd mem c = LC_DYLD_INFO_ONLY
  · rw [if_pos h3] at hs
    obtain ⟨r, hr, hk⟩ := Res.bind_eq_ok.mp hs
    obtain ⟨rb, ex, e⟩ := readDyldInfo_frame hr
    cases hk
    simp [e, commandSections, h1, h2]
  rw [if_neg h3] at hs
  split_ifs at hs
  all_goals
    cases hs
    simp [commandSections, h1, h2]

theorem walkCommands_segments {h : Host} {d : Decoders} {mem : Mem} {fuel : Nat} :
    ∀ (n c : Nat) {st st' : MachOImpl × Locals},
      walkCommands h d mem fuel n c st = .ok st' →
      st'.1.m_is64 = st.1.m_is64 ∧ st'.1.m_ptrsize = st.1.m_ptrsize ∧
      st'.1.m_need_exports = st.1.m_need_exports ∧
      st'.1.m_segments = st.1.m_segments ++
        (commandOffsets mem n c).filter (fun c => decide (lc_cmd mem c = LC_SEGMENT)) ∧
      st'.1.m_segments64 = st.1.m_segments64 ++
        (commandOffsets mem n c).filter (fun c => decide (lc_cmd mem c = LC_SEGMENT_64)) ∧
      st'.1.m_sections = st.1.m_sections ++
        (commandOffsets mem n c).flatMap (commandSections h mem) := by
  intro n
  induction n with
  | zero =>
    intro c st st' hs
    simp only [walkCommands, Res.ok.injEq] at hs
    subst hs
    simp [commandOffsets]
  | succ n ih =>
    intro c st st' hs
    simp only [walkCommands] at hs
    obtain ⟨st1, h1, h2⟩ := Res.bind_eq_ok.mp hs
    obtain ⟨a1, a2, a3, a4, a5, a6⟩ := processCommand_segments h1
    obtain ⟨b1, b2, b3, b4, b5, b6⟩ := ih _ h2
    refine ⟨b1.trans a1, b2.trans a2, b3.trans a3, ?_, ?_, ?_⟩
    · rw [b4, a4]
      by_cases hc : lc_cmd mem c = LC_SEGMENT <;> simp [commandOffsets, List.filter_cons, hc]
    · rw [b5, a5]
      by_cases hc : lc_cmd mem c = LC_SEGMENT_64 <;> simp [commandOffsets, List.filter_cons, hc]
    · rw [b6, a6]
      simp [commandOffsets]

/-! ## Frames of the steps after the walk and of the header checks -/

theorem readClassicBinds_frame {mem : Mem} {m m' : MachOImpl} {l : Locals}
    (hs : readClassicBinds mem m l = .ok m') : ∃ bd, m' = { m with m_binds := bd } := by
  unfold readClassicBinds at hs
  split at hs
  · obtain ⟨bd, -, hk⟩ := Res.bind_eq_ok.mp hs
    cases hk
    exact ⟨_, rfl⟩
  · cases hs
    exact ⟨m.m_binds, rfl⟩

theorem readRelocations_frame {h : Host} {mem : Mem} {m m' : MachOImpl} {l : Locals}
    (hs : readRelocations h mem m l = .ok m') :
    ∃ rl rb, m' = { m with m_relocations := rl, m_rebases := rb } := by
  unfold readRelocations at hs
  obtain ⟨rl, -, hk⟩ := Res.bind_eq_ok.mp hs
  split at hk
  · cases hk
    exact ⟨_, _, rfl⟩
  · cases hk
    exact ⟨_, m.m_rebases, rfl⟩

theorem validateHeader_frame {mem : Mem} {m m' : MachOImpl}
    (hs : validateHeader mem m = .ok m') :
    m' = { m with
      m_is64 := decide (hdr_magic mem = MH_MAGIC_64)
      m_ptrsize := if hdr_magic mem = MH_MAGIC_64 then 8 else 4 } := by
  unfold validateHeader at hs
  dsimp only at hs
  obtain ⟨b, hb, hk⟩ := Res.bind_eq_ok.mp hs
  by_cases hc : hdr_cputype mem &&& 0x00ffffff ≠ CPU_TYPE_X86
  · rw [if_pos hc] at hk
    cases hk
  rw [if_neg hc] at hk
  by_cases h1 : hdr_magic mem = MH_MAGIC_64
  · rw [if_pos h1] at hb
    cases hb
    cases hk
    simp [h1]
  · rw [if_neg h1] at hb
    by_cases h2 : hdr_magic mem = MH_CIGAM
    · rw [if_pos h2] at hb
      cases hb
    rw [if_neg h2] at hb
    by_cases h3 : hdr_magic mem ≠ MH_MAGIC
    · rw [if_pos h3] at hb
      cases hb
    rw [if_neg h3] at hb
    cases hb
    cases hk
    simp [h1]

/-- The stages of a parse that returns: header checks, the walk over the load
commands, classic binding, legacy relocations. -/
theorem construct_stages {h : Host} {d : Decoders} {mem : Mem} {fuel : Nat}
    {need_exports : Bool} {fd : Int} {m : MachOImpl}
    (hparse : MachOImpl.construct h d mem fuel need_exports fd = .ok m) :
    ∃ m0 st m1,
      validateHeader mem (MachOImpl.fresh need_exports fd) = .ok m0 ∧
      walkCommands h d mem fuel (hdr_ncmds mem) (sizeof_mach_header m0.m_is64)
        (m0, Locals.init) = .ok st ∧
      readClassicBinds mem st.1 st.2 = .ok m1 ∧
      readRelocations h mem m1 st.2 = .ok m := by
  unfold MachOImpl.construct at hparse
  split_ifs at hparse
  obtain ⟨m0, h0, hp⟩ := Res.bind_eq_ok.mp hparse
  unfold processLoaderCommands at hp
  obtain ⟨st, hw, hp2⟩ := Res.bind_eq_ok.mp hp
  obtain ⟨m1, hc, hr⟩ := Res.bind_eq_ok.mp hp2
  exact ⟨m0, st, m1, h0, hw, hc, hr⟩

theorem u8_lt (mem : Mem) (off : Nat) : u8 mem off < 256 := Nat.mod_lt _ (by decide)

theorem u16_lt (mem : Mem) (off : Nat) : u16 mem off < 2 ^ 16 := by
  have h1 := u8_lt mem off
  have h2 := u8_lt mem (off + 1)
  unfold u16
  omega

theorem u32_lt (mem : Mem) (off : Nat) : u32 mem off < 2 ^ 32 := by
  have h1 := u16_lt mem off
  have h2 := u16_lt mem (off + 2)
  unfold u32
  omega

theorem u64_lt (mem : Mem) (off : Nat) : u64 mem off < 2 ^ 64 := by
  have h1 := u32_lt mem off
  have h2 := u32_lt mem (off + 4)
  unfold u64
  omega

mutual
theorem readExport_trie (mem : Mem) (start end_ : Nat) :
    ∀ (t : Trie) (fuel p : Nat) (buf : Bytes) (exports : List Export),
      t.encodedAt mem start end_ p = true → t.noReexport = true → t.depth ≤ fuel →
      readExport mem start end_ fuel p (buf, exports) = .ok (buf, exports ++ t.exports buf)
  | .node none ks, fuel, p, buf, exports, henc, hre, hd => by
    obtain ⟨f, rfl⟩ : ∃ f, fuel = f + 1 := ⟨fuel - 1, by simp [Trie.depth] at hd; omega⟩
    simp only [Trie.encodedAt, Bool.and_eq_true, decide_eq_true_eq, beq_iff_eq] at henc
    obtain ⟨⟨⟨hp, h0⟩, hn⟩, hk⟩ := henc
    simp only [Trie.noReexport, Bool.true_and] at hre
    simp only [Trie.depth, Nat.add_le_add_iff_right] at hd
    have := readExportChildren_kids mem start end_ ks f (p + 2) buf exports hk hre hd
    simp only [readExport, Nat.not_le.mpr hp, if_false, h0, ne_eq, not_true_eq_false, hn, this,
      Trie.exports, List.nil_append]
  | .node (some fa) ks, fuel, p, buf, exports, henc, hre, hd => by
    obtain ⟨f, rfl⟩ : ∃ f, fuel = f + 1 := ⟨fuel - 1, by simp [Trie.depth] at hd; omega⟩
    simp only [Trie.encodedAt, Bool.and_eq_true, decide_eq_true_eq, beq_iff_eq, bne_iff_ne] at henc
    obtain ⟨⟨⟨⟨⟨⟨hp, h0⟩, hfl⟩, had⟩, hend⟩, hn⟩, hk⟩ := henc
    simp only [Trie.noReexport, Bool.and_eq_true, beq_iff_eq] at hre
    simp only [Trie.depth, Nat.add_le_add_iff_right] at hd
    have := readExportChildren_kids mem start end_ ks f (p + 1 + u8 mem p + 1) buf
      (exports ++ [{ name := buf, flag := fa.1, addr := fa.2 }]) hk hre.2 hd
    simp only [readExport, Nat.not_le.mpr hp, if_false, ne_eq, h0, not_false_eq_true, if_true,
      hfl, hre.1, not_true_eq_false, had, hend, hn, this, Trie.exports, List.append_assoc,
      List.singleton_append]
theorem readExportChildren_kids (mem : Mem) (start end_ : Nat) :
    ∀ (ks : Kids) (fuel p : Nat) (buf : Bytes) (exports : List Export),
      ks.encodedAt mem start end_ p = true → ks.noReexport = true → ks.depth ≤ fuel →
      readExportChildren (readExport mem start end_ fuel) mem start ks.length p (buf, exports) =
        .ok (buf, exports ++ ks.exports buf)
  | .nil, fuel, p, buf, exports, _, _, _ => by
    simp [readExportChildren, Kids.length, Kids.exports]
  | .cons label c r, fuel, p, buf, exports, henc, hre, hd => by
    simp only [Kids.encodedAt, Bool.and_eq_true, beq_iff_eq, bne_iff_ne] at henc
    obtain ⟨⟨⟨hl, hoff⟩, hc⟩, hr⟩ := henc
    simp only [Kids.noReexport, Bool.and_eq_true] at hre
    simp only [Kids.depth, max_le_iff] at hd
    have h1 := readExport_trie mem start end_ c fuel _ (buf ++ label) exports hc hre.1 hd.1
    have h2 := readExportChildren_kids mem start end_ r fuel _ buf
      (exports ++ c.exports (buf ++ label)) hr hre.2 hd.2
    simp only [Kids.length, readExportChildren, hl, if_neg hoff, h1, Res.bind_ok,
      List.take_left, h2, Kids.exports, List.append_assoc]
end

mutual
theorem trie_exports_length : ∀ (t : Trie) (pre : Bytes), (t.exports pre).length = t.terminals
  | .node none ks, pre => by
    simp [Trie.exports, Trie.terminals, kids_exports_length ks pre]
  | .node (some fa) ks, pre => by
    simp [Trie.exports, Trie.terminals, kids_exports_length ks pre, Nat.add_comm]
theorem kids_exports_length : ∀ (ks : Kids) (pre : Bytes), (ks.exports pre).length = ks.terminals
  | .nil, _ => rfl
  | .cons label c r, pre => by
    simp [Kids.exports, Kids.terminals, trie_exports_length c (pre ++ label),
      kids_exports_length r pre]
end

/-- C2. For every finite (hence acyclic) export trie `t` held by the sub-stream
`[start, end_)` with its root at `start`, none of whose terminal nodes carries
the re-export flag, `readExport` returns (with fuel at least the height of the
trie), leaves the name buffer as it found it, and appends to the export list
exactly the terminal nodes of `t` in depth-first pre-order, one record each,
whose name is the concatenation of the edge labels from the root and whose
flags and address are the node's.  The names therefore depend only on the
leaves of the trie, not on its branching. -/
theorem C2_export_trie_preorder (mem : Mem) (start end_ : Nat) (t : Trie) (fuel : Nat)
    (exports : List Export)
    (henc : t.encodedAt mem start end_ start = true) (hre : t.noReexport = true)
    (hfuel : t.depth ≤ fuel) :
    readExport mem start end_ fuel start ([], exports) = .ok ([], exports ++ t.exports []) ∧
    (t.exports []).length = t.terminals :=
  ⟨readExport_trie mem start end_ t fuel start [] exports henc hre hfuel,
    trie_exports_length t []⟩

/-- C2 on two differently branched tries with the leaves "foo", "bar", "baz":
both decode to the same three records. -/
theorem C2_export_trie_witness :
    readExport trieFlatBytes 0 29 2 0 ([], []) =
      .ok ([], [⟨str_foo, 0, 1⟩, ⟨str_bar, 0, 2⟩, ⟨str_baz, 0, 3⟩]) ∧
    readExport trieBranchedBytes 0 31 3 0 ([], []) =
      .ok ([], [⟨str_foo, 0, 1⟩, ⟨str_bar, 0, 2⟩, ⟨str_baz, 0, 3⟩]) :=
  ⟨(C2_export_trie_preorder trieFlatBytes 0 29 trieFlat 2 [] (by decide) (by decide)
      (by decide)).1,
    (C2_export_trie_preorder trieBranchedBytes 0 31 trieBranched 3 [] (by decide) (by decide)
      (by decide)).1⟩

/-! ## C3: a re-export node -/

/-- C3 (the code at the failing input). In `trieReexportBytes` the node "a" is a
terminal node flagged as a re-export and has the child "ab", a regular export:
`readExport` emits no record at all, because the `return` taken for the
re-export node (source line 252) also skips the loop over its children.  With
the node "a" not terminal (`trieNotTerminalBytes`) the record of "ab" is
emitted. -/
theorem C3_reexport_drops_descendants :
    readExport trieReexportBytes 0 17 5 0 ([], []) = .ok ([], []) ∧
    readExport trieNotTerminalBytes 0 14 5 0 ([], []) =
      .ok ([], [{ name := [0x61, 0x62], flag := 0, addr := 0x10 }]) := by
  decide

/-! ## C4: reads beyond the end of the export sub-stream -/

/-- C4 (counterexample). The sub-stream is the single byte `[0, 1)`; the two
mappings agree on it and differ only beyond its end, yet `readExport` returns
normally on both with different records: the flags, the address and the child
count were read at offsets 1, 2 and 3, beyond the end, without the error. -/
theorem C4_reads_beyond_end :
    truncatedTrieA.take 1 = truncatedTrieB.take 1 ∧
    readExport truncatedTrieA 0 1 1 0 ([], []) =
      .ok ([], [{ name := [], flag := 0, addr := 0x10 }]) ∧
    readExport truncatedTrieB 0 1 1 0 ([], []) =
      .ok ([], [{ name := [], flag := 0, addr := 0x20 }]) := by
  decide

theorem readExportChildren_beyond_end (mem : Mem) (start end_ fuel n q : Nat)
    (st : Bytes × List Export)
    (h0 : (uleb128 mem (q + (cstr mem q).length + 1)).1 ≠ 0)
    (he : end_ ≤ start + (uleb128 mem (q + (cstr mem q).length + 1)).1) :
    readExportChildren (readExport mem start end_ (fuel + 1)) mem start (n + 1) q st =
      .fault (.error .brokenExportTrie) := by
  simp [readExportChildren, h0, readExport, he]

/-- C4 (amended). The terminal-size byte of a node is never read at or beyond
the end of the sub-stream: entering a node (the root, or a child through its
offset) at an offset `p` with `end_ ≤ p` fails with the "broken export trie"
error before any byte is read. -/
theorem C4_node_beyond_end_is_error (mem : Mem) (start end_ fuel p : Nat)
    (st : Bytes × List Export) (hp : end_ ≤ p) :
    readExport mem start end_ (fuel + 1) p st = .fault (.error .brokenExportTrie) := by
  simp [readExport, hp]

/-- C4 (amended) at a concrete input: a node entered at the end of a one-byte
sub-stream. -/
theorem C4_node_beyond_end_witness :
    1 ≤ 1 ∧ readExport [0] 0 1 1 1 ([], []) = .fault (.error .brokenExportTrie) :=
  ⟨by decide, C4_node_beyond_end_is_error [0] 0 1 0 1 ([], []) (by decide)⟩

/-! ## C5: classic binding of a pointer section -/

theorem and_mask30 (x : Nat) : x &&& 0x3fffffff = x % 2 ^ 30 :=
  Nat.and_pow_two_sub_one_eq_mod x 30

theorem and_mask32 (x : Nat) : x &&& 0xffffffff = x % 2 ^ 32 :=
  Nat.and_pow_two_sub_one_eq_mod x 32

theorem toInt32_toNat (x : Nat) (hx : x < 2 ^ 31) : (toInt32 x).toNat = x := by
  have h1 : x % 2 ^ 32 = x := Nat.mod_eq_of_lt (by omega)
  unfold toInt32
  rw [h1, if_pos hx]
  rfl

theorem n_value_lt (mem : Mem) (sym : Nat) : n_value mem sym < 2 ^ 64 := u64_lt mem _

theorem classicBindAt_eq_record (mem : Mem) (m : MachOImpl) (wide : Bool)
    (sec dysyms symtab symstrtab i : Nat)
    (hw : m.m_ptrsize = if m.m_is64 then 8 else 4)
    (hwide : wide = true ∨ m.m_is64 = false)
    (hidx : sec_reserved1 mem wide sec + i < 2 ^ 32) :
    classicBindAt mem m wide sec dysyms symtab symstrtab i =
      classicBindRecord mem m.m_is64 wide m.m_ptrsize sec symtab symstrtab i
        (indirectEntry mem dysyms (sec_reserved1 mem wide sec + i) % 2 ^ 30) := by
  have hlt : indirectEntry mem dysyms (sec_reserved1 mem wide sec + i) % 2 ^ 30 < 2 ^ 30 :=
    Nat.mod_lt _ (by decide)
  have hv := n_value_lt mem
  unfold classicBindAt classicBindRecord
  simp only [dysymEntry, Nat.mod_eq_of_lt hidx, and_mask30, and_mask32, symEntry, N_WEAK_DEF]
  rw [← indirectEntry]
  generalize indirectEntry mem dysyms (sec_reserved1 mem wide sec + i) % 2 ^ 30 = index at hlt ⊢
  cases h64 : m.m_is64
  · have hs : symtab + 4 * (index * 3 % 2 ^ 32) = symtab + 12 * index := by
      rw [Nat.mod_eq_of_lt (by omega)]; ring
    rw [h64] at hw
    simp only [Bool.false_eq_true, if_false] at hw
    simp only [Bool.false_eq_true, if_false, if_true, hs, hw]
    congr 1
    · cases wide
      · simp
      · simp only [Bool.true_eq_false, if_false, if_true]
        norm_num
  · have hs : symtab + 4 * (index * 4 % 2 ^ 32) = symtab + 16 * index := by
      rw [Nat.mod_eq_of_lt (by omega)]; ring
    rw [h64] at hw hwide
    simp only [if_true] at hw
    have hwt : wide = true := by simpa using hwide
    subst hwt
    simp only [Bool.true_eq_false, if_false, if_true, hs, hw]
    congr 1
    exact (Nat.mod_eq_of_lt (hv _)).symm

/-- C5 (counterexample). A 32-bit image with a lazy-pointer section at address
`0xfffffffc` of size 8: the second Bind record has address 0, not
`0xfffffffc + 1 * 4`. -/
theorem C5_address_wraps :
    (readClassicBind classicBindBytes object32 false 0 68 76 100 []).map (fun b => b.vmaddr) =
      [0xfffffffc, 0] ∧
    sec_addr classicBindBytes false 0 + 1 * object32.m_ptrsize = 0x100000000 := by
  decide

/-- C5 (amended). For every pointer section (a `section_64` when the image is
64-bit) with base address `a`, size `s` and indirect-table offset `r`, in an
image of pointer width `w`, with `s / w` below `2^31` and the indices `r + i`
within 32 bits: `readClassicBind` appends exactly `s / w` Bind records, and the
`i`-th is the record of the symbol-table entry number `indirect[r + i] mod 2^30`
with address `(a + i * w) mod 2^(8 w)`, the symbol's name, its value modulo
`2^(8 w)`, kind pointer, ordinal 1, classic flag set and weak flag equal to bit
`0x0080` of the symbol's descriptor.  As the entry enters only modulo `2^30`,
indirect arrays that differ in the two high bits of their entries give the
same records. -/
theorem C5_classic_bind_records (mem : Mem) (m : MachOImpl) (wide : Bool)
    (sec dysyms symtab symstrtab : Nat) (binds : List Bind)
    (hw : m.m_ptrsize = if m.m_is64 then 8 else 4)
    (hwide : wide = true ∨ m.m_is64 = false)
    (hcount : sec_size mem wide sec / m.m_ptrsize < 2 ^ 31)
    (hidx : sec_reserved1 mem wide sec + sec_size mem wide sec / m.m_ptrsize ≤ 2 ^ 32) :
    readClassicBind mem m wide sec dysyms symtab symstrtab binds =
      binds ++ (List.range (sec_size mem wide sec / m.m_ptrsize)).map fun i =>
        classicBindRecord mem m.m_is64 wide m.m_ptrsize sec symtab symstrtab i
          (indirectEntry mem dysyms (sec_reserved1 mem wide sec + i) % 2 ^ 30) := by
  unfold readClassicBind
  simp only [toInt32_toNat _ hcount]
  congr 1
  apply List.map_congr_left
  intro i hi
  rw [List.mem_range] at hi
  exact classicBindAt_eq_record mem m wide sec dysyms symtab symstrtab i hw hwide (by omega)

/-- C5 (amended) on the section of `classicBindBytes`: two records, for the
symbols number 1 and 0, although the indirect entries are `0x80000001` and
`0x40000000`. -/
theorem C5_classic_bind_witness :
    readClassicBind classicBindBytes object32 false 0 68 76 100 [] =
      [{ name := str_bar, vmaddr := 0xfffffffc, value := 0x5678, type := .BIND_TYPE_POINTER,
         ordinal := 1, is_weak := false, is_classic := true, is_lazy := false },
       { name := str_foo, vmaddr := 0, value := 0x1234, type := .BIND_TYPE_POINTER,
         ordinal := 1, is_weak := true, is_classic := true, is_lazy := false }] :=
  (C5_classic_bind_records classicBindBytes object32 false 0 68 76 100 [] (by decide)
    (by decide) (by decide) (by decide)).trans (by decide)

/-! ## C6: a stub section whose element size is not 5 -/

/-- C6 (the code at the failing input). A 32-bit image with a symbol-stub
section of size 10 whose element size (`reserved2`) is 0, a symbol table and
an indirect-symbol array, and no dynamic-linker-info command: the quotient
`sec.size / element_size` of source line 77 is evaluated before the test of
line 79, so `readStubBind` and with it the whole parse end in a division by
zero instead of returning.  With element size 7 the parse returns, with no
Bind record. -/
theorem C6_stub_element_size_zero_divides :
    readStubBind (classicImage LC_UUID 10 S_SYMBOL_STUBS 0) object32 84 304 312 336 [] =
      .fault .divideByZero ∧
    MachOImpl.construct .i386 noDecoders (classicImage LC_UUID 10 S_SYMBOL_STUBS 0) 1 true 3 =
      .fault .divideByZero ∧
    (MachOImpl.construct .i386 noDecoders (classicImage LC_UUID 10 S_SYMBOL_STUBS 7) 1 true
      3).bind (fun m => .ok m.m_binds) = .ok [] := by
  decide

/-! ## C7: when classic binding runs -/

theorem readDysymtab_locals (mem : Mem) (c : Nat) (l : Locals) :
    (readDysymtab mem c l).dyinfo = l.dyinfo ∧ (readDysymtab mem c l).symtab = l.symtab ∧
    (readDysymtab mem c l).symstrtab = l.symstrtab ∧
    (readDysymtab mem c l).dysyms =
      (if u32 mem (c + 60) ≠ 0 then some (u32 mem (c + 56)) else l.dysyms) ∧
    (readDysymtab mem c l).bind_sections_32 = l.bind_sections_32 ∧
    (readDysymtab mem c l).bind_sections_64 = l.bind_sections_64 := by
  unfold readDysymtab
  dsimp only
  split_ifs <;> simp

/-- What one load command does to the pointers tested by the classic-binding
gate. -/
theorem processCommand_locals {h : Host} {d : Decoders} {mem : Mem} {fuel c : Nat}
    {st st' : MachOImpl × Locals} (hs : processCommand h d mem fuel c st = .ok st') :
    st'.2.dyinfo.isSome = (st.2.dyinfo.isSome || isDyldInfo mem c) ∧
    st'.2.symtab.isSome = (st.2.symtab.isSome || isSymtab mem c) ∧
    st'.2.symstrtab.isSome = (st.2.symstrtab.isSome || isSymtab mem c) ∧
    st'.2.dysyms.isSome = (st.2.dysyms.isSome || isDysymtabWithIndirect mem c) := by
  unfold processCommand at hs
  dsimp only at hs
  unfold isDyldInfo isSymtab isDysymtabWithIndirect
  simp only [LC_SEGMENT_64, LC_SEGMENT, LC_DYLD_INFO, LC_DYLD_INFO_ONLY, LC_SYMTAB, LC_DYSYMTAB,
    LC_LOAD_DYLINKER, LC_UUID, LC_UNIXTHREAD, LC_MAIN, LC_LOAD_DYLIB, LC_RPATH] at hs ⊢
  by_cases h1 : lc_cmd mem c = 25
  · rw [if_pos h1] at hs
    obtain ⟨r, hr, hk⟩ := Res.bind_eq_ok.mp hs
    cases hk
    simp [h1]
  rw [if_neg h1] at hs
  by_cases h2 : lc_cmd mem c = 1
  · rw [if_pos h2] at hs
    obtain ⟨r, hr, hk⟩ := Res.bind_eq_ok.mp hs
    cases hk
    simp [h2]
  rw [if_neg h2] at hs
  by_cases h3 : lc_cmd mem c = 34 ∨ lc_cmd mem c = 2147483682
  · rw [if_pos h3] at hs
    obtain ⟨r, hr, hk⟩ := Res.bind_eq_ok.mp hs
    cases hk
    rcases h3 with h3 | h3 <;> simp [h3]
  rw [if_neg h3] at hs
  rw [not_or] at h3
  by_cases h4 : lc_cmd mem c = 2
  · rw [if_pos h4] at hs
    cases hs
    simp [h4]
  rw [if_neg h4] at hs
  by_cases h5 : lc_cmd mem c = 11
  · rw [if_pos h5] at hs
    cases hs
    obtain ⟨e1, e2, e3, e4, -, -⟩ := readDysymtab_locals mem c st.2
    simp only [e1, e2, e3, e4]
    by_cases hn : u32 mem (c + 60) = 0 <;> simp [h5, hn]
  rw [if_neg h5] at hs
  split_ifs at hs
  all_goals
    cases hs
    simp [h3.1, h3.2, h4, h5]

theorem readBind_forall {d : Decoders} {mem : Mem} (P : Bind → Prop)
    (hops : ∀ s32 s64 p e w l, ∀ b ∈ d.bindOps mem s32 s64 p e w l, P b)
    (m : MachOImpl) (hm : ∀ b ∈ m.m_binds, P b) (start end_ : Nat) (w l : Bool) :
    ∀ b ∈ readBind d mem m start end_ w l, P b := by
  unfold readBind
  split_ifs
  · intro b hb
    rcases List.mem_append.mp hb with hb | hb
    · exact hm b hb
    · exact hops _ _ _ _ _ _ b hb
  · exact hm

theorem readDyldInfo_binds_forall {d : Decoders} {mem : Mem} {fuel c : Nat} {m m' : MachOImpl}
    (P : Bind → Prop)
    (hops : ∀ s32 s64 p e w l, ∀ b ∈ d.bindOps mem s32 s64 p e w l, P b)
    (hm : ∀ b ∈ m.m_binds, P b) (hs : readDyldInfo d mem fuel c m = .ok m') :
    ∀ b ∈ m'.m_binds, P b := by
  obtain ⟨rb, ex, e⟩ := readDyldInfo_frame hs
  obtain ⟨rb1, e1⟩ := readDyldRebase_frame d mem c m
  rw [e]
  show ∀ b ∈ (readDyldBinds d mem c (readDyldRebase d mem c m)).m_binds, P b
  have h1 : ∀ b ∈ (readDyldRebase d mem c m).m_binds, P b := by rw [e1]; exact hm
  unfold readDyldBinds
  dsimp only
  apply readBind_forall P hops
  apply readBind_forall P hops
  apply readBind_forall P hops
  exact h1

/-- A property of all Bind records that the opcode machine guarantees for its
own records is kept by every load command. -/
theorem processCommand_binds_forall {h : Host} {d : Decoders} {mem : Mem} {fuel c : Nat}
    {st st' : MachOImpl × Locals} (P : Bind → Prop)
    (hops : ∀ s32 s64 p e w l, ∀ b ∈ d.bindOps mem s32 s64 p e w l, P b)
    (hm : ∀ b ∈ st.1.m_binds, P b) (hs : processCommand h d mem fuel c st = .ok st') :
    ∀ b ∈ st'.1.m_binds, P b := by
  unfold processCommand at hs
  dsimp only at hs
  by_cases h1 : lc_cmd mem c = LC_SEGMENT_64
  · rw [if_pos h1] at hs
    obtain ⟨r, hr, hk⟩ := Res.bind_eq_ok.mp hs
    obtain ⟨dd, ef, ui, inf, exf, e⟩ := readSegment_frame hr
    cases hk
    rw [e]
    exact hm
  rw [if_neg h1] at hs
  by_cases h2 : lc_cmd mem c = LC_SEGMENT
  · rw [if_pos h2] at hs
    obtain ⟨r, hr, hk⟩ := Res.bind_eq_ok.mp hs
    obtain ⟨dd, ef, ui, inf, exf, e⟩ := readSegment_frame hr
    cases hk
    rw [e]
    exact hm
  rw [if_neg h2] at hs
  by_cases h3 : lc_cmd mem c = LC_DYLD_INFO ∨ lc_cmd mem c = LC_DYLD_INFO_ONLY
  · rw [if_pos h3] at hs
    obtain ⟨r, hr, hk⟩ := Res.bind_eq_ok.mp hs
    cases hk
    exact readDyldInfo_binds_forall P hops hm hr
  rw [if_neg h3] at hs
  split_ifs at hs
  all_goals
    cases hs
    exact hm

theorem walkCommands_binds_forall {h : Host} {d : Decoders} {mem : Mem} {fuel : Nat}
    (P : Bind → Prop)
    (hops : ∀ s32 s64 p e w l, ∀ b ∈ d.bindOps mem s32 s64 p e w l, P b) :
    ∀ (n c : Nat) {st st' : MachOImpl × Locals}, (∀ b ∈ st.1.m_binds, P b) →
      walkCommands h d mem fuel n c st = .ok st' → ∀ b ∈ st'.1.m_binds, P b := by
  intro n
  induction n with
  | zero =>
    intro c st st' hm hs
    simp only [walkCommands, Res.ok.injEq] at hs
    subst hs
    exact hm
  | succ n ih =>
    intro c st st' hm hs
    simp only [walkCommands] at hs
    obtain ⟨st1, h1, h2⟩ := Res.bind_eq_ok.mp hs
    exact ih _ (processCommand_binds_forall P hops hm h1) h2

theorem walkCommands_locals {h : Host} {d : Decoders} {mem : Mem} {fuel : Nat} :
    ∀ (n c : Nat) {st st' : MachOImpl × Locals},
      walkCommands h d mem fuel n c st = .ok st' →
      st'.2.dyinfo.isSome = (st.2.dyinfo.isSome || (commandOffsets mem n c).any (isDyldInfo mem)) ∧
      st'.2.symtab.isSome = (st.2.symtab.isSome || (commandOffsets mem n c).any (isSymtab mem)) ∧
      st'.2.symstrtab.isSome =
        (st.2.symstrtab.isSome || (commandOffsets mem n c).any (isSymtab mem)) ∧
      st'.2.dysyms.isSome =
        (st.2.dysyms.isSome || (commandOffsets mem n c).any (isDysymtabWithIndirect mem)) := by
  intro n
  induction n with
  | zero =>
    intro c st st' hs
    simp only [walkCommands, Res.ok.injEq] at hs
    subst hs
    simp [commandOffsets]
  | succ n ih =>
    intro c st st' hs
    simp only [walkCommands] at hs
    obtain ⟨st1, h1, h2⟩ := Res.bind_eq_ok.mp hs
    obtain ⟨a1, a2, a3, a4⟩ := processCommand_locals h1
    obtain ⟨b1, b2, b3, b4⟩ := ih _ h2
    simp only [commandOffsets, List.any_cons, b1, b2, b3, b4, a1, a2, a3, a4, Bool.or_assoc,
      and_self]

theorem readClassicBinds_gate_false {mem : Mem} {m : MachOImpl} {l : Locals}
    (hg : classicBindGate l = false) : readClassicBinds mem m l = .ok m := by
  unfold readClassicBinds
  unfold classicBindGate at hg
  split
  · rename_i h1 h2 h3 h4
    simp [h1, h2, h3, h4] at hg
  · rfl

theorem readClassicBinds_gate_true {mem : Mem} {m m1 : MachOImpl} {l : Locals}
    (hg : classicBindGate l = true) (hs : readClassicBinds mem m l = .ok m1) :
    ∃ dysyms symtab symstrtab, l.dysyms = some dysyms ∧ l.symtab = some symtab ∧
      l.symstrtab = some symstrtab ∧
      readClassicBinds32 mem m dysyms symtab symstrtab l.bind_sections_32
        (readClassicBinds64 mem m dysyms symtab symstrtab l.bind_sections_64 m.m_binds) =
        .ok m1.m_binds := by
  unfold readClassicBinds at hs
  unfold classicBindGate at hg
  split at hs
  · rename_i dysyms symtab symstrtab h1 h2 h3 h4
    obtain ⟨bd, hb, hk⟩ := Res.bind_eq_ok.mp hs
    cases hk
    exact ⟨dysyms, symtab, symstrtab, h2, h3, h4, hb⟩
  · rename_i hne
    exfalso
    cases h1 : l.dyinfo <;> cases h2 : l.dysyms <;> cases h3 : l.symtab <;>
      cases h4 : l.symstrtab <;> simp [h1, h2, h3, h4] at hg
    exact hne _ _ _ h1 h2 h3 h4

/-- C7. On every image on which the parse returns, the classic binder (the
block of source lines 594-608, guarded by `classicBindGate`) runs after the
walk if and only if the load commands contain no dynamic-linker-info command
(`LC_DYLD_INFO` or `LC_DYLD_INFO_ONLY`), a symbol-table command, and a
dynamic-symbol-table command with a non-empty indirect-symbol array; when it
does not run the Bind list is left as the walk produced it.  Hence an image
with a dynamic-linker-info command anywhere among its commands has no Bind
record with the classic flag set (the opcode machine emitting none), whatever
its bind-candidate sections. -/
theorem C7_classic_binder_gate (h : Host) (d : Decoders) (mem : Mem) (fuel : Nat)
    (need_exports : Bool) (fd : Int) (m : MachOImpl)
    (hparse : MachOImpl.construct h d mem fuel need_exports fd = .ok m)
    (hmachine : ∀ s32 s64 p e w l, ∀ b ∈ d.bindOps mem s32 s64 p e w l, b.is_classic = false) :
    ∃ m0 st m1,
      validateHeader mem (MachOImpl.fresh need_exports fd) = .ok m0 ∧
      walkCommands h d mem fuel (hdr_ncmds mem) (sizeof_mach_header m0.m_is64)
        (m0, Locals.init) = .ok st ∧
      readClassicBinds mem st.1 st.2 = .ok m1 ∧ m.m_binds = m1.m_binds ∧
      (classicBindGate st.2 = true ↔
        (∀ c ∈ imageCommands mem m.m_is64, isDyldInfo mem c = false) ∧
        (∃ c ∈ imageCommands mem m.m_is64, isSymtab mem c = true) ∧
        (∃ c ∈ imageCommands mem m.m_is64, isDysymtabWithIndirect mem c = true)) ∧
      (classicBindGate st.2 = true →
        ∃ dysyms symtab symstrtab, st.2.dysyms = some dysyms ∧ st.2.symtab = some symtab ∧
          st.2.symstrtab = some symstrtab ∧
          readClassicBinds32 mem st.1 dysyms symtab symstrtab st.2.bind_sections_32
            (readClassicBinds64 mem st.1 dysyms symtab symstrtab st.2.bind_sections_64
              st.1.m_binds) = .ok m1.m_binds) ∧
      (classicBindGate st.2 = false → m1 = st.1) ∧
      ((∃ c ∈ imageCommands mem m.m_is64, isDyldInfo mem c = true) →
        ∀ b ∈ m.m_binds, b.is_classic = false) := by
  obtain ⟨m0, st, m1, h0, hw, hc, hr⟩ := construct_stages hparse
  have e0 := validateHeader_frame h0
  obtain ⟨a1, -, -, -, -, -⟩ := walkCommands_segments _ _ hw
  obtain ⟨l1, l2, l3, l4⟩ := walkCommands_locals _ _ hw
  obtain ⟨bd, e1⟩ := readClassicBinds_frame hc
  obtain ⟨rl, rb, e2⟩ := readRelocations_frame hr
  have hi : m.m_is64 = m0.m_is64 := by rw [e2, e1]; exact a1
  have hbinds : m.m_binds = m1.m_binds := by rw [e2]
  have hgate : classicBindGate st.2 = true ↔
      (∀ c ∈ imageCommands mem m.m_is64, isDyldInfo mem c = false) ∧
      (∃ c ∈ imageCommands mem m.m_is64, isSymtab mem c = true) ∧
      (∃ c ∈ imageCommands mem m.m_is64, isDysymtabWithIndirect mem c = true) := by
    unfold classicBindGate
    rw [hi, imageCommands]
    simp only [Option.isNone_iff_eq_none, Bool.and_eq_true, decide_eq_true_eq]
    rw [← Option.not_isSome_iff_eq_none, l1, l2, l3, l4]
    simp only [Locals.init, List.any_eq_true, Option.isSome_none, Bool.false_or,
      Bool.not_eq_true, Bool.and_eq_true, and_assoc]
    constructor
    · rintro ⟨a, b, c, -⟩
      refine ⟨fun x hx => ?_, c, b⟩
      cases hx' : isDyldInfo mem x
      · rfl
      · exact absurd ⟨x, hx, hx'⟩ a
    · rintro ⟨a, b, c⟩
      refine ⟨?_, c, b, b⟩
      rintro ⟨x, hx, hx'⟩
      rw [a x hx] at hx'
      cases hx'
  have hfalse : classicBindGate st.2 = false → m1 = st.1 := by
    intro hg
    rw [readClassicBinds_gate_false hg] at hc
    cases hc
    rfl
  refine ⟨m0, st, m1, h0, hw, hc, hbinds, hgate, fun hg => readClassicBinds_gate_true hg hc,
    hfalse, ?_⟩
  rintro ⟨c, hc1, hc2⟩
  have hg : classicBindGate st.2 = false := by
    cases hgt : classicBindGate st.2
    · rfl
    · have := (hgate.mp hgt).1 c hc1
      rw [hc2] at this
      cases this
  rw [hbinds, hfalse hg]
  exact walkCommands_binds_forall (fun b => b.is_classic = false) hmachine _ _
    (by rw [e0]; simp [MachOImpl.fresh]) hw

/-- C7 on a 32-bit image with a lazy-pointer section, a symbol table, an
indirect-symbol array and an `LC_DYLD_INFO_ONLY` command: no classic Bind. -/
theorem C7_classic_binder_gate_witness :
    (∃ c ∈ imageCommands (classicImage LC_DYLD_INFO_ONLY 8 7 0) false,
      isDyldInfo (classicImage LC_DYLD_INFO_ONLY 8 7 0) c = true) ∧
    ∀ b ∈ classicImageDyldParsed.m_binds, b.is_classic = false :=
  have key := C7_classic_binder_gate .i386 noDecoders (classicImage LC_DYLD_INFO_ONLY 8 7 0) 1
    true 3 classicImageDyldParsed (by decide) (by intro _ _ _ _ _ _ b hb; cases hb)
  ⟨by decide, key.elim fun _ k1 => k1.elim fun _ k2 => k2.elim fun _ k3 =>
    k3.2.2.2.2.2.2.2 (by decide)⟩

/-! ## C8: internal relocations -/

theorem r_address_lt (mem : Mem) (reloc : Nat) : r_address mem reloc < 2 ^ 32 := u32_lt mem _

theorem int32ToU64_and_mask (x : Nat) (hx : x < 2 ^ 32) :
    int32ToU64 x &&& 0xffffffff = x % 2 ^ 32 := by
  rw [and_mask32]
  unfold int32ToU64
  split_ifs <;> omega

/-- C8. For every local relocation entry that takes the plain (non-scattered)
path — every entry on the x86-64 target, and on i386 every entry without the
`R_SCATTERED` bit in its address word — `readInternalRelocation` appends
exactly one Rebase record when the symbol number is not `R_ABS`, the type is
`RELOC_VANILLA` and the length is `RELOC_PTRLEN`, and nothing otherwise (so
nothing when the symbol number is `R_ABS`).  The record has kind pointer and
the entry's address field modulo `2^32`. -/
theorem C8_internal_relocation (h : Host) (mem : Mem) (reloc : Nat) (rebases : List Rebase)
    (hplain : h = .x86_64 ∨ r_address mem reloc &&& R_SCATTERED = 0) :
    readInternalRelocation h mem reloc rebases =
      (if r_symbolnum mem reloc ≠ R_ABS ∧ r_type mem reloc = RELOC_VANILLA h ∧
          r_length mem reloc = RELOC_PTRLEN h then
        rebases ++ [{ vmaddr := r_address mem reloc % 2 ^ 32, type := REBASE_TYPE_POINTER }]
      else rebases) ∧
    (r_symbolnum mem reloc = R_ABS → readInternalRelocation h mem reloc rebases = rebases) := by
  have hsc : ¬(h = .i386 ∧ r_address mem reloc &&& R_SCATTERED ≠ 0) := by
    rintro ⟨h1, h2⟩
    rcases hplain with rfl | h3
    · cases h1
    · exact h2 h3
  unfold readInternalRelocation
  rw [if_neg hsc, int32ToU64_and_mask _ (r_address_lt mem reloc)]
  constructor
  · by_cases h1 : r_symbolnum mem reloc = R_ABS
    · simp [h1]
    · by_cases h2 : r_type mem reloc = RELOC_VANILLA h
      · by_cases h3 : r_length mem reloc = RELOC_PTRLEN h
        · simp [h1, h2, h3]
        · simp [h1, h2, h3]
      · simp [h1, h2]
  · intro h1
    simp [h1]

/-- C8 on a concrete i386 entry: address `0x2000`, symbol number 1, length 2,
vanilla type; one Rebase record of kind pointer at `0x2000`. -/
theorem C8_internal_relocation_witness :
    readInternalRelocation .i386 (le32 0x2000 ++ le32 0x04000001) 0 [] =
      [{ vmaddr := 0x2000, type := REBASE_TYPE_POINTER }] :=
  ((C8_internal_relocation .i386 (le32 0x2000 ++ le32 0x04000001) 0 [] (by decide)).1).trans
    (by decide)

/-! ## C9: external relocations -/

/-- The outcomes of `readExternalRelocation` on an entry of the external
relocation table.  It throws "Invalid external relocation" if and only if the
entry's `r_extern` bit is clear, whatever its type and length and whatever the
two symbol-table pointers.  With the bit set and the symbol table present it
returns, having appended exactly one Relocation record when the length is
`RELOC_PTRLEN` and the type `RELOC_VANILLA`, and none otherwise; the record
holds the entry's address (the `int32_t` field converted to the 64-bit record
field), the name of the symbol-table entry number `r_symbolnum` and the entry's
`r_pcrel` bit.  With the bit set and a null symbol-table pointer, an entry of
length `RELOC_PTRLEN` and type `RELOC_VANILLA` dereferences the null pointer,
and any other entry returns with nothing appended. -/
theorem readExternalRelocation_cases (h : Host) (mem : Mem) (m : MachOImpl) (reloc : Nat)
    (relocations : List Relocation) :
    (∀ symtab symstrtab : Option Nat,
      readExternalRelocation h mem m reloc symtab symstrtab relocations =
        .fault (.error .invalidExternalRelocation) ↔ r_extern mem reloc = 0) ∧
    ( r_extern mem reloc ≠ 0 → ∀ symtab symstrtab : Nat,
      readExternalRelocation h mem m reloc (some symtab) (some symstrtab) relocations =
        .ok (if r_length mem reloc = RELOC_PTRLEN h ∧ r_type mem reloc = RELOC_VANILLA h then
          relocations ++
            [{ addr := int32ToU64 (r_address mem reloc)
               name := cstr mem (symstrtab +
                 n_strx mem (symtab + (if m.m_is64 then 16 else 12) * r_symbolnum mem reloc))
               pcrel := decide (r_pcrel mem reloc = 1) }]
        else relocations)) ∧
    ( r_extern mem reloc ≠ 0 → ∀ symtab symstrtab : Option Nat,
      symtab = none ∨ symstrtab = none →
      readExternalRelocation h mem m reloc symtab symstrtab relocations =
        if r_length mem reloc = RELOC_PTRLEN h ∧ r_type mem reloc = RELOC_VANILLA h then
          .fault .nullPointer
        else .ok relocations) := by
  have hsym : ∀ symtab, symEntry symtab (r_symbolnum mem reloc) (if m.m_is64 then 4 else 3) =
      symtab + (if m.m_is64 then 16 else 12) * r_symbolnum mem reloc := by
    intro symtab
    have hlt : r_symbolnum mem reloc < 2 ^ 24 := Nat.mod_lt _ (by decide)
    unfold symEntry
    cases m.m_is64
    · simp only [Bool.false_eq_true, if_false]
      rw [Nat.mod_eq_of_lt (by omega)]; ring
    · simp only [if_true]
      rw [Nat.mod_eq_of_lt (by omega)]; ring
  have hpc : decide (r_pcrel mem reloc ≠ 0) = decide (r_pcrel mem reloc = 1) := by
    have hlt : r_pcrel mem reloc < 2 := Nat.mod_lt _ (by decide)
    congr 1
    apply propext
    omega
  refine ⟨fun symtab symstrtab => ?_, fun he symtab symstrtab => ?_,
    fun he symtab symstrtab hnull => ?_⟩
  · unfold readExternalRelocation
    by_cases he : r_extern mem reloc = 0
    · simp [he]
    · rw [if_neg he]
      by_cases hl : r_length mem reloc = RELOC_PTRLEN h
      · by_cases ht : r_type mem reloc = RELOC_VANILLA h
        · cases symtab <;> cases symstrtab <;> simp [he, hl, ht]
        · simp [he, hl, ht]
      · simp [he, hl]
  · unfold readExternalRelocation
    rw [if_neg he]
    by_cases hl : r_length mem reloc = RELOC_PTRLEN h
    · by_cases ht : r_type mem reloc = RELOC_VANILLA h
      · simp [hl, ht, hsym, hpc]
      · simp [hl, ht]
    · simp [hl]
  · unfold readExternalRelocation
    rw [if_neg he]
    by_cases hl : r_length mem reloc = RELOC_PTRLEN h
    · by_cases ht : r_type mem reloc = RELOC_VANILLA h
      · rcases hnull with rfl | rfl
        · simp [hl, ht]
        · cases symtab <;> simp [hl, ht]
      · simp [hl, ht]
    · simp [hl]

/-- C9 (the code at the failing input). The image `imageRelocationNoSymtab`
has one load command, an `LC_DYSYMTAB` with one external relocation entry at
offset 108, and no symbol-table command.  The entry has the external flag set,
length `RELOC_PTRLEN` and type `RELOC_VANILLA` (i386 target), so a Relocation
record is due.  The walk ends with `symtab` and `symstrtab` null and the table
recorded; `readExternalRelocation` is called with the two null pointers and
dereferences one of them, so the parse ends in a null-pointer dereference and
no record is appended.  With a symbol-table command added
(`imageRelocationSymtab`) the parse returns and the record is there. -/
theorem C9_external_relocation_without_symbol_table :
    imageCommands imageRelocationNoSymtab false = [28] ∧
      lc_cmd imageRelocationNoSymtab 28 = LC_DYSYMTAB ∧
      r_extern imageRelocationNoSymtab 108 = 1 ∧
      r_length imageRelocationNoSymtab 108 = RELOC_PTRLEN .i386 ∧
      r_type imageRelocationNoSymtab 108 = RELOC_VANILLA .i386 ∧
      walkCommands .i386 noDecoders imageRelocationNoSymtab 1 1 28 (object32, Locals.init) =
        .ok (object32, { Locals.init with ext_relocinfo := some 108, ext_reloccount := 1 }) ∧
      readExternalRelocation .i386 imageRelocationNoSymtab object32 108 none none [] =
        .fault .nullPointer ∧
      MachOImpl.construct .i386 noDecoders imageRelocationNoSymtab 1 true 3 =
        .fault .nullPointer ∧
      MachOImpl.construct .i386 noDecoders imageRelocationSymtab 1 true 3 =
        .ok imageRelocationSymtabParsed ∧
      imageRelocationSymtabParsed.m_relocations =
        [{ addr := 0x2000, name := str_foo, pcrel := true }] := by
  decide

/-! ## C10: the main entry address -/

/-- What one load command does to the text-segment base and the main entry
address. -/
theorem processCommand_entry {h : Host} {d : Decoders} {mem : Mem} {fuel c : Nat}
    {st st' : MachOImpl × Locals} (hs : processCommand h d mem fuel c st = .ok st') :
    (st'.1.m_text_offset, st'.1.m_main) =
      entryStep h mem (st.1.m_text_offset, st.1.m_main) c := by
  unfold processCommand at hs
  dsimp only at hs
  unfold entryStep
  by_cases h1 : lc_cmd mem c = LC_SEGMENT_64
  · rw [if_pos h1] at hs
    obtain ⟨r, hr, hk⟩ := Res.bind_eq_ok.mp hs
    obtain ⟨dd, ef, ui, inf, exf, e⟩ := readSegment_frame hr
    cases hk
    rw [if_pos h1, e]
    by_cases ht : seg_segname mem c = str_TEXT <;> simp [ht]
  rw [if_neg h1] at hs
  rw [if_neg h1]
  by_cases h2 : lc_cmd mem c = LC_SEGMENT
  · rw [if_pos h2] at hs
    obtain ⟨r, hr, hk⟩ := Res.bind_eq_ok.mp hs
    obtain ⟨dd, ef, ui, inf, exf, e⟩ := readSegment_frame hr
    cases hk
    rw [if_pos h2, e]
    by_cases ht : seg_segname mem c = str_TEXT <;> simp [ht]
  rw [if_neg h2] at hs
  rw [if_neg h2]
  by_cases h3 : lc_cmd mem c = LC_DYLD_INFO ∨ lc_cmd mem c = LC_DYLD_INFO_ONLY
  · rw [if_pos h3] at hs
    obtain ⟨r, hr, hk⟩ := Res.bind_eq_ok.mp hs
    obtain ⟨rb, ex, e⟩ := readDyldInfo_frame hr
    cases hk
    have hm : lc_cmd mem c ≠ LC_MAIN := by
      rcases h3 with h3 | h3 <;> rw [h3] <;> decide
    rw [if_neg hm, e]
  rw [if_neg h3] at hs
  by_cases h4 : lc_cmd mem c = LC_SYMTAB
  · rw [if_pos h4] at hs
    cases hs
    rw [if_neg (show ¬lc_cmd mem c = LC_MAIN by rw [h4]; decide)]
  rw [if_neg h4] at hs
  by_cases h5 : lc_cmd mem c = LC_DYSYMTAB
  · rw [if_pos h5] at hs
    cases hs
    rw [if_neg (show ¬lc_cmd mem c = LC_MAIN by rw [h5]; decide)]
  rw [if_neg h5] at hs
  by_cases h6 : lc_cmd mem c = LC_LOAD_DYLINKER
  · rw [if_pos h6] at hs
    cases hs
    rw [if_neg (show ¬lc_cmd mem c = LC_MAIN by rw [h6]; decide)]
  rw [if_neg h6] at hs
  by_cases h7 : lc_cmd mem c = LC_UUID
  · rw [if_pos h7] at hs
    cases hs
    rw [if_neg (show ¬lc_cmd mem c = LC_MAIN by rw [h7]; decide)]
  rw [if_neg h7] at hs
  by_cases h8 : lc_cmd mem c = LC_UNIXTHREAD
  · rw [if_pos h8] at hs
    cases hs
    rw [if_neg (show ¬lc_cmd mem c = LC_MAIN by rw [h8]; decide)]
  rw [if_neg h8] at hs
  by_cases h9 : lc_cmd mem c = LC_MAIN
  · rw [if_pos h9] at hs
    cases hs
    rw [if_pos h9]
  rw [if_neg h9] at hs
  rw [if_neg h9]
  split_ifs at hs
  all_goals
    cases hs
    rfl

theorem walkCommands_entry {h : Host} {d : Decoders} {mem : Mem} {fuel : Nat} :
    ∀ (n c : Nat) {st st' : MachOImpl × Locals},
      walkCommands h d mem fuel n c st = .ok st' →
      (st'.1.m_text_offset, st'.1.m_main) =
        (commandOffsets mem n c).foldl (entryStep h mem) (st.1.m_text_offset, st.1.m_main) := by
  intro n
  induction n with
  | zero =>
    intro c st st' hs
    simp only [walkCommands, Res.ok.injEq] at hs
    subst hs
    rfl
  | succ n ih =>
    intro c st st' hs
    simp only [walkCommands] at hs
    obtain ⟨st1, h1, h2⟩ := Res.bind_eq_ok.mp hs
    rw [ih _ h2, processCommand_entry h1]
    rfl

/-- The text-segment base and the main entry address of a finished parse: the
fold of `entryStep` over the load commands, from zero. -/
theorem construct_entry {h : Host} {d : Decoders} {mem : Mem} {fuel : Nat}
    {need_exports : Bool} {fd : Int} {m : MachOImpl}
    (hparse : MachOImpl.construct h d mem fuel need_exports fd = .ok m) :
    (m.m_text_offset, m.m_main) =
      (imageCommands mem m.m_is64).foldl (entryStep h mem) (0, 0) := by
  obtain ⟨m0, st, m1, h0, hw, hc, hr⟩ := construct_stages hparse
  have e0 := validateHeader_frame h0
  obtain ⟨a1, -, -, -, -, -⟩ := walkCommands_segments _ _ hw
  have hfold := walkCommands_entry _ _ hw
  obtain ⟨bd, e1⟩ := readClassicBinds_frame hc
  obtain ⟨rl, rb, e2⟩ := readRelocations_frame hr
  have hi : m.m_is64 = m0.m_is64 := by rw [e2, e1]; exact a1
  rw [hi, imageCommands, e2, e1]
  simpa [e0, MachOImpl.fresh] using hfold

theorem foldl_entryStep_fst (h : Host) (mem : Mem) :
    ∀ (l : List Nat) (s : Nat × Nat), (∀ c ∈ l, isTextSegment mem c = false) →
      (l.foldl (entryStep h mem) s).1 = s.1 := by
  intro l
  induction l with
  | nil => intro s _; rfl
  | cons c l ih =>
    intro s hl
    have hc := hl c (List.mem_cons_self _ _)
    rw [List.foldl_cons, ih _ fun x hx => hl x (List.mem_cons_of_mem _ hx)]
    unfold isTextSegment at hc
    simp only [decide_eq_false_iff_not, not_and] at hc
    unfold entryStep
    split_ifs with h1 h2 h3 h4 h5
    · exact absurd h2 (hc (Or.inl h1))
    · rfl
    · exact absurd h4 (hc (Or.inr h3))
    · rfl
    · rfl
    · rfl

theorem foldl_entryStep_snd (h : Host) (mem : Mem) :
    ∀ (l : List Nat) (s : Nat × Nat), (∀ c ∈ l, lc_cmd mem c ≠ LC_MAIN) →
      (l.foldl (entryStep h mem) s).2 = s.2 := by
  intro l
  induction l with
  | nil => intro s _; rfl
  | cons c l ih =>
    intro s hl
    have hc := hl c (List.mem_cons_self _ _)
    rw [List.foldl_cons, ih _ fun x hx => hl x (List.mem_cons_of_mem _ hx)]
    unfold entryStep
    split_ifs <;> rfl

theorem entryStep_text (h : Host) (mem : Mem) (s : Nat × Nat) (c : Nat) (wide : Bool)
    (hseg : lc_cmd mem c = segmentCommandOf wide) (hname : seg_segname mem c = str_TEXT) :
    entryStep h mem s c = (toUIntPtr h (seg_vmaddr mem wide c), s.2) := by
  unfold entryStep
  cases wide
  · have h1 : lc_cmd mem c ≠ LC_SEGMENT_64 := by rw [hseg]; decide
    have h2 : lc_cmd mem c = LC_SEGMENT := hseg
    rw [if_neg h1, if_pos h2, if_pos hname]
  · have h1 : lc_cmd mem c = LC_SEGMENT_64 := hseg
    rw [if_pos h1, if_pos hname]

theorem entryStep_main (h : Host) (mem : Mem) (s : Nat × Nat) (c : Nat)
    (hmain : lc_cmd mem c = LC_MAIN) :
    entryStep h mem s c = (s.1, (intPtrToU64 h s.1 + u64 mem (c + 8)) % 2 ^ 64) := by
  unfold entryStep
  rw [if_neg (by rw [hmain]; decide), if_neg (by rw [hmain]; decide), if_pos hmain]

theorem seg_vmaddr_lt (mem : Mem) (wide : Bool) (seg : Nat) : seg_vmaddr mem wide seg < 2 ^ 64 := by
  unfold seg_vmaddr
  cases wide
  · exact lt_trans (by simpa using u32_lt mem (seg + 24)) (by decide)
  · simpa using u64_lt mem (seg + 24)

theorem intPtrToU64_x86_64 (x : Nat) (hx : x < 2 ^ 64) :
    intPtrToU64 .x86_64 (toUIntPtr .x86_64 x) = x := by
  unfold intPtrToU64 toUIntPtr Host.ptrBits
  simp only
  rw [Nat.mod_eq_of_lt hx]
  split_ifs
  · omega
  · rfl

/-- C10 (counterexample). In `imageMainFirst` the main-entry-point command
(offset `0x100`) precedes the text segment command (`vmaddr` `0x1000`): after
the parse the text base is `0x1000` but the main entry address is `0x100`, not
`0x1100`. -/
theorem C10_main_before_text_segment :
    imageCommands imageMainFirst true = [32, 56] ∧
    lc_cmd imageMainFirst 32 = LC_MAIN ∧ u64 imageMainFirst (32 + 8) = 0x100 ∧
    isTextSegment imageMainFirst 56 = true ∧ seg_vmaddr imageMainFirst true 56 = 0x1000 ∧
    (MachOImpl.construct .x86_64 noDecoders imageMainFirst 1 true 3).bind
      (fun m => .ok (m.m_text_offset, m.m_main)) = .ok (0x1000, 0x100) := by
  decide

/-- C10 (amended). On every image on which the parse returns and in which a
segment command named "__TEXT" with virtual address `V` precedes the last
main-entry-point command, with encoded offset `E`, no other "__TEXT" segment
command standing between the two: the main entry address is the text base (`V`
as `intptr_t`) plus `E` modulo `2^64`; on the x86-64 target this is
`(V + E) mod 2^64`. -/
theorem C10_main_entry_after_text_segment (h : Host) (d : Decoders) (mem : Mem) (fuel : Nat)
    (need_exports : Bool) (fd : Int) (m : MachOImpl) (pre mid post : List Nat)
    (cSeg cMain : Nat) (wide : Bool)
    (hparse : MachOImpl.construct h d mem fuel need_exports fd = .ok m)
    (hcmds : imageCommands mem m.m_is64 = pre ++ cSeg :: mid ++ cMain :: post)
    (hseg : lc_cmd mem cSeg = segmentCommandOf wide)
    (hname : seg_segname mem cSeg = str_TEXT)
    (hmid : ∀ c ∈ mid, isTextSegment mem c = false)
    (hmain : lc_cmd mem cMain = LC_MAIN)
    (hpost : ∀ c ∈ post, lc_cmd mem c ≠ LC_MAIN) :
    m.m_main = (intPtrToU64 h (toUIntPtr h (seg_vmaddr mem wide cSeg)) +
      u64 mem (cMain + 8)) % 2 ^ 64 ∧
    (h = .x86_64 → m.m_main = (seg_vmaddr mem wide cSeg + u64 mem (cMain + 8)) % 2 ^ 64) := by
  have hfold := construct_entry hparse
  rw [hcmds] at hfold
  simp only [List.foldl_append, List.foldl_cons] at hfold
  have hmain' : m.m_main = (intPtrToU64 h (toUIntPtr h (seg_vmaddr mem wide cSeg)) +
      u64 mem (cMain + 8)) % 2 ^ 64 := by
    have h2 := congrArg Prod.snd hfold
    simp only at h2
    rw [h2, foldl_entryStep_snd h mem post _ hpost, entryStep_main h mem _ cMain hmain,
      foldl_entryStep_fst h mem mid _ hmid, entryStep_text h mem _ cSeg wide hseg hname]
  refine ⟨hmain', ?_⟩
  rintro rfl
  rw [hmain', intPtrToU64_x86_64 _ (seg_vmaddr_lt mem wide cSeg)]

/-- C10 (amended) on `imageSegmentFirst`: text segment at `0x1000`, then the
main-entry-point command with offset `0x100`; the entry address is `0x1100`. -/
theorem C10_main_entry_witness : imageSegmentFirstParsed.m_main = 0x1100 :=
  ((C10_main_entry_after_text_segment .x86_64 noDecoders imageSegmentFirst 1 true 3
    imageSegmentFirstParsed [] [] [] 32 184 true (by decide) (by decide) (by decide) (by decide)
    (by decide) (by decide) (by decide)).2 rfl).trans (by decide)

/-! ## The cases of the command switch -/

/-- The outcome of a load command that returns, case by case. -/
theorem processCommand_cases {h : Host} {d : Decoders} {mem : Mem} {fuel c : Nat}
    {st st' : MachOImpl × Locals} (hs : processCommand h d mem fuel c st = .ok st') :
    (lc_cmd mem c = LC_SEGMENT_64 ∧
      ∃ r, readSegment h mem true fuel c (st.1, st.2.bind_sections_64) = .ok r ∧
        st' = (r.1, { st.2 with bind_sections_64 := r.2 })) ∨
    (lc_cmd mem c = LC_SEGMENT ∧
      ∃ r, readSegment h mem false fuel c (st.1, st.2.bind_sections_32) = .ok r ∧
        st' = (r.1, { st.2 with bind_sections_32 := r.2 })) ∨
    ((lc_cmd mem c = LC_DYLD_INFO ∨ lc_cmd mem c = LC_DYLD_INFO_ONLY) ∧
      ∃ m1, readDyldInfo d mem fuel c st.1 = .ok m1 ∧
        st' = (m1, { st.2 with dyinfo := some c })) ∨
    (lc_cmd mem c = LC_SYMTAB ∧
      st' = ({ st.1 with
          m_symbols := readSymbols mem st.1.m_is64 (u32 mem (c + 16)) (u32 mem (c + 12))
            (u32 mem (c + 8)) st.1.m_symbols },
        { st.2 with symtab := some (u32 mem (c + 8)), symstrtab := some (u32 mem (c + 16)) })) ∨
    (lc_cmd mem c = LC_DYSYMTAB ∧ st' = (st.1, readDysymtab mem c st.2)) ∨
    (lc_cmd mem c = LC_UNIXTHREAD ∧
      st' = ({ st.1 with
          m_entry := if st.1.m_is64 then u64 mem (c + 8 * 18) else u32 mem (c + 4 * 14) },
        st.2)) ∨
    (lc_cmd mem c = LC_MAIN ∧
      st' = ({ st.1 with
          m_main := (intPtrToU64 h st.1.m_text_offset + u64 mem (c + 8)) % 2 ^ 64 }, st.2)) ∨
    (lc_cmd mem c = LC_LOAD_DYLIB ∧
      st' = ({ st.1 with m_dylibs := st.1.m_dylibs ++ [dylibName mem c] }, st.2)) ∨
    (lc_cmd mem c = LC_RPATH ∧
      st' = ({ st.1 with m_rpaths := st.1.m_rpaths ++ [rpathPath mem c] }, st.2)) ∨
    (lc_cmd mem c ∉ [LC_SEGMENT_64, LC_SEGMENT, LC_DYLD_INFO, LC_DYLD_INFO_ONLY, LC_SYMTAB,
        LC_DYSYMTAB, LC_UNIXTHREAD, LC_MAIN, LC_LOAD_DYLIB, LC_RPATH] ∧ st' = st) := by
  unfold processCommand at hs
  dsimp only at hs
  by_cases h1 : lc_cmd mem c = LC_SEGMENT_64
  · rw [if_pos h1] at hs
    obtain ⟨r, hr, hk⟩ := Res.bind_eq_ok.mp hs
    cases hk
    exact Or.inl ⟨h1, r, hr, rfl⟩
  rw [if_neg h1] at hs
  by_cases h2 : lc_cmd mem c = LC_SEGMENT
  · rw [if_pos h2] at hs
    obtain ⟨r, hr, hk⟩ := Res.bind_eq_ok.mp hs
    cases hk
    exact Or.inr (Or.inl ⟨h2, r, hr, rfl⟩)
  rw [if_neg h2] at hs
  by_cases h3 : lc_cmd mem c = LC_DYLD_INFO ∨ lc_cmd mem c = LC_DYLD_INFO_ONLY
  · rw [if_pos h3] at hs
    obtain ⟨r, hr, hk⟩ := Res.bind_eq_ok.mp hs
    cases hk
    exact Or.inr (Or.inr (Or.inl ⟨h3, r, hr, rfl⟩))
  rw [if_neg h3] at hs
  rw [not_or] at h3
  by_cases h4 : lc_cmd mem c = LC_SYMTAB
  · rw [if_pos h4] at hs
    cases hs
    exact Or.inr (Or.inr (Or.inr (Or.inl ⟨h4, rfl⟩)))
  rw [if_neg h4] at hs
  by_cases h5 : lc_cmd mem c = LC_DYSYMTAB
  · rw [if_pos h5] at hs
    cases hs
    exact Or.inr (Or.inr (Or.inr (Or.inr (Or.inl ⟨h5, rfl⟩))))
  rw [if_neg h5] at hs
  by_cases h6 : lc_cmd mem c = LC_LOAD_DYLINKER
  · rw [if_pos h6] at hs
    cases hs
    refine Or.inr (Or.inr (Or.inr (Or.inr (Or.inr (Or.inr (Or.inr (Or.inr (Or.inr ⟨?_, rfl⟩))))))))
    rw [h6]
    decide
  rw [if_neg h6] at hs
  by_cases h7 : lc_cmd mem c = LC_UUID
  · rw [if_pos h7] at hs
    cases hs
    refine Or.inr (Or.inr (Or.inr (Or.inr (Or.inr (Or.inr (Or.inr (Or.inr (Or.inr ⟨?_, rfl⟩))))))))
    rw [h7]
    decide
  rw [if_neg h7] at hs
  by_cases h8 : lc_cmd mem c = LC_UNIXTHREAD
  · rw [if_pos h8] at hs
    cases hs
    exact Or.inr (Or.inr (Or.inr (Or.inr (Or.inr (Or.inl ⟨h8, rfl⟩)))))
  rw [if_neg h8] at hs
  by_cases h9 : lc_cmd mem c = LC_MAIN
  · rw [if_pos h9] at hs
    cases hs
    exact Or.inr (Or.inr (Or.inr (Or.inr (Or.inr (Or.inr (Or.inl ⟨h9, rfl⟩))))))
  rw [if_neg h9] at hs
  by_cases h10 : lc_cmd mem c = LC_LOAD_DYLIB
  · rw [if_pos h10] at hs
    cases hs
    exact Or.inr (Or.inr (Or.inr (Or.inr (Or.inr (Or.inr (Or.inr (Or.inl ⟨h10, rfl⟩)))))))
  rw [if_neg h10] at hs
  by_cases h11 : lc_cmd mem c = LC_RPATH
  · rw [if_pos h11] at hs
    cases hs
    exact Or.inr (Or.inr (Or.inr (Or.inr (Or.inr (Or.inr (Or.inr (Or.inr (Or.inl ⟨h11, rfl⟩))))))))
  rw [if_neg h11] at hs
  cases hs
  refine Or.inr (Or.inr (Or.inr (Or.inr (Or.inr (Or.inr (Or.inr (Or.inr (Or.inr ⟨?_, rfl⟩))))))))
  simp only [List.mem_cons, List.mem_singleton, List.not_mem_nil, or_false, not_or]
  exact ⟨h1, h2, h3.1, h3.2, h4, h5, h8, h9, h10, h11⟩

/-! ## C11: the text-segment base -/

theorem toUIntPtr_of_fits (h : Host) (x : Nat) (wide : Bool)
    (hx : x < 2 ^ (if wide then 64 else 32)) (hfit : h = .x86_64 ∨ wide = false) :
    toUIntPtr h x = x := by
  unfold toUIntPtr
  apply Nat.mod_eq_of_lt
  rcases hfit with rfl | rfl
  · exact lt_of_lt_of_le hx (by cases wide <;> decide)
  · exact lt_of_lt_of_le hx (by cases h <;> decide)

theorem seg_vmaddr_lt_width (mem : Mem) (wide : Bool) (seg : Nat) :
    seg_vmaddr mem wide seg < 2 ^ (if wide then 64 else 32) := by
  unfold seg_vmaddr
  cases wide
  · simpa using u32_lt mem (seg + 24)
  · simpa using u64_lt mem (seg + 24)

/-- C11 (counterexample). In `imageTwoText` the first segment command named
"__TEXT" has virtual address `0x1000` and a later one `0x5000`: the text base
recorded after the parse is `0x5000`. -/
theorem C11_later_text_segment_replaces_base :
    imageCommands imageTwoText true = [32, 104] ∧
    isTextSegment imageTwoText 32 = true ∧ seg_vmaddr imageTwoText true 32 = 0x1000 ∧
    isTextSegment imageTwoText 104 = true ∧ seg_vmaddr imageTwoText true 104 = 0x5000 ∧
    (MachOImpl.construct .x86_64 noDecoders imageTwoText 1 true 3).bind
      (fun m => .ok m.m_text_offset) = .ok 0x5000 := by
  decide

/-- C11 (amended). On every image on which the parse returns and which has one
or more segment commands named "__TEXT", the text-segment base recorded after
the parse is the virtual address (as `intptr_t`; the address itself on a
64-bit host and for a 32-bit segment command) of the last such command in
command order: every segment command of that name replaces the base. -/
theorem C11_text_base_is_last_text_segment (h : Host) (d : Decoders) (mem : Mem) (fuel : Nat)
    (need_exports : Bool) (fd : Int) (m : MachOImpl) (pre post : List Nat) (cSeg : Nat)
    (wide : Bool)
    (hparse : MachOImpl.construct h d mem fuel need_exports fd = .ok m)
    (hcmds : imageCommands mem m.m_is64 = pre ++ cSeg :: post)
    (hseg : lc_cmd mem cSeg = segmentCommandOf wide)
    (hname : seg_segname mem cSeg = str_TEXT)
    (hpost : ∀ c ∈ post, isTextSegment mem c = false) :
    m.m_text_offset = toUIntPtr h (seg_vmaddr mem wide cSeg) ∧
    (h = .x86_64 ∨ wide = false → m.m_text_offset = seg_vmaddr mem wide cSeg) := by
  have hfold := construct_entry hparse
  rw [hcmds] at hfold
  simp only [List.foldl_append, List.foldl_cons] at hfold
  have h1 := congrArg Prod.fst hfold
  simp only at h1
  rw [foldl_entryStep_fst h mem post _ hpost, entryStep_text h mem _ cSeg wide hseg hname] at h1
  refine ⟨h1, fun hfit => ?_⟩
  rw [h1, toUIntPtr_of_fits h _ wide (seg_vmaddr_lt_width mem wide cSeg) hfit]

/-- C11 (amended) on `imageSegmentFirst`: one "__TEXT" segment command at
`0x1000`, followed only by the main-entry-point command. -/
theorem C11_text_base_witness : imageSegmentFirstParsed.m_text_offset = 0x1000 :=
  ((C11_text_base_is_last_text_segment .x86_64 noDecoders imageSegmentFirst 1 true 3
    imageSegmentFirstParsed [] [184] 32 true (by decide) (by decide) (by decide) (by decide)
    (by decide)).2 (Or.inl rfl)).trans (by decide)

/-! ## C12: dependencies and search paths -/

/-- What one load command does to the dylib and rpath lists. -/
theorem processCommand_dylibs {h : Host} {d : Decoders} {mem : Mem} {fuel c : Nat}
    {st st' : MachOImpl × Locals} (hs : processCommand h d mem fuel c st = .ok st') :
    st'.1.m_dylibs =
      st.1.m_dylibs ++ (if lc_cmd mem c = LC_LOAD_DYLIB then [dylibName mem c] else []) ∧
    st'.1.m_rpaths =
      st.1.m_rpaths ++ (if lc_cmd mem c = LC_RPATH then [rpathPath mem c] else []) := by
  rcases processCommand_cases hs with ⟨hc, r, hr, rfl⟩ | ⟨hc, r, hr, rfl⟩ | ⟨hc, r, hr, rfl⟩ |
    ⟨hc, rfl⟩ | ⟨hc, rfl⟩ | ⟨hc, rfl⟩ | ⟨hc, rfl⟩ | ⟨hc, rfl⟩ | ⟨hc, rfl⟩ | ⟨hc, rfl⟩
  · obtain ⟨dd, ef, ui, inf, exf, e⟩ := readSegment_frame hr
    simp [e, hc, LC_SEGMENT_64, LC_LOAD_DYLIB, LC_RPATH]
  · obtain ⟨dd, ef, ui, inf, exf, e⟩ := readSegment_frame hr
    simp [e, hc, LC_SEGMENT, LC_LOAD_DYLIB, LC_RPATH]
  · obtain ⟨rb, ex, e⟩ := readDyldInfo_frame hr
    rcases hc with hc | hc <;>
      simp [e, hc, LC_DYLD_INFO, LC_DYLD_INFO_ONLY, LC_LOAD_DYLIB, LC_RPATH]
  · simp [hc, LC_SYMTAB, LC_LOAD_DYLIB, LC_RPATH]
  · simp [hc, LC_DYSYMTAB, LC_LOAD_DYLIB, LC_RPATH]
  · simp [hc, LC_UNIXTHREAD, LC_LOAD_DYLIB, LC_RPATH]
  · simp [hc, LC_MAIN, LC_LOAD_DYLIB, LC_RPATH]
  · simp [hc, LC_LOAD_DYLIB, LC_RPATH]
  · simp [hc, LC_LOAD_DYLIB, LC_RPATH]
  · simp only [List.mem_cons, List.mem_singleton, List.not_mem_nil, or_false, not_or] at hc
    simp [hc]

theorem walkCommands_dylibs {h : Host} {d : Decoders} {mem : Mem} {fuel : Nat} :
    ∀ (n c : Nat) {st st' : MachOImpl × Locals},
      walkCommands h d mem fuel n c st = .ok st' →
      st'.1.m_dylibs = st.1.m_dylibs ++
        ((commandOffsets mem n c).filter fun x => decide (lc_cmd mem x = LC_LOAD_DYLIB)).map
          (dylibName mem) ∧
      st'.1.m_rpaths = st.1.m_rpaths ++
        ((commandOffsets mem n c).filter fun x => decide (lc_cmd mem x = LC_RPATH)).map
          (rpathPath mem) := by
  intro n
  induction n with
  | zero =>
    intro c st st' hs
    simp only [walkCommands, Res.ok.injEq] at hs
    subst hs
    simp [commandOffsets]
  | succ n ih =>
    intro c st st' hs
    simp only [walkCommands] at hs
    obtain ⟨st1, h1, h2⟩ := Res.bind_eq_ok.mp hs
    obtain ⟨a1, a2⟩ := processCommand_dylibs h1
    obtain ⟨b1, b2⟩ := ih _ h2
    constructor
    · rw [b1, a1]
      by_cases hc : lc_cmd mem c = LC_LOAD_DYLIB <;> simp [commandOffsets, List.filter_cons, hc]
    · rw [b2, a2]
      by_cases hc : lc_cmd mem c = LC_RPATH <;> simp [commandOffsets, List.filter_cons, hc]

/-- C12. On every image on which the parse returns, the dylib list is the
sequence of the names of the `LC_LOAD_DYLIB` commands in command order, and
the rpath list the sequence of the paths of the `LC_RPATH` commands in command
order. -/
theorem C12_dylibs_and_rpaths_in_command_order (h : Host) (d : Decoders) (mem : Mem)
    (fuel : Nat) (need_exports : Bool) (fd : Int) (m : MachOImpl)
    (hparse : MachOImpl.construct h d mem fuel need_exports fd = .ok m) :
    m.m_dylibs =
      ((imageCommands mem m.m_is64).filter fun c => decide (lc_cmd mem c = LC_LOAD_DYLIB)).map
        (dylibName mem) ∧
    m.m_rpaths =
      ((imageCommands mem m.m_is64).filter fun c => decide (lc_cmd mem c = LC_RPATH)).map
        (rpathPath mem) := by
  obtain ⟨m0, st, m1, h0, hw, hc, hr⟩ := construct_stages hparse
  have e0 := validateHeader_frame h0
  obtain ⟨a1, -, -, -, -, -⟩ := walkCommands_segments _ _ hw
  obtain ⟨d1, d2⟩ := walkCommands_dylibs _ _ hw
  obtain ⟨bd, e1⟩ := readClassicBinds_frame hc
  obtain ⟨rl, rb, e2⟩ := readRelocations_frame hr
  have hi : m.m_is64 = m0.m_is64 := by rw [e2, e1]; exact a1
  rw [hi, imageCommands, e2, e1]
  constructor
  · simpa [e0, MachOImpl.fresh] using d1
  · simpa [e0, MachOImpl.fresh] using d2

/-- C12 on `imageTwoDylibs`: dependencies "libA" then "libB", one search path. -/
theorem C12_dylibs_witness :
    imageTwoDylibsParsed.m_dylibs = [str_libA, str_libB] ∧
    imageTwoDylibsParsed.m_rpaths = [str_foo] :=
  have key := C12_dylibs_and_rpaths_in_command_order .x86_64 noDecoders imageTwoDylibs 1 true 3
    imageTwoDylibsParsed (by decide)
  ⟨key.1.trans (by decide), key.2.trans (by decide)⟩

/-! ## Faults raised after the header checks -/

theorem Res.bind_eq_fault {α β : Type} {r : Res α} {k : α → Res β} {f : Fault} :
    r.bind k = .fault f ↔ r = .fault f ∨ ∃ a, r = .ok a ∧ k a = .fault f := by
  cases r with
  | ok a => simp
  | fault g => simp

theorem funcPointerLoop_fault {ptrsize bound : Nat} :
    ∀ (fuel p : Nat) (funcs : List Nat) {f : Fault},
      funcPointerLoop ptrsize bound fuel p funcs = .fault f → f.isHeaderError = false := by
  intro fuel
  induction fuel with
  | zero =>
    intro p funcs f hf
    simp only [funcPointerLoop, Res.fault.injEq] at hf
    subst hf
    rfl
  | succ n ih =>
    intro p funcs f hf
    simp only [funcPointerLoop] at hf
    split_ifs at hf
    exact ih _ _ hf

theorem readSection_fault {h : Host} {mem : Mem} {wide : Bool} {fuel sec : Nat}
    {st : MachOImpl × List Nat} {f : Fault}
    (hf : readSection h mem wide fuel sec st = .fault f) : f.isHeaderError = false := by
  unfold readSection at hf
  dsimp only at hf
  split_ifs at hf
  all_goals first
    | (rcases Res.bind_eq_fault.mp hf with hl | ⟨a, -, hk⟩
       · exact funcPointerLoop_fault _ _ _ hl
       · cases hk)
    | (cases hf; rfl)

theorem readSections_fault {h : Host} {mem : Mem} {wide : Bool} {fuel sections : Nat} :
    ∀ (n j : Nat) {st : MachOImpl × List Nat} {f : Fault},
      readSections h mem wide fuel sections n j st = .fault f → f.isHeaderError = false := by
  intro n
  induction n with
  | zero =>
    intro j st f hf
    simp [readSections] at hf
  | succ n ih =>
    intro j st f hf
    simp only [readSections] at hf
    rcases Res.bind_eq_fault.mp hf with hl | ⟨a, -, hk⟩
    · exact readSection_fault hl
    · exact ih _ hk

theorem readExportChildren_fault {recur : Nat → Bytes × List Export → Res (Bytes × List Export)}
    {mem : Mem} {start : Nat}
    (hrec : ∀ p st f, recur p st = .fault f → f.isHeaderError = false) :
    ∀ (n p : Nat) (st : Bytes × List Export) {f : Fault},
      readExportChildren recur mem start n p st = .fault f → f.isHeaderError = false := by
  intro n
  induction n with
  | zero =>
    intro p st f hf
    simp [readExportChildren] at hf
  | succ n ih =>
    intro p st f hf
    simp only [readExportChildren] at hf
    split_ifs at hf
    · cases hf; rfl
    · rcases Res.bind_eq_fault.mp hf with hl | ⟨a, -, hk⟩
      · exact hrec _ _ _ hl
      · exact ih _ _ hk

theorem readExport_fault {mem : Mem} {start end_ : Nat} :
    ∀ (fuel p : Nat) (st : Bytes × List Export) (f : Fault),
      readExport mem start end_ fuel p st = .fault f → f.isHeaderError = false := by
  intro fuel
  induction fuel with
  | zero =>
    intro p st f hf
    simp only [readExport, Res.fault.injEq] at hf
    subst hf
    rfl
  | succ n ih =>
    intro p st f hf
    simp only [readExport] at hf
    split_ifs at hf
    all_goals first
      | (cases hf; rfl)
      | exact readExportChildren_fault ih _ _ _ hf

theorem readDyldInfo_fault {d : Decoders} {mem : Mem} {fuel c : Nat} {m : MachOImpl} {f : Fault}
    (hf : readDyldInfo d mem fuel c m = .fault f) : f.isHeaderError = false := by
  unfold readDyldInfo readDyldExports at hf
  dsimp only at hf
  split_ifs at hf
  rcases Res.bind_eq_fault.mp hf with hl | ⟨a, -, hk⟩
  · exact readExport_fault _ _ _ _ hl
  · cases hk

theorem processCommand_fault {h : Host} {d : Decoders} {mem : Mem} {fuel c : Nat}
    {st : MachOImpl × Locals} {f : Fault}
    (hf : processCommand h d mem fuel c st = .fault f) : f.isHeaderError = false := by
  unfold processCommand at hf
  dsimp only at hf
  by_cases h1 : lc_cmd mem c = LC_SEGMENT_64
  · rw [if_pos h1] at hf
    rcases Res.bind_eq_fault.mp hf with hl | ⟨a, -, hk⟩
    · exact readSections_fault _ _ hl
    · cases hk
  rw [if_neg h1] at hf
  by_cases h2 : lc_cmd mem c = LC_SEGMENT
  · rw [if_pos h2] at hf
    rcases Res.bind_eq_fault.mp hf with hl | ⟨a, -, hk⟩
    · exact readSections_fault _ _ hl
    · cases hk
  rw [if_neg h2] at hf
  by_cases h3 : lc_cmd mem c = LC_DYLD_INFO ∨ lc_cmd mem c = LC_DYLD_INFO_ONLY
  · rw [if_pos h3] at hf
    rcases Res.bind_eq_fault.mp hf with hl | ⟨a, -, hk⟩
    · exact readDyldInfo_fault hl
    · cases hk
  rw [if_neg h3] at hf
  split_ifs at hf

theorem walkCommands_fault {h : Host} {d : Decoders} {mem : Mem} {fuel : Nat} :
    ∀ (n c : Nat) {st : MachOImpl × Locals} {f : Fault},
      walkCommands h d mem fuel n c st = .fault f → f.isHeaderError = false := by
  intro n
  induction n with
  | zero =>
    intro c st f hf
    simp [walkCommands] at hf
  | succ n ih =>
    intro c st f hf
    simp only [walkCommands] at hf
    rcases Res.bind_eq_fault.mp hf with hl | ⟨a, -, hk⟩
    · exact processCommand_fault hl
    · exact ih _ hk

theorem readClassicBinds32_fault {mem : Mem} {m : MachOImpl} {dysyms symtab symstrtab : Nat} :
    ∀ (secs : List Nat) (binds : List Bind) {f : Fault},
      readClassicBinds32 mem m dysyms symtab symstrtab secs binds = .fault f →
      f.isHeaderError = false := by
  intro secs
  induction secs with
  | nil =>
    intro binds f hf
    simp [readClassicBinds32] at hf
  | cons sec rest ih =>
    intro binds f hf
    simp only [readClassicBinds32] at hf
    split_ifs at hf
    · rcases Res.bind_eq_fault.mp hf with hl | ⟨a, -, hk⟩
      · unfold readStubBind at hl
        dsimp only at hl
        split_ifs at hl
        cases hl
        rfl
      · exact ih _ hk
    · exact ih _ hf

theorem readClassicBinds_fault {mem : Mem} {m : MachOImpl} {l : Locals} {f : Fault}
    (hf : readClassicBinds mem m l = .fault f) : f.isHeaderError = false := by
  unfold readClassicBinds at hf
  split at hf
  · rcases Res.bind_eq_fault.mp hf with hl | ⟨a, -, hk⟩
    · exact readClassicBinds32_fault _ _ hl
    · cases hk
  · cases hf

theorem readExternalRelocation_fault {h : Host} {mem : Mem} {m : MachOImpl} {reloc : Nat}
    {symtab symstrtab : Option Nat} {relocations : List Relocation} {f : Fault}
    (hf : readExternalRelocation h mem m reloc symtab symstrtab relocations = .fault f) :
    f.isHeaderError = false := by
  unfold readExternalRelocation at hf
  by_cases he : r_extern mem reloc = 0
  · rw [if_pos he] at hf
    cases hf
    rfl
  rw [if_neg he] at hf
  by_cases hl : r_length mem reloc ≠ RELOC_PTRLEN h
  · rw [if_pos hl] at hf
    cases hf
  rw [if_neg hl] at hf
  by_cases ht : r_type mem reloc = RELOC_VANILLA h
  · rw [if_pos ht] at hf
    cases symtab <;> cases symstrtab <;> cases hf <;> rfl
  · rw [if_neg ht] at hf
    cases hf

theorem readExternalRelocations_fault {h : Host} {mem : Mem} {m : MachOImpl}
    {ext_relocinfo : Nat} {symtab symstrtab : Option Nat} :
    ∀ (n i : Nat) (relocations : List Relocation) {f : Fault},
      readExternalRelocations h mem m ext_relocinfo symtab symstrtab n i relocations =
        .fault f → f.isHeaderError = false := by
  intro n
  induction n with
  | zero =>
    intro i relocations f hf
    simp [readExternalRelocations] at hf
  | succ n ih =>
    intro i relocations f hf
    simp only [readExternalRelocations] at hf
    rcases Res.bind_eq_fault.mp hf with hl | ⟨a, -, hk⟩
    · exact readExternalRelocation_fault hl
    · exact ih _ _ hk

theorem readRelocations_fault {h : Host} {mem : Mem} {m : MachOImpl} {l : Locals} {f : Fault}
    (hf : readRelocations h mem m l = .fault f) : f.isHeaderError = false := by
  unfold readRelocations at hf
  dsimp only at hf
  rcases Res.bind_eq_fault.mp hf with hl | ⟨a, -, hk⟩
  · split at hl
    · exact readExternalRelocations_fault _ _ _ hl
    · cases hl
  · split at hk <;> cases hk

/-- A fault of `processLoaderCommands` is never one of the header errors. -/
theorem processLoaderCommands_fault {h : Host} {d : Decoders} {mem : Mem} {fuel : Nat}
    {m : MachOImpl} {f : Fault}
    (hf : processLoaderCommands h d mem fuel m = .fault f) : f.isHeaderError = false := by
  unfold processLoaderCommands at hf
  rcases Res.bind_eq_fault.mp hf with hl | ⟨st, -, hk⟩
  · exact walkCommands_fault _ _ hl
  · rcases Res.bind_eq_fault.mp hk with hl | ⟨m1, -, hk2⟩
    · exact readClassicBinds_fault hl
    · exact readRelocations_fault hk2

/-! ## C13, C14, C15: the header checks -/

theorem validateHeader_of_magic (mem : Mem) (m : MachOImpl)
    (hmagic : hdr_magic mem = MH_MAGIC ∨ hdr_magic mem = MH_MAGIC_64) :
    validateHeader mem m =
      if hdr_cputype mem &&& 0x00ffffff ≠ CPU_TYPE_X86 then .fault (.error .unsupportedCpu)
      else .ok { m with
        m_is64 := decide (hdr_magic mem = MH_MAGIC_64)
        m_ptrsize := if hdr_magic mem = MH_MAGIC_64 then 8 else 4 } := by
  unfold validateHeader
  dsimp only
  rcases hmagic with h32 | h64
  · have h1 : hdr_magic mem ≠ MH_MAGIC_64 := by rw [h32]; decide
    have h2 : hdr_magic mem ≠ MH_CIGAM := by rw [h32]; decide
    rw [if_neg h1, if_neg h2, if_neg (not_not.mpr h32)]
    simp [h1]
  · rw [if_pos h64]
    simp [h64]

theorem validateHeader_bad_magic (mem : Mem) (m : MachOImpl)
    (hmagic : ¬(hdr_magic mem = MH_MAGIC ∨ hdr_magic mem = MH_MAGIC_64)) :
    validateHeader mem m =
      if hdr_magic mem = MH_CIGAM then .fault (.error .unsupportedEndianness)
      else .fault (.error .notMachO) := by
  rw [not_or] at hmagic
  unfold validateHeader
  dsimp only
  rw [if_neg hmagic.2]
  by_cases hc : hdr_magic mem = MH_CIGAM
  · rw [if_pos hc, if_pos hc]
    rfl
  · rw [if_neg hc, if_neg hc, if_pos hmagic.1]
    rfl

/-- C13. The header checks pass the magic test exactly when the magic is
`MH_MAGIC` or `MH_MAGIC_64` (otherwise one of the two magic errors is thrown);
the pointer width set by the checks is 8 if and only if the magic is
`MH_MAGIC_64` and 4 otherwise; it is set before the walk over the load
commands starts, no load command changes it (nor `m_is64`), and it is the
pointer width of the finished parse. -/
theorem C13_pointer_width_fixed_by_magic (h : Host) (d : Decoders) (mem : Mem) (fuel : Nat)
    (need_exports : Bool) (fd : Int) :
    ((validateHeader mem (MachOImpl.fresh need_exports fd) =
          .fault (.error .unsupportedEndianness) ∨
        validateHeader mem (MachOImpl.fresh need_exports fd) = .fault (.error .notMachO)) ↔
      ¬(hdr_magic mem = MH_MAGIC ∨ hdr_magic mem = MH_MAGIC_64)) ∧
    (∀ m0, validateHeader mem (MachOImpl.fresh need_exports fd) = .ok m0 →
      m0.m_ptrsize = (if hdr_magic mem = MH_MAGIC_64 then 8 else 4) ∧
      (m0.m_ptrsize = 8 ↔ hdr_magic mem = MH_MAGIC_64) ∧
      m0.m_is64 = decide (hdr_magic mem = MH_MAGIC_64)) ∧
    (∀ c st st', processCommand h d mem fuel c st = .ok st' →
      st'.1.m_ptrsize = st.1.m_ptrsize ∧ st'.1.m_is64 = st.1.m_is64) ∧
    (∀ n c st st', walkCommands h d mem fuel n c st = .ok st' →
      st'.1.m_ptrsize = st.1.m_ptrsize ∧ st'.1.m_is64 = st.1.m_is64) ∧
    (∀ m, MachOImpl.construct h d mem fuel need_exports fd = .ok m →
      m.m_ptrsize = (if hdr_magic mem = MH_MAGIC_64 then 8 else 4) ∧
      (m.m_ptrsize = 8 ↔ hdr_magic mem = MH_MAGIC_64)) := by
  have hwidth : ∀ m0 : MachOImpl,
      m0.m_ptrsize = (if hdr_magic mem = MH_MAGIC_64 then 8 else 4) →
      (m0.m_ptrsize = 8 ↔ hdr_magic mem = MH_MAGIC_64) := by
    intro m0 hp
    rw [hp]
    by_cases hm : hdr_magic mem = MH_MAGIC_64 <;> simp [hm]
  refine ⟨?_, ?_, ?_, ?_, ?_⟩
  · constructor
    · intro hfault hmagic
      rw [validateHeader_of_magic mem _ hmagic] at hfault
      split_ifs at hfault <;> rcases hfault with hf | hf <;> cases hf
    · intro hmagic
      rw [validateHeader_bad_magic mem _ hmagic]
      by_cases hc : hdr_magic mem = MH_CIGAM
      · rw [if_pos hc]; exact Or.inl rfl
      · rw [if_neg hc]; exact Or.inr rfl
  · intro m0 h0
    have e0 := validateHeader_frame h0
    have hp : m0.m_ptrsize = (if hdr_magic mem = MH_MAGIC_64 then 8 else 4) := by rw [e0]
    exact ⟨hp, hwidth m0 hp, by rw [e0]⟩
  · intro c st st' hs
    obtain ⟨a1, a2, -⟩ := processCommand_segments hs
    exact ⟨a2, a1⟩
  · intro n c st st' hs
    obtain ⟨a1, a2, -⟩ := walkCommands_segments _ _ hs
    exact ⟨a2, a1⟩
  · intro m hparse
    obtain ⟨m0, st, m1, h0, hw, hc, hr⟩ := construct_stages hparse
    have e0 := validateHeader_frame h0
    obtain ⟨-, a2, -⟩ := walkCommands_segments _ _ hw
    obtain ⟨bd, e1⟩ := readClassicBinds_frame hc
    obtain ⟨rl, rb, e2⟩ := readRelocations_frame hr
    have hp : m.m_ptrsize = (if hdr_magic mem = MH_MAGIC_64 then 8 else 4) := by
      rw [e2, e1]
      show st.1.m_ptrsize = _
      rw [a2, e0]
    exact ⟨hp, hwidth m hp⟩

/-- C13 on `imageTwoByTwo`, whose magic is `MH_MAGIC_64`: pointer width 8. -/
theorem C13_pointer_width_witness : imageTwoByTwoParsed.m_ptrsize = 8 :=
  ((C13_pointer_width_fixed_by_magic .x86_64 noDecoders imageTwoByTwo 1 true 3).2.2.2.2
    imageTwoByTwoParsed (by decide)).1.trans (by decide)

/-- C14 (the code at the failing input). A header with the byte-reversed
64-bit magic `MH_CIGAM_64` is rejected with "Not a Mach-O file": the
constructor tests `MH_CIGAM` only (source line 314).  The byte-reversed 32-bit
magic gives "Unsupported endianness", and a magic that is neither supported
nor reversed gives "Not a Mach-O file". -/
theorem C14_reversed_64_bit_magic_is_not_mach_o :
    MachOImpl.construct .x86_64 noDecoders (headerOnly MH_CIGAM_64 0x01000007) 1 true 3 =
      .fault (.error .notMachO) ∧
    MachOImpl.construct .x86_64 noDecoders (headerOnly MH_CIGAM 7) 1 true 3 =
      .fault (.error .unsupportedEndianness) ∧
    MachOImpl.construct .x86_64 noDecoders (headerOnly 0x12345678 7) 1 true 3 =
      .fault (.error .notMachO) := by
  decide

/-- C15. For every image with a supported magic (and a valid descriptor), the
parse fails with "Unsupported CPU type in Mach-O" if and only if
`cputype & 0x00ffffff` differs from `CPU_TYPE_X86`.  In that case the error
comes from the header checks, before `processLoaderCommands`: whatever the
bytes after the magic and the CPU type are, the outcome is this error. -/
theorem C15_unsupported_cpu (h : Host) (d : Decoders) (mem : Mem) (fuel : Nat)
    (need_exports : Bool) (fd : Int) (hfd : 0 < fd)
    (hmagic : hdr_magic mem = MH_MAGIC ∨ hdr_magic mem = MH_MAGIC_64) :
    (MachOImpl.construct h d mem fuel need_exports fd = .fault (.error .unsupportedCpu) ↔
      hdr_cputype mem &&& 0x00ffffff ≠ CPU_TYPE_X86) ∧
    (hdr_cputype mem &&& 0x00ffffff ≠ CPU_TYPE_X86 →
      validateHeader mem (MachOImpl.fresh need_exports fd) = .fault (.error .unsupportedCpu) ∧
      ∀ (h' : Host) (d' : Decoders) (mem' : Mem) (fuel' : Nat),
        hdr_magic mem' = hdr_magic mem → hdr_cputype mem' = hdr_cputype mem →
        MachOImpl.construct h' d' mem' fuel' need_exports fd =
          .fault (.error .unsupportedCpu)) := by
  have hfd' : ¬fd ≤ 0 := not_le.mpr hfd
  have hbad : ∀ (h' : Host) (d' : Decoders) (mem' : Mem) (fuel' : Nat),
      hdr_magic mem' = hdr_magic mem → hdr_cputype mem' = hdr_cputype mem →
      hdr_cputype mem &&& 0x00ffffff ≠ CPU_TYPE_X86 →
      MachOImpl.construct h' d' mem' fuel' need_exports fd =
        .fault (.error .unsupportedCpu) := by
    intro h' d' mem' fuel' hm hc hcpu
    unfold MachOImpl.construct
    rw [if_neg hfd', validateHeader_of_magic mem' _ (by rw [hm]; exact hmagic), hc, if_pos hcpu]
    rfl
  constructor
  · constructor
    · intro hfault hcpu
      unfold MachOImpl.construct at hfault
      rw [if_neg hfd', validateHeader_of_magic mem _ hmagic, if_neg (not_not.mpr hcpu)] at hfault
      have := processLoaderCommands_fault hfault
      cases this
    · exact hbad h d mem fuel rfl rfl
  · intro hcpu
    refine ⟨?_, fun h' d' mem' fuel' hm hc => hbad h' d' mem' fuel' hm hc hcpu⟩
    rw [validateHeader_of_magic mem _ hmagic, if_pos hcpu]

/-- C15 on a 64-bit header whose CPU type is 12 (not the x86 family). -/
theorem C15_unsupported_cpu_witness :
    MachOImpl.construct .x86_64 noDecoders (headerOnly MH_MAGIC_64 12) 1 true 3 =
      .fault (.error .unsupportedCpu) :=
  (C15_unsupported_cpu .x86_64 noDecoders (headerOnly MH_MAGIC_64 12) 1 true 3 (by decide)
    (by decide)).1.mpr (by decide)

/-! ## C16: the steps of the walk -/

theorem commandOffsets_length (mem : Mem) :
    ∀ n c : Nat, (commandOffsets mem n c).length = n := by
  intro n
  induction n with
  | zero => intro c; rfl
  | succ n ih => intro c; simp [commandOffsets, ih]

theorem commandOffsets_next (mem : Mem) :
    ∀ (k n c x : Nat), (commandOffsets mem n c)[k]? = some x → k + 1 < n →
      (commandOffsets mem n c)[k + 1]? = some (x + lc_cmdsize mem x) := by
  intro k
  induction k with
  | zero =>
    intro n c x hx hk
    obtain ⟨n', rfl⟩ : ∃ n', n = n' + 2 := ⟨n - 2, by omega⟩
    simp only [commandOffsets, List.getElem?_cons_zero, Option.some.injEq] at hx
    subst hx
    simp [commandOffsets]
  | succ k ih =>
    intro n c x hx hk
    obtain ⟨n', rfl⟩ : ∃ n', n = n' + 1 := ⟨n - 1, by omega⟩
    simp only [commandOffsets, List.getElem?_cons_succ] at hx ⊢
    exact ih n' _ x hx (by omega)

theorem foldl_bind_fault {α β : Type} (k : β → α → Res α) (f : Fault) :
    ∀ l : List β, l.foldl (fun (r : Res α) c => r.bind (k c)) (Res.fault f) = Res.fault f := by
  intro l
  induction l with
  | nil => rfl
  | cons c l ih => simpa using ih

theorem walkCommands_eq_foldl (h : Host) (d : Decoders) (mem : Mem) (fuel : Nat) :
    ∀ (n c : Nat) (st : MachOImpl × Locals),
      walkCommands h d mem fuel n c st =
        (commandOffsets mem n c).foldl (fun r x => r.bind (processCommand h d mem fuel x))
          (.ok st) := by
  intro n
  induction n with
  | zero => intro c st; rfl
  | succ n ih =>
    intro c st
    simp only [walkCommands, commandOffsets, List.foldl_cons, Res.bind_ok]
    cases hp : processCommand h d mem fuel c st with
    | ok st1 => simp [ih]
    | fault f => simp [foldl_bind_fault]

theorem processCommand_unrecognized (h : Host) (d : Decoders) (mem : Mem) (fuel c : Nat)
    (st : MachOImpl × Locals) (hc : lc_cmd mem c ∉ recognizedCommands) :
    processCommand h d mem fuel c st = .ok st := by
  simp only [recognizedCommands, List.mem_cons, List.mem_singleton, List.not_mem_nil, or_false,
    not_or] at hc
  obtain ⟨h1, h2, h3, h4, h5, h6, h7, h8, h9, h10, h11, h12⟩ := hc
  unfold processCommand
  dsimp only
  rw [if_neg h1, if_neg h2, if_neg (not_or.mpr ⟨h3, h4⟩), if_neg h5, if_neg h6, if_neg h7,
    if_neg h8, if_neg h9, if_neg h10, if_neg h11, if_neg h12]

/-- C16. The walk of `processLoaderCommands` over an image of either width is
the sequence of exactly `ncmds` dispatch steps (`processCommand`), each run on
the state left by the one before, a fault ending the sequence: the first step
reads the command at the byte offset equal to the header size (28 for the
32-bit header, 32 for the 64-bit one), and each next step the command at the
offset of the step before plus that command's `cmdsize`.  A command whose type
has no `case` in the switch leaves the whole state as it is. -/
theorem C16_walk_is_ncmds_dispatch_steps (h : Host) (d : Decoders) (mem : Mem) (fuel : Nat)
    (is64 : Bool) :
    (imageCommands mem is64).length = hdr_ncmds mem ∧
    sizeof_mach_header is64 = (if is64 then 32 else 28) ∧
    (0 < hdr_ncmds mem → (imageCommands mem is64)[0]? = some (sizeof_mach_header is64)) ∧
    (∀ k c, (imageCommands mem is64)[k]? = some c → k + 1 < hdr_ncmds mem →
      (imageCommands mem is64)[k + 1]? = some (c + lc_cmdsize mem c)) ∧
    (∀ st, walkCommands h d mem fuel (hdr_ncmds mem) (sizeof_mach_header is64) st =
      (imageCommands mem is64).foldl (fun r c => r.bind (processCommand h d mem fuel c))
        (.ok st)) ∧
    (∀ c st, lc_cmd mem c ∉ recognizedCommands → processCommand h d mem fuel c st = .ok st) := by
  refine ⟨commandOffsets_length mem _ _, rfl, ?_, ?_, ?_, ?_⟩
  · intro hn
    obtain ⟨n', hn'⟩ : ∃ n', hdr_ncmds mem = n' + 1 := ⟨hdr_ncmds mem - 1, by omega⟩
    simp [imageCommands, hn', commandOffsets]
  · intro k c hk hlt
    exact commandOffsets_next mem k _ _ c hk hlt
  · intro st
    exact walkCommands_eq_foldl h d mem fuel _ _ st
  · intro c st hc
    exact processCommand_unrecognized h d mem fuel c st hc

/-- C16 on `imageTwoByTwo`: two steps, at offset 32 and at 32 plus the size
232 of the first command. -/
theorem C16_walk_witness :
    (imageCommands imageTwoByTwo true).length = 2 ∧
    (imageCommands imageTwoByTwo true)[1]? = some (32 + 232) :=
  have key := C16_walk_is_ncmds_dispatch_steps .x86_64 noDecoders imageTwoByTwo 1 true
  ⟨key.1.trans (by decide), (key.2.2.2.1 0 32 (by decide) (by decide)).trans (by decide)⟩

/-! ## The pointer-slot loops of `readSegment` -/

theorem noteSpecialSection_fields (mem : Mem) (wide : Bool) (sec : Nat) (s : Section)
    (m : MachOImpl) :
    (noteSpecialSection mem wide sec s m).m_ptrsize = m.m_ptrsize ∧
    (noteSpecialSection mem wide sec s m).m_is64 = m.m_is64 ∧
    (noteSpecialSection mem wide sec s m).m_init_funcs = m.m_init_funcs ∧
    (noteSpecialSection mem wide sec s m).m_exit_funcs = m.m_exit_funcs ∧
    (noteSpecialSection mem wide sec s m).m_sections = m.m_sections := by
  obtain ⟨dd, ef, ui, e⟩ := noteSpecialSection_frame mem wide sec s m
  rw [e]
  exact ⟨rfl, rfl, rfl, rfl, rfl⟩

/-- The iteration of `readSegment` for a section of type
`S_MOD_INIT_FUNC_POINTERS`: the pointer-slot loop on the init list. -/
theorem readSection_init (h : Host) (mem : Mem) (wide : Bool) (fuel sec : Nat)
    (st : MachOImpl × List Nat)
    (ht : sec_flags mem wide sec &&& SECTION_TYPE = S_MOD_INIT_FUNC_POINTERS) :
    readSection h mem wide fuel sec st =
      (funcPointerLoop st.1.m_ptrsize (sec_end mem wide sec) fuel (sec_addr mem wide sec)
        st.1.m_init_funcs).bind fun funcs =>
          .ok ({ noteSpecialSection mem wide sec (savedSection h mem wide sec)
              { st.1 with m_sections := st.1.m_sections ++ [savedSection h mem wide sec] } with
            m_init_funcs := funcs }, st.2) := by
  obtain ⟨e1, -, e3, -, -⟩ := noteSpecialSection_fields mem wide sec (savedSection h mem wide sec)
    { st.1 with m_sections := st.1.m_sections ++ [savedSection h mem wide sec] }
  unfold readSection
  dsimp only
  rw [if_neg (by rw [ht]; decide), if_pos ht, e1, e3]

/-- The iteration of `readSegment` for a section of type
`S_MOD_TERM_FUNC_POINTERS`: the pointer-slot loop on the exit list. -/
theorem readSection_term (h : Host) (mem : Mem) (wide : Bool) (fuel sec : Nat)
    (st : MachOImpl × List Nat)
    (ht : sec_flags mem wide sec &&& SECTION_TYPE = S_MOD_TERM_FUNC_POINTERS) :
    readSection h mem wide fuel sec st =
      (funcPointerLoop st.1.m_ptrsize (sec_end mem wide sec) fuel (sec_addr mem wide sec)
        st.1.m_exit_funcs).bind fun funcs =>
          .ok ({ noteSpecialSection mem wide sec (savedSection h mem wide sec)
              { st.1 with m_sections := st.1.m_sections ++ [savedSection h mem wide sec] } with
            m_exit_funcs := funcs }, st.2) := by
  obtain ⟨e1, -, -, e4, -⟩ := noteSpecialSection_fields mem wide sec (savedSection h mem wide sec)
    { st.1 with m_sections := st.1.m_sections ++ [savedSection h mem wide sec] }
  unfold readSection
  dsimp only
  rw [if_neg (by rw [ht]; decide), if_neg (by rw [ht]; decide), if_pos ht, e1, e4]

/-- The pointer-slot loop never returns when the slots are 8 bytes wide and
aligned and the section ends 6 bytes below `2^64`: the cursor wraps to 0. -/
theorem funcPointerLoop_never_returns (w bound : Nat) (hw : w = 8)
    (hb : bound = 2 ^ 64 - 6) :
    ∀ (fuel p : Nat) (funcs : List Nat), p % 8 = 0 → p < 2 ^ 64 →
      funcPointerLoop w bound fuel p funcs = .fault .fuel := by
  subst hw hb
  intro fuel
  induction fuel with
  | zero => intro p funcs _ _; rfl
  | succ n ih =>
    intro p funcs hp hlt
    have hlt' : p < 2 ^ 64 - 6 := by omega
    simp only [funcPointerLoop, if_pos hlt']
    exact ih _ _ (by omega) (Nat.mod_lt _ (by decide))

theorem slotAddresses_done (a bound w : Nat) (hw : 0 < w) (ha : ¬a < bound) :
    slotAddresses a bound w = [] := by
  have h0 : bound - a + w - 1 = w - 1 := by omega
  unfold slotAddresses
  rw [h0, Nat.div_eq_of_lt (by omega)]
  rfl

theorem slotAddresses_step (a bound w : Nat) (hw : 0 < w) (ha : a < bound) :
    slotAddresses a bound w = a :: slotAddresses (a + w) bound w := by
  have h1 : (bound - a + w - 1) / w = (bound - (a + w) + w - 1) / w + 1 := by
    have e1 : bound - a + w - 1 = (bound - a - 1) + w := by omega
    rw [e1, Nat.add_div_right _ hw]
    congr 1
    by_cases hle : a + w ≤ bound
    · congr 1
      omega
    · have e2 : bound - (a + w) + w - 1 = w - 1 := by omega
      rw [e2, Nat.div_eq_of_lt (by omega), Nat.div_eq_of_lt (by omega)]
  unfold slotAddresses
  rw [h1, List.range_succ_eq_map]
  simp only [List.map_cons, List.map_map, Nat.zero_mul, Nat.add_zero, List.cons.injEq, true_and]
  apply List.map_congr_left
  intro i _
  simp only [Function.comp, Nat.succ_eq_add_one]
  ring

/-- The pointer-slot loop returns, with the slot addresses appended, when the
cursor cannot wrap (`bound + w ≤ 2^64`) and the fuel exceeds the slot count. -/
theorem funcPointerLoop_returns (w bound : Nat) (hw : 0 < w) (hb : bound + w ≤ 2 ^ 64) :
    ∀ (fuel p : Nat) (funcs : List Nat), (bound - p + w - 1) / w < fuel →
      funcPointerLoop w bound fuel p funcs = .ok (funcs ++ slotAddresses p bound w) := by
  intro fuel
  induction fuel with
  | zero => intro p funcs hf; exact absurd hf (Nat.not_lt_zero _)
  | succ n ih =>
    intro p funcs hf
    simp only [funcPointerLoop]
    by_cases hp : p < bound
    · have hlen : (slotAddresses p bound w).length = (bound - p + w - 1) / w := by
        simp [slotAddresses]
      have hlen' : (slotAddresses (p + w) bound w).length = (bound - (p + w) + w - 1) / w := by
        simp [slotAddresses]
      rw [slotAddresses_step p bound w hw hp, List.length_cons, hlen'] at hlen
      rw [if_pos hp, Nat.mod_eq_of_lt (by omega), ih _ _ (by omega),
        slotAddresses_step p bound w hw hp]
      simp
    · rw [if_neg hp, slotAddresses_done p bound w hw hp]
      simp

/-! ## C17 and C18: one defect of the pointer-slot loop -/

theorem segment_fault_of_first_section (fuel : Nat) (img : Mem) (f : Fault)
    (hv : validateHeader img (MachOImpl.fresh true 3) = .ok object64)
    (hn : hdr_ncmds img = 1) (hc : lc_cmd img 32 = LC_SEGMENT_64)
    (hs : seg_nsects img true 32 ≠ 0)
    (hsec : ∀ st : MachOImpl × List Nat, st.1.m_ptrsize = 8 →
      readSection .x86_64 img true fuel (32 + 72) st = .fault f) :
    MachOImpl.construct .x86_64 noDecoders img fuel true 3 = .fault f := by
  obtain ⟨k, hk⟩ : ∃ k, seg_nsects img true 32 = k + 1 :=
    ⟨seg_nsects img true 32 - 1, by omega⟩
  have hseg : ∀ bs, readSegment .x86_64 img true fuel 32 (object64, bs) = .fault f := by
    intro bs
    unfold readSegment
    dsimp only
    rw [hk]
    simp only [readSections, sizeof_segment_command, if_true, Nat.zero_mul, Nat.add_zero]
    rw [hsec _ (by split_ifs <;> rfl)]
    rfl
  have hp : processCommand .x86_64 noDecoders img fuel 32 (object64, Locals.init) =
      .fault f := by
    unfold processCommand
    dsimp only
    rw [if_pos hc, hseg]
    rfl
  unfold MachOImpl.construct
  rw [if_neg (by decide), hv, Res.bind_ok]
  unfold processLoaderCommands
  rw [hn]
  simp only [walkCommands]
  rw [show sizeof_mach_header object64.m_is64 = 32 from rfl, hp]
  rfl

/-- C18 (divergence): a 64-bit image whose only section is an
initializer-function-pointers `section_64` at address `0xfffffffffffffff0` of
size 10 (`a + s = 2^64 - 6` does not overflow).  The claim expects the two
addresses `a` and `a + 8` on the init list; the cursor of the loop at source
line 172 wraps from `a + 8` to `0`, so the loop never ends: for every bound
on the number of iterations the parse is still inside the loop. -/
theorem C18_init_pointer_loop_never_ends :
    sec_addr (imageOneSegment64 [sectionInitAtTop]) true 104
        + sec_size (imageOneSegment64 [sectionInitAtTop]) true 104 = 2 ^ 64 - 6 ∧
      ∀ fuel, MachOImpl.construct .x86_64 noDecoders (imageOneSegment64 [sectionInitAtTop])
        fuel true 3 = .fault .fuel := by
  refine ⟨by decide, fun fuel => ?_⟩
  refine segment_fault_of_first_section fuel _ _ (by decide) (by decide) (by decide)
    (by decide) ?_
  intro st hst
  rw [readSection_init _ _ _ _ _ _ (by decide),
    funcPointerLoop_never_returns _ _ hst (by decide) fuel _ _ (by decide) (by decide)]
  rfl

theorem funcPointerLoop_fault_fuel {ptrsize bound : Nat} :
    ∀ (fuel p : Nat) (funcs : List Nat) {f : Fault},
      funcPointerLoop ptrsize bound fuel p funcs = .fault f → f = .fuel := by
  intro fuel
  induction fuel with
  | zero =>
    intro p funcs f hf
    simp only [funcPointerLoop, Res.fault.injEq] at hf
    exact hf.symm
  | succ n ih =>
    intro p funcs f hf
    simp only [funcPointerLoop] at hf
    split_ifs at hf
    exact ih _ _ hf
/-- One iteration of the section loop reaches `abort()` exactly when the masked
type code of the section is none of the seventeen codes `0x0` to `0x10`. -/
theorem readSection_abort_iff (h : Host) (mem : Mem) (wide : Bool) (fuel sec : Nat)
    (st : MachOImpl × List Nat) :
    readSection h mem wide fuel sec st = .fault .abort ↔
      ¬(sec_flags mem wide sec &&& SECTION_TYPE ≤ 0x10) := by
  unfold readSection
  dsimp only
  generalize sec_flags mem wide sec &&& SECTION_TYPE = t
  generalize noteSpecialSection mem wide sec (savedSection h mem wide sec)
    { st.1 with m_sections := st.1.m_sections ++ [savedSection h mem wide sec] } = m
  have hloop : ∀ (w b p : Nat) (l : List Nat) (k : List Nat → MachOImpl × List Nat),
      ¬((funcPointerLoop w b fuel p l).bind fun funcs => Res.ok (k funcs)) = .fault .abort := by
    intro w b p l k hf
    rcases Res.bind_eq_fault.mp hf with hl | ⟨a, -, hk⟩
    · exact absurd (funcPointerLoop_fault_fuel _ _ _ hl) (by decide)
    · exact absurd hk (by simp)
  have c0 : S_REGULAR = 0 := rfl
  have c1 : S_ZEROFILL = 1 := rfl
  have c2 : S_CSTRING_LITERALS = 2 := rfl
  have c3 : S_4BYTE_LITERALS = 3 := rfl
  have c4 : S_8BYTE_LITERALS = 4 := rfl
  have c5 : S_LITERAL_POINTERS = 5 := rfl
  have c6 : S_NON_LAZY_SYMBOL_POINTERS = 6 := rfl
  have c7 : S_LAZY_SYMBOL_POINTERS = 7 := rfl
  have c8 : S_SYMBOL_STUBS = 8 := rfl
  have c9 : S_MOD_INIT_FUNC_POINTERS = 9 := rfl
  have c10 : S_MOD_TERM_FUNC_POINTERS = 10 := rfl
  have c11 : S_COALESCED = 11 := rfl
  have c12 : S_GB_ZEROFILL = 12 := rfl
  have c13 : S_INTERPOSING = 13 := rfl
  have c14 : S_16BYTE_LITERALS = 14 := rfl
  have c15 : S_DTRACE_DOF = 15 := rfl
  have c16 : S_LAZY_DYLIB_SYMBOL_POINTERS = 16 := rfl
  by_cases h0 : t = S_REGULAR
  · rw [if_pos h0]
    exact iff_of_false Res.noConfusion (by omega)
  rw [if_neg h0]
  by_cases h1 : t = S_MOD_INIT_FUNC_POINTERS
  · rw [if_pos h1]
    exact iff_of_false (hloop _ _ _ _ _) (by omega)
  rw [if_neg h1]
  by_cases h2 : t = S_MOD_TERM_FUNC_POINTERS
  · rw [if_pos h2]
    exact iff_of_false (hloop _ _ _ _ _) (by omega)
  rw [if_neg h2]
  by_cases h3 : t = S_NON_LAZY_SYMBOL_POINTERS ∨ t = S_LAZY_SYMBOL_POINTERS
  · rw [if_pos h3]
    exact iff_of_false Res.noConfusion (by omega)
  rw [if_neg h3]
  by_cases h4 : t = S_SYMBOL_STUBS
  · rw [if_pos h4]
    refine iff_of_false ?_ (by omega)
    by_cases h5 : m.m_is64 = false
    · rw [if_pos h5]
      exact Res.noConfusion
    · rw [if_neg h5]
      exact Res.noConfusion
  rw [if_neg h4]
  by_cases h6 : t = S_ZEROFILL ∨ t = S_CSTRING_LITERALS
      ∨ t = S_4BYTE_LITERALS ∨ t = S_8BYTE_LITERALS
      ∨ t = S_LITERAL_POINTERS ∨ t = S_COALESCED
      ∨ t = S_GB_ZEROFILL ∨ t = S_INTERPOSING
      ∨ t = S_16BYTE_LITERALS ∨ t = S_DTRACE_DOF
      ∨ t = S_LAZY_DYLIB_SYMBOL_POINTERS
  · rw [if_pos h6]
    exact iff_of_false Res.noConfusion (by omega)
  · rw [if_neg h6]
    exact iff_of_true rfl (by omega)

/-- A section whose type is zero-fill, a literal type, coalesced, interposing,
DOF or lazy-dylib-symbol-pointers is recorded, and the init list, the exit list
and the bind-candidate list are left as they were. -/
theorem readSection_skipped (h : Host) (mem : Mem) (wide : Bool) (fuel sec : Nat)
    (st : MachOImpl × List Nat)
    (ht : sec_flags mem wide sec &&& SECTION_TYPE ∈
      [S_ZEROFILL, S_CSTRING_LITERALS, S_4BYTE_LITERALS, S_8BYTE_LITERALS,
        S_LITERAL_POINTERS, S_COALESCED, S_GB_ZEROFILL, S_INTERPOSING, S_16BYTE_LITERALS,
        S_DTRACE_DOF, S_LAZY_DYLIB_SYMBOL_POINTERS]) :
    ∃ m, readSection h mem wide fuel sec st = .ok (m, st.2) ∧
      m.m_sections = st.1.m_sections ++ [savedSection h mem wide sec] ∧
      m.m_init_funcs = st.1.m_init_funcs ∧ m.m_exit_funcs = st.1.m_exit_funcs := by
  obtain ⟨-, -, e3, e4, e5⟩ := noteSpecialSection_fields mem wide sec
    (savedSection h mem wide sec)
    { st.1 with m_sections := st.1.m_sections ++ [savedSection h mem wide sec] }
  refine ⟨_, ?_, e5, e3, e4⟩
  unfold readSection
  dsimp only
  revert ht
  generalize sec_flags mem wide sec &&& SECTION_TYPE = t
  generalize noteSpecialSection mem wide sec (savedSection h mem wide sec)
    { st.1 with m_sections := st.1.m_sections ++ [savedSection h mem wide sec] } = m
  intro ht
  have c0 : S_REGULAR = 0 := rfl
  have c1 : S_ZEROFILL = 1 := rfl
  have c2 : S_CSTRING_LITERALS = 2 := rfl
  have c3 : S_4BYTE_LITERALS = 3 := rfl
  have c4 : S_8BYTE_LITERALS = 4 := rfl
  have c5 : S_LITERAL_POINTERS = 5 := rfl
  have c6 : S_NON_LAZY_SYMBOL_POINTERS = 6 := rfl
  have c7 : S_LAZY_SYMBOL_POINTERS = 7 := rfl
  have c8 : S_SYMBOL_STUBS = 8 := rfl
  have c9 : S_MOD_INIT_FUNC_POINTERS = 9 := rfl
  have c10 : S_MOD_TERM_FUNC_POINTERS = 10 := rfl
  have c11 : S_COALESCED = 11 := rfl
  have c12 : S_GB_ZEROFILL = 12 := rfl
  have c13 : S_INTERPOSING = 13 := rfl
  have c14 : S_16BYTE_LITERALS = 14 := rfl
  have c15 : S_DTRACE_DOF = 15 := rfl
  have c16 : S_LAZY_DYLIB_SYMBOL_POINTERS = 16 := rfl
  simp only [List.mem_cons, List.mem_singleton, List.not_mem_nil, or_false] at ht
  rw [if_neg (by omega), if_neg (by omega), if_neg (by omega), if_neg (by omega),
    if_neg (by omega), if_pos ht]

/-- The section loop reaches `abort()` only at a section whose masked type code
is none of the seventeen recognized ones. -/
theorem readSections_abort (h : Host) (mem : Mem) (wide : Bool) (fuel sections : Nat) :
    ∀ (n j : Nat) (st : MachOImpl × List Nat),
      readSections h mem wide fuel sections n j st = .fault .abort →
      ∃ i, i < n ∧
        ¬(sec_flags mem wide (sections + (j + i) * sizeof_section wide) &&& SECTION_TYPE
          ≤ 0x10) := by
  intro n
  induction n with
  | zero =>
    intro j st hf
    simp [readSections] at hf
  | succ n ih =>
    intro j st hf
    simp only [readSections] at hf
    rcases Res.bind_eq_fault.mp hf with h0 | ⟨a, -, hk⟩
    · exact ⟨0, Nat.succ_pos n, by
        rw [Nat.add_zero]
        exact (readSection_abort_iff _ _ _ _ _ _).mp h0⟩
    · obtain ⟨i, hi, hu⟩ := ih _ _ hk
      refine ⟨i + 1, Nat.succ_lt_succ hi, ?_⟩
      rw [show j + (i + 1) = j + 1 + i from by omega]
      exact hu

/-- A segment with a section of unrecognized type is never parsed to the end:
the section loop stops with a fault. -/
theorem readSections_unknown_type (h : Host) (mem : Mem) (wide : Bool)
    (fuel sections : Nat) :
    ∀ (n j : Nat) (st : MachOImpl × List Nat),
      (∃ i, i < n ∧
        ¬(sec_flags mem wide (sections + (j + i) * sizeof_section wide) &&& SECTION_TYPE
          ≤ 0x10)) →
      ∃ f, readSections h mem wide fuel sections n j st = .fault f := by
  intro n
  induction n with
  | zero =>
    rintro j st ⟨i, hi, -⟩
    exact absurd hi (Nat.not_lt_zero _)
  | succ n ih =>
    rintro j st ⟨i, hi, hu⟩
    simp only [readSections]
    cases i with
    | zero =>
      rw [Nat.add_zero] at hu
      rw [(readSection_abort_iff _ _ _ _ _ _).mpr hu]
      exact ⟨_, rfl⟩
    | succ i =>
      cases hr : readSection h mem wide fuel (sections + j * sizeof_section wide) st with
      | fault g => exact ⟨g, rfl⟩
      | ok a =>
        rw [Res.bind_ok]
        refine ih (j + 1) a ⟨i, Nat.lt_of_succ_lt_succ hi, ?_⟩
        rw [show j + 1 + i = j + (i + 1) from by omega]
        exact hu

/-- C17 (divergence): a 64-bit image whose segment holds an
initializer-function-pointers section at `0xfffffffffffffff0` of size 10
followed by a section of type code `0x11`.  The claim expects the parse to
abort; the pointer-slot loop of the first section never ends (the defect shown
for C18), so `abort()` at source line 207 is never reached.  The same section
of type `0x11` alone in the segment does abort the parse. -/
theorem C17_abort_preempted_by_pointer_loop :
    sec_flags (imageOneSegment64 [sectionInitAtTop, sectionUnknownType]) true 184
        &&& SECTION_TYPE = 0x11 ∧
      (∀ fuel, MachOImpl.construct .x86_64 noDecoders
        (imageOneSegment64 [sectionInitAtTop, sectionUnknownType]) fuel true 3 = .fault .fuel) ∧
      ∀ fuel, MachOImpl.construct .x86_64 noDecoders
        (imageOneSegment64 [sectionUnknownType]) fuel true 3 = .fault .abort := by
  refine ⟨by decide, fun fuel => ?_, fun fuel => ?_⟩
  · refine segment_fault_of_first_section fuel _ _ (by decide) (by decide) (by decide)
      (by decide) ?_
    intro st hst
    rw [readSection_init _ _ _ _ _ _ (by decide),
      funcPointerLoop_never_returns _ _ hst (by decide) fuel _ _ (by decide) (by decide)]
    rfl
  · refine segment_fault_of_first_section fuel _ _ (by decide) (by decide) (by decide)
      (by decide) ?_
    intro st _
    exact (readSection_abort_iff _ _ _ _ _ _).mpr (by decide)
/-! ## C19: the bind-candidate lists and their binders -/

/-- What one iteration of the section loop does to the bind-candidate list. -/
theorem readSection_candidates {h : Host} {mem : Mem} {wide : Bool} {fuel sec : Nat}
    {st st' : MachOImpl × List Nat} (hs : readSection h mem wide fuel sec st = .ok st') :
    st'.1.m_is64 = st.1.m_is64 ∧
    st'.2 = st.2 ++
      (if isBindCandidate st.1.m_is64 (sec_flags mem wide sec &&& SECTION_TYPE) then [sec]
        else []) := by
  obtain ⟨-, e2, -, -, -⟩ := noteSpecialSection_fields mem wide sec
    (savedSection h mem wide sec)
    { st.1 with m_sections := st.1.m_sections ++ [savedSection h mem wide sec] }
  replace e2 : (noteSpecialSection mem wide sec (savedSection h mem wide sec)
      { st.1 with m_sections := st.1.m_sections ++ [savedSection h mem wide sec] }).m_is64 =
      st.1.m_is64 := e2
  unfold readSection at hs
  dsimp only at hs
  revert hs e2
  generalize sec_flags mem wide sec &&& SECTION_TYPE = t
  generalize noteSpecialSection mem wide sec (savedSection h mem wide sec)
    { st.1 with m_sections := st.1.m_sections ++ [savedSection h mem wide sec] } = m
  intro hs e2
  unfold isBindCandidate
  rw [← e2]
  have c0 : S_REGULAR = 0 := rfl
  have c1 : S_ZEROFILL = 1 := rfl
  have c2 : S_CSTRING_LITERALS = 2 := rfl
  have c3 : S_4BYTE_LITERALS = 3 := rfl
  have c4 : S_8BYTE_LITERALS = 4 := rfl
  have c5 : S_LITERAL_POINTERS = 5 := rfl
  have c6 : S_NON_LAZY_SYMBOL_POINTERS = 6 := rfl
  have c7 : S_LAZY_SYMBOL_POINTERS = 7 := rfl
  have c8 : S_SYMBOL_STUBS = 8 := rfl
  have c9 : S_MOD_INIT_FUNC_POINTERS = 9 := rfl
  have c10 : S_MOD_TERM_FUNC_POINTERS = 10 := rfl
  have c11 : S_COALESCED = 11 := rfl
  have c12 : S_GB_ZEROFILL = 12 := rfl
  have c13 : S_INTERPOSING = 13 := rfl
  have c14 : S_16BYTE_LITERALS = 14 := rfl
  have c15 : S_DTRACE_DOF = 15 := rfl
  have c16 : S_LAZY_DYLIB_SYMBOL_POINTERS = 16 := rfl
  by_cases h0 : t = S_REGULAR
  · rw [if_pos h0] at hs
    cases hs
    rw [if_neg (by simp only [decide_eq_true_eq]; omega)]
    exact ⟨rfl, (List.append_nil _).symm⟩
  rw [if_neg h0] at hs
  by_cases h1 : t = S_MOD_INIT_FUNC_POINTERS
  · rw [if_pos h1] at hs
    obtain ⟨funcs, -, hk⟩ := Res.bind_eq_ok.mp hs
    cases hk
    rw [if_neg (by simp only [decide_eq_true_eq]; omega)]
    exact ⟨rfl, (List.append_nil _).symm⟩
  rw [if_neg h1] at hs
  by_cases h2 : t = S_MOD_TERM_FUNC_POINTERS
  · rw [if_pos h2] at hs
    obtain ⟨funcs, -, hk⟩ := Res.bind_eq_ok.mp hs
    cases hk
    rw [if_neg (by simp only [decide_eq_true_eq]; omega)]
    exact ⟨rfl, (List.append_nil _).symm⟩
  rw [if_neg h2] at hs
  by_cases h3 : t = S_NON_LAZY_SYMBOL_POINTERS ∨ t = S_LAZY_SYMBOL_POINTERS
  · rw [if_pos h3] at hs
    cases hs
    rw [if_pos (by simp only [decide_eq_true_eq]; omega)]
    exact ⟨rfl, rfl⟩
  rw [if_neg h3] at hs
  by_cases h4 : t = S_SYMBOL_STUBS
  · rw [if_pos h4] at hs
    by_cases h5 : m.m_is64 = false
    · rw [if_pos h5] at hs
      cases hs
      rw [if_pos (by simp only [decide_eq_true_eq]; exact Or.inr (Or.inr ⟨h4, h5⟩))]
      exact ⟨rfl, rfl⟩
    · rw [if_neg h5] at hs
      cases hs
      rw [if_neg (by
        simp only [decide_eq_true_eq]
        rintro (h | h | ⟨-, h⟩)
        · omega
        · omega
        · exact h5 h)]
      exact ⟨rfl, (List.append_nil _).symm⟩
  rw [if_neg h4] at hs
  by_cases h6 : t = S_ZEROFILL ∨ t = S_CSTRING_LITERALS
      ∨ t = S_4BYTE_LITERALS ∨ t = S_8BYTE_LITERALS
      ∨ t = S_LITERAL_POINTERS ∨ t = S_COALESCED
      ∨ t = S_GB_ZEROFILL ∨ t = S_INTERPOSING
      ∨ t = S_16BYTE_LITERALS ∨ t = S_DTRACE_DOF
      ∨ t = S_LAZY_DYLIB_SYMBOL_POINTERS
  · rw [if_pos h6] at hs
    cases hs
    rw [if_neg (by
      simp only [decide_eq_true_eq]
      rintro (h | h | ⟨h, -⟩) <;> omega)]
    exact ⟨rfl, (List.append_nil _).symm⟩
  · rw [if_neg h6] at hs
    cases hs

theorem readSections_candidates {h : Host} {mem : Mem} {wide : Bool} {fuel sections : Nat} :
    ∀ (n j : Nat) {st st' : MachOImpl × List Nat},
      readSections h mem wide fuel sections n j st = .ok st' →
      st'.1.m_is64 = st.1.m_is64 ∧
      st'.2 = st.2 ++
        ((List.range n).map fun k => sections + (j + k) * sizeof_section wide).filter
          fun s => isBindCandidate st.1.m_is64 (sec_flags mem wide s &&& SECTION_TYPE) := by
  intro n
  induction n with
  | zero =>
    intro j st st' hs
    simp only [readSections, Res.ok.injEq] at hs
    subst hs
    simp
  | succ n ih =>
    intro j st st' hs
    simp only [readSections] at hs
    obtain ⟨st1, h1, h2⟩ := Res.bind_eq_ok.mp hs
    obtain ⟨a1, a2⟩ := readSection_candidates h1
    obtain ⟨b1, b2⟩ := ih (j + 1) h2
    refine ⟨b1.trans a1, ?_⟩
    rw [b2, a2, a1, List.range_succ_eq_map, List.map_cons, List.map_map, List.filter_cons,
      Nat.add_zero, List.append_assoc]
    have hmap : (List.map ((fun k => sections + (j + k) * sizeof_section wide) ∘ Nat.succ)
        (List.range n)) =
        List.map (fun k => sections + (j + 1 + k) * sizeof_section wide) (List.range n) := by
      apply List.map_congr_left
      intro k _
      simp only [Function.comp, Nat.succ_eq_add_one]
      rw [show j + (k + 1) = j + 1 + k from by omega]
    rw [hmap]
    simp only [Nat.add_zero]
    by_cases hc : isBindCandidate st.1.m_is64
        (sec_flags mem wide (sections + j * sizeof_section wide) &&& SECTION_TYPE) = true
    · rw [if_pos hc, if_pos hc]
      rfl
    · rw [if_neg hc, if_neg hc]
      rfl

theorem readSegment_candidates {h : Host} {mem : Mem} {wide : Bool} {fuel cmds_ptr : Nat}
    {st st' : MachOImpl × List Nat} (hs : readSegment h mem wide fuel cmds_ptr st = .ok st') :
    st'.1.m_is64 = st.1.m_is64 ∧
    st'.2 = st.2 ++ segmentCandidates mem st.1.m_is64 wide cmds_ptr := by
  unfold readSegment at hs
  dsimp only at hs
  obtain ⟨a1, a2⟩ := readSections_candidates _ _ hs
  have hi : (if seg_segname mem cmds_ptr = str_TEXT then
      { (if wide then { st.1 with m_segments64 := st.1.m_segments64 ++ [cmds_ptr] }
          else { st.1 with m_segments := st.1.m_segments ++ [cmds_ptr] }) with
        m_text_offset := toUIntPtr h (seg_vmaddr mem wide cmds_ptr) }
      else (if wide then { st.1 with m_segments64 := st.1.m_segments64 ++ [cmds_ptr] }
          else { st.1 with m_segments := st.1.m_segments ++ [cmds_ptr] })).m_is64 =
      st.1.m_is64 := by
    split_ifs <;> rfl
  rw [hi] at a1 a2
  refine ⟨a1, ?_⟩
  rw [a2]
  unfold segmentCandidates sectionPointers
  simp only [Nat.zero_add]

/-- What one load command does to the two bind-candidate lists. -/
theorem processCommand_candidates {h : Host} {d : Decoders} {mem : Mem} {fuel c : Nat}
    {st st' : MachOImpl × Locals} (hs : processCommand h d mem fuel c st = .ok st') :
    st'.1.m_is64 = st.1.m_is64 ∧
    st'.2.bind_sections_64 =
      st.2.bind_sections_64 ++ commandCandidates mem st.1.m_is64 true c ∧
    st'.2.bind_sections_32 =
      st.2.bind_sections_32 ++ commandCandidates mem st.1.m_is64 false c := by
  have n64 : LC_SEGMENT_64 ≠ LC_SEGMENT := by decide
  unfold commandCandidates segmentCommandOf
  simp only [if_true, Bool.false_eq_true, if_false]
  rcases processCommand_cases hs with ⟨hc, r, hr, e⟩ | ⟨hc, r, hr, e⟩ | ⟨hc, m1, hr, e⟩ |
    ⟨hc, e⟩ | ⟨hc, e⟩ | ⟨hc, e⟩ | ⟨hc, e⟩ | ⟨hc, e⟩ | ⟨hc, e⟩ | ⟨hc, e⟩
  · obtain ⟨a1, a2⟩ := readSegment_candidates hr
    have k32 : ¬lc_cmd mem c = LC_SEGMENT := by rw [hc]; exact n64
    subst e
    rw [if_pos hc, if_neg k32]
    exact ⟨a1, a2, (List.append_nil _).symm⟩
  · obtain ⟨a1, a2⟩ := readSegment_candidates hr
    have k64 : ¬lc_cmd mem c = LC_SEGMENT_64 := by rw [hc]; exact n64.symm
    subst e
    rw [if_neg k64, if_pos hc]
    exact ⟨a1, (List.append_nil _).symm, a2⟩
  · obtain ⟨rb, ex, e1⟩ := readDyldInfo_frame hr
    have k64 : ¬lc_cmd mem c = LC_SEGMENT_64 := by
      rcases hc with hc | hc <;> rw [hc] <;> decide
    have k32 : ¬lc_cmd mem c = LC_SEGMENT := by
      rcases hc with hc | hc <;> rw [hc] <;> decide
    subst e
    rw [if_neg k64, if_neg k32, e1]
    exact ⟨rfl, (List.append_nil _).symm, (List.append_nil _).symm⟩
  · have k64 : ¬lc_cmd mem c = LC_SEGMENT_64 := by rw [hc]; decide
    have k32 : ¬lc_cmd mem c = LC_SEGMENT := by rw [hc]; decide
    subst e
    rw [if_neg k64, if_neg k32]
    exact ⟨rfl, (List.append_nil _).symm, (List.append_nil _).symm⟩
  · obtain ⟨-, -, -, -, l5, l6⟩ := readDysymtab_locals mem c st.2
    have k64 : ¬lc_cmd mem c = LC_SEGMENT_64 := by rw [hc]; decide
    have k32 : ¬lc_cmd mem c = LC_SEGMENT := by rw [hc]; decide
    subst e
    rw [if_neg k64, if_neg k32]
    exact ⟨rfl, by rw [List.append_nil]; exact l6, by rw [List.append_nil]; exact l5⟩
  · have k64 : ¬lc_cmd mem c = LC_SEGMENT_64 := by rw [hc]; decide
    have k32 : ¬lc_cmd mem c = LC_SEGMENT := by rw [hc]; decide
    subst e
    rw [if_neg k64, if_neg k32]
    exact ⟨rfl, (List.append_nil _).symm, (List.append_nil _).symm⟩
  · have k64 : ¬lc_cmd mem c = LC_SEGMENT_64 := by rw [hc]; decide
    have k32 : ¬lc_cmd mem c = LC_SEGMENT := by rw [hc]; decide
    subst e
    rw [if_neg k64, if_neg k32]
    exact ⟨rfl, (List.append_nil _).symm, (List.append_nil _).symm⟩
  · have k64 : ¬lc_cmd mem c = LC_SEGMENT_64 := by rw [hc]; decide
    have k32 : ¬lc_cmd mem c = LC_SEGMENT := by rw [hc]; decide
    subst e
    rw [if_neg k64, if_neg k32]
    exact ⟨rfl, (List.append_nil _).symm, (List.append_nil _).symm⟩
  · have k64 : ¬lc_cmd mem c = LC_SEGMENT_64 := by rw [hc]; decide
    have k32 : ¬lc_cmd mem c = LC_SEGMENT := by rw [hc]; decide
    subst e
    rw [if_neg k64, if_neg k32]
    exact ⟨rfl, (List.append_nil _).symm, (List.append_nil _).symm⟩
  · have k64 : ¬lc_cmd mem c = LC_SEGMENT_64 := fun hx => hc (by rw [hx]; simp)
    have k32 : ¬lc_cmd mem c = LC_SEGMENT := fun hx => hc (by rw [hx]; simp)
    subst e
    rw [if_neg k64, if_neg k32]
    exact ⟨rfl, (List.append_nil _).symm, (List.append_nil _).symm⟩

/-- The two bind-candidate lists after the walk: the candidates of the commands
visited, in command order. -/
theorem walkCommands_candidates {h : Host} {d : Decoders} {mem : Mem} {fuel : Nat} :
    ∀ (n c : Nat) {st st' : MachOImpl × Locals},
      walkCommands h d mem fuel n c st = .ok st' →
      st'.1.m_is64 = st.1.m_is64 ∧
      st'.2.bind_sections_64 = st.2.bind_sections_64 ++
        (commandOffsets mem n c).flatMap (commandCandidates mem st.1.m_is64 true) ∧
      st'.2.bind_sections_32 = st.2.bind_sections_32 ++
        (commandOffsets mem n c).flatMap (commandCandidates mem st.1.m_is64 false) := by
  intro n
  induction n with
  | zero =>
    intro c st st' hs
    simp only [walkCommands, Res.ok.injEq] at hs
    subst hs
    simp [commandOffsets]
  | succ n ih =>
    intro c st st' hs
    simp only [walkCommands] at hs
    obtain ⟨st1, h1, h2⟩ := Res.bind_eq_ok.mp hs
    obtain ⟨a1, a2, a3⟩ := processCommand_candidates h1
    obtain ⟨b1, b2, b3⟩ := ih _ h2
    refine ⟨b1.trans a1, ?_, ?_⟩
    · rw [b2, a2, a1]
      simp [commandOffsets, List.flatMap_cons, List.append_assoc]
    · rw [b3, a3, a1]
      simp [commandOffsets, List.flatMap_cons, List.append_assoc]

theorem readClassicBind_append (mem : Mem) (m : MachOImpl) (wide : Bool)
    (sec dysyms symtab symstrtab : Nat) (binds : List Bind) :
    readClassicBind mem m wide sec dysyms symtab symstrtab binds =
      binds ++ pointerBindRecords mem m wide dysyms symtab symstrtab sec := by
  unfold pointerBindRecords readClassicBind
  rw [List.nil_append]

theorem readClassicBinds64_eq (mem : Mem) (m : MachOImpl) (dysyms symtab symstrtab : Nat) :
    ∀ (secs : List Nat) (binds : List Bind),
      readClassicBinds64 mem m dysyms symtab symstrtab secs binds =
        binds ++ secs.flatMap (pointerBindRecords mem m true dysyms symtab symstrtab) := by
  intro secs
  induction secs with
  | nil => intro binds; simp [readClassicBinds64]
  | cons s rest ih =>
    intro binds
    simp only [readClassicBinds64]
    rw [ih, readClassicBind_append, List.flatMap_cons, List.append_assoc]

theorem readStubBind_ok {mem : Mem} {m : MachOImpl} {sec dysyms symtab symstrtab : Nat}
    {binds binds' : List Bind}
    (hs : readStubBind mem m sec dysyms symtab symstrtab binds = .ok binds') :
    binds' = binds ++ stubBindRecords mem m dysyms symtab symstrtab sec := by
  unfold readStubBind at hs
  dsimp only at hs
  unfold stubBindRecords
  by_cases h0 : sec_reserved2 mem false sec = 0
  · rw [if_pos h0] at hs
    cases hs
  rw [if_neg h0] at hs
  by_cases h5 : sec_reserved2 mem false sec = 5
  · rw [if_neg (not_not.mpr h5)] at hs
    cases hs
    rw [if_pos h5, h5]
  · rw [if_pos h5] at hs
    cases hs
    rw [if_neg h5, List.append_nil]

theorem readClassicBinds32_ok {mem : Mem} {m : MachOImpl} {dysyms symtab symstrtab : Nat} :
    ∀ (secs : List Nat) {binds binds' : List Bind},
      readClassicBinds32 mem m dysyms symtab symstrtab secs binds = .ok binds' →
      binds' = binds ++ secs.flatMap (narrowBindRecords mem m dysyms symtab symstrtab) := by
  intro secs
  induction secs with
  | nil =>
    intro binds binds' hs
    simp only [readClassicBinds32, Res.ok.injEq] at hs
    subst hs
    simp
  | cons s rest ih =>
    intro binds binds' hs
    simp only [readClassicBinds32] at hs
    unfold narrowBindRecords at ih ⊢
    rw [List.flatMap_cons]
    by_cases ht : sec_flags mem false s &&& SECTION_TYPE = S_SYMBOL_STUBS
    · rw [if_pos ht] at hs ⊢
      obtain ⟨b1, h1, h2⟩ := Res.bind_eq_ok.mp hs
      rw [ih h2, readStubBind_ok h1, List.append_assoc]
    · rw [if_neg ht] at hs ⊢
      rw [ih hs, readClassicBind_append, List.append_assoc]

/-- Membership in a bind-candidate list, spelled out. -/
theorem mem_bindCandidates (mem : Mem) (is64 wide : Bool) (s : Nat) :
    s ∈ bindCandidates mem is64 wide ↔
      ∃ c ∈ imageCommands mem is64, lc_cmd mem c = segmentCommandOf wide ∧
        s ∈ sectionPointers mem wide c ∧
        (sec_flags mem wide s &&& SECTION_TYPE = S_NON_LAZY_SYMBOL_POINTERS ∨
          sec_flags mem wide s &&& SECTION_TYPE = S_LAZY_SYMBOL_POINTERS ∨
          (sec_flags mem wide s &&& SECTION_TYPE = S_SYMBOL_STUBS ∧ is64 = false)) := by
  unfold bindCandidates
  rw [List.mem_flatMap]
  constructor
  · rintro ⟨c, hc, hs⟩
    unfold commandCandidates at hs
    by_cases hk : lc_cmd mem c = segmentCommandOf wide
    · rw [if_pos hk] at hs
      unfold segmentCandidates at hs
      rw [List.mem_filter] at hs
      refine ⟨c, hc, hk, hs.1, ?_⟩
      have h2 := hs.2
      unfold isBindCandidate at h2
      exact of_decide_eq_true h2
    · rw [if_neg hk] at hs
      cases hs
  · rintro ⟨c, hc, hk, hs, ht⟩
    refine ⟨c, hc, ?_⟩
    unfold commandCandidates
    rw [if_pos hk]
    unfold segmentCandidates
    rw [List.mem_filter]
    refine ⟨hs, ?_⟩
    unfold isBindCandidate
    exact decide_eq_true ht

/-- C19 (counterexample). The image `imageStubInWideSegment` has pointer width 4
and an `LC_SEGMENT_64` command whose `section_64` at offset 100 is of type
symbol-stub.  The section is a bind candidate (on `bind_sections_64`), and the
parse decodes it with the pointer binder: its two Bind records are of kind
pointer, at `0x2000` and `0x2004`, not of kind stub. -/
theorem C19_stub_section_read_by_pointer_binder :
    MachOImpl.construct .i386 noDecoders imageStubInWideSegment 1 true 3 =
        .ok imageStubInWideSegmentParsed ∧
      imageStubInWideSegmentParsed.m_ptrsize = 4 ∧
      bindCandidates imageStubInWideSegment false true = [100] ∧
      bindCandidates imageStubInWideSegment false false = [] ∧
      sec_flags imageStubInWideSegment true 100 &&& SECTION_TYPE = S_SYMBOL_STUBS ∧
      imageStubInWideSegmentParsed.m_binds =
        pointerBindRecords imageStubInWideSegment object32 true 284 292 316 100 ∧
      imageStubInWideSegmentParsed.m_binds.map (fun b => (b.vmaddr, b.type)) =
        [(0x2000, .BIND_TYPE_POINTER), (0x2004, .BIND_TYPE_POINTER)] := by
  decide

/-- C19 (amended). On every image on which the parse returns: the list
`bind_sections_64` holds the candidates of the `LC_SEGMENT_64` commands and
`bind_sections_32` those of the `LC_SEGMENT` commands, in command and section
order, where a section is a candidate exactly when its type is non-lazy or lazy
symbol pointers, or symbol stubs in an image of pointer width 4; so in an image
of pointer width 8 no symbol-stub section is a candidate.  When the classic
binder runs, the records it appends are those of the pointer binder for every
section of `bind_sections_64` (whatever its type), followed, for every section
of `bind_sections_32`, by those of the stub binder if the section is of type
symbol-stub and of the pointer binder otherwise; the pointer binder emits only
records of kind pointer and the stub binder only records of kind stub. -/
theorem C19_bind_candidates_and_binders (h : Host) (d : Decoders) (mem : Mem) (fuel : Nat)
    (need_exports : Bool) (fd : Int) (m : MachOImpl)
    (hparse : MachOImpl.construct h d mem fuel need_exports fd = .ok m) :
    ∃ m0 st,
      validateHeader mem (MachOImpl.fresh need_exports fd) = .ok m0 ∧
      walkCommands h d mem fuel (hdr_ncmds mem) (sizeof_mach_header m0.m_is64)
        (m0, Locals.init) = .ok st ∧
      st.2.bind_sections_64 = bindCandidates mem m.m_is64 true ∧
      st.2.bind_sections_32 = bindCandidates mem m.m_is64 false ∧
      (∀ w s, s ∈ bindCandidates mem m.m_is64 w ↔
        ∃ c ∈ imageCommands mem m.m_is64, lc_cmd mem c = segmentCommandOf w ∧
          s ∈ sectionPointers mem w c ∧
          (sec_flags mem w s &&& SECTION_TYPE = S_NON_LAZY_SYMBOL_POINTERS ∨
            sec_flags mem w s &&& SECTION_TYPE = S_LAZY_SYMBOL_POINTERS ∨
            (sec_flags mem w s &&& SECTION_TYPE = S_SYMBOL_STUBS ∧ m.m_ptrsize = 4))) ∧
      (m.m_ptrsize = 8 → ∀ w, ∀ s ∈ bindCandidates mem m.m_is64 w,
        sec_flags mem w s &&& SECTION_TYPE ≠ S_SYMBOL_STUBS) ∧
      (classicBindGate st.2 = true →
        ∃ dysyms symtab symstrtab, st.2.dysyms = some dysyms ∧ st.2.symtab = some symtab ∧
          st.2.symstrtab = some symstrtab ∧
          m.m_binds = st.1.m_binds ++
            (bindCandidates mem m.m_is64 true).flatMap
              (pointerBindRecords mem st.1 true dysyms symtab symstrtab) ++
            (bindCandidates mem m.m_is64 false).flatMap
              (narrowBindRecords mem st.1 dysyms symtab symstrtab)) ∧
      (∀ w dysyms symtab symstrtab s,
        ∀ b ∈ pointerBindRecords mem st.1 w dysyms symtab symstrtab s,
          b.type = .BIND_TYPE_POINTER) ∧
      (∀ dysyms symtab symstrtab s, ∀ b ∈ stubBindRecords mem st.1 dysyms symtab symstrtab s,
        b.type = .BIND_TYPE_STUB) := by
  obtain ⟨m0, st, m1, h0, hw, hc, hr⟩ := construct_stages hparse
  have e0 := validateHeader_frame h0
  obtain ⟨a1, a2, -⟩ := walkCommands_segments _ _ hw
  obtain ⟨-, c2, c3⟩ := walkCommands_candidates _ _ hw
  obtain ⟨bd, e1⟩ := readClassicBinds_frame hc
  obtain ⟨rl, rb, e2⟩ := readRelocations_frame hr
  have hi : m.m_is64 = m0.m_is64 := by rw [e2, e1]; exact a1
  have hp : m.m_ptrsize = m0.m_ptrsize := by rw [e2, e1]; exact a2
  have hbinds : m.m_binds = m1.m_binds := by rw [e2]
  have hwidth : (m.m_ptrsize = 4 ↔ m.m_is64 = false) ∧ (m.m_ptrsize = 8 → m.m_is64 = true) := by
    rw [hp, hi, e0]
    by_cases hm : hdr_magic mem = MH_MAGIC_64 <;> simp [hm]
  have l64 : st.2.bind_sections_64 = bindCandidates mem m.m_is64 true := by
    rw [c2, hi]
    exact List.nil_append _
  have l32 : st.2.bind_sections_32 = bindCandidates mem m.m_is64 false := by
    rw [c3, hi]
    exact List.nil_append _
  refine ⟨m0, st, h0, hw, l64, l32, ?_, ?_, ?_, ?_, ?_⟩
  · intro w s
    rw [mem_bindCandidates, hwidth.1]
  · intro h8 w s hs
    obtain ⟨c, -, -, -, ht⟩ := (mem_bindCandidates mem _ w s).mp hs
    rw [hwidth.2 h8] at ht
    rcases ht with ht | ht | ⟨-, ht⟩
    · rw [ht]; decide
    · rw [ht]; decide
    · cases ht
  · intro hg
    obtain ⟨dysyms, symtab, symstrtab, g1, g2, g3, g4⟩ := readClassicBinds_gate_true hg hc
    refine ⟨dysyms, symtab, symstrtab, g1, g2, g3, ?_⟩
    rw [hbinds, readClassicBinds32_ok _ g4, readClassicBinds64_eq, l64, l32]
  · intro w dysyms symtab symstrtab s b hb
    unfold pointerBindRecords readClassicBind at hb
    rw [List.nil_append, List.mem_map] at hb
    obtain ⟨i, -, rfl⟩ := hb
    rfl
  · intro dysyms symtab symstrtab s b hb
    unfold stubBindRecords at hb
    split_ifs at hb
    · rw [List.mem_map] at hb
      obtain ⟨i, -, rfl⟩ := hb
      rfl
    · cases hb

/-- C19 on the 32-bit image `classicImage LC_UUID 10 S_SYMBOL_STUBS 5`, whose
`LC_SEGMENT` command holds a symbol-stub `section` at offset 84: the section is
the only candidate, and the classic binder gives it two records of kind stub. -/
theorem C19_bind_candidates_witness :
    MachOImpl.construct .i386 noDecoders (classicImage LC_UUID 10 S_SYMBOL_STUBS 5) 1 true 3 =
        .ok classicImageStubParsed ∧
      bindCandidates (classicImage LC_UUID 10 S_SYMBOL_STUBS 5) false false = [84] ∧
      classicImageStubParsed.m_binds.map (fun b => b.type) =
        [.BIND_TYPE_STUB, .BIND_TYPE_STUB] ∧
      ∀ w s, s ∈ bindCandidates (classicImage LC_UUID 10 S_SYMBOL_STUBS 5)
          classicImageStubParsed.m_is64 w ↔
        ∃ c ∈ imageCommands (classicImage LC_UUID 10 S_SYMBOL_STUBS 5)
            classicImageStubParsed.m_is64,
          lc_cmd (classicImage LC_UUID 10 S_SYMBOL_STUBS 5) c = segmentCommandOf w ∧
          s ∈ sectionPointers (classicImage LC_UUID 10 S_SYMBOL_STUBS 5) w c ∧
          (sec_flags (classicImage LC_UUID 10 S_SYMBOL_STUBS 5) w s &&& SECTION_TYPE =
              S_NON_LAZY_SYMBOL_POINTERS ∨
            sec_flags (classicImage LC_UUID 10 S_SYMBOL_STUBS 5) w s &&& SECTION_TYPE =
              S_LAZY_SYMBOL_POINTERS ∨
            (sec_flags (classicImage LC_UUID 10 S_SYMBOL_STUBS 5) w s &&& SECTION_TYPE =
                S_SYMBOL_STUBS ∧ classicImageStubParsed.m_ptrsize = 4)) :=
  ⟨by decide, by decide, by decide,
    (C19_bind_candidates_and_binders .i386 noDecoders (classicImage LC_UUID 10 S_SYMBOL_STUBS 5)
      1 true 3 classicImageStubParsed (by decide)).elim fun _ k1 => k1.elim fun _ k2 =>
        k2.2.2.2.2.1⟩

/-! ## C20: the three bind passes of a dynamic-linker-info command -/

theorem readBind_eq (d : Decoders) (mem : Mem) (m : MachOImpl) (off size : Nat)
    (is_weak is_lazy : Bool) :
    readBind d mem m off (off + size) is_weak is_lazy =
      m.m_binds ++ bindPass d mem m off size is_weak is_lazy := by
  unfold readBind bindPass
  by_cases hz : size = 0
  · rw [if_neg (by omega), if_pos hz, List.append_nil]
  · rw [if_pos (by omega), if_neg hz]

theorem readDyldBinds_binds (d : Decoders) (mem : Mem) (dyinfo : Nat) (m : MachOImpl) :
    (readDyldBinds d mem dyinfo m).m_binds =
      m.m_binds ++
        bindPass d mem m (u32 mem (dyinfo + 16)) (u32 mem (dyinfo + 20)) false false ++
        bindPass d mem m (u32 mem (dyinfo + 32)) (u32 mem (dyinfo + 36)) false true ++
        bindPass d mem m (u32 mem (dyinfo + 24)) (u32 mem (dyinfo + 28)) true false := by
  unfold readDyldBinds
  dsimp only
  rw [readBind_eq, readBind_eq, readBind_eq]
  rfl

/-- C20. For every dynamic-linker-info command (`LC_DYLD_INFO` or
`LC_DYLD_INFO_ONLY`) that the walk processes, with the bind opcode machine an
arbitrary function `d.bindOps` of the sub-stream and the flags
`(is_weak, is_lazy)`: the Bind list after the command is the list before it
followed by the records of the regular sub-stream (`bind_off`, `bind_size`;
flags false, false), then those of the lazy sub-stream (`lazy_bind_off`,
`lazy_bind_size`; flags false, true), then those of the weak sub-stream
(`weak_bind_off`, `weak_bind_size`; flags true, false).  Each pass is the
machine run on its own sub-stream, independently of the other passes, and a
sub-stream of size 0 contributes no record. -/
theorem C20_bind_passes_in_order (h : Host) (d : Decoders) (mem : Mem) (fuel c : Nat)
    (st st' : MachOImpl × Locals)
    (hc : lc_cmd mem c = LC_DYLD_INFO ∨ lc_cmd mem c = LC_DYLD_INFO_ONLY)
    (hs : processCommand h d mem fuel c st = .ok st') :
    st'.1.m_binds =
      st.1.m_binds ++
        bindPass d mem st.1 (u32 mem (c + 16)) (u32 mem (c + 20)) false false ++
        bindPass d mem st.1 (u32 mem (c + 32)) (u32 mem (c + 36)) false true ++
        bindPass d mem st.1 (u32 mem (c + 24)) (u32 mem (c + 28)) true false ∧
    (∀ off size w l, size ≠ 0 →
      bindPass d mem st.1 off size w l =
        d.bindOps mem st.1.m_segments st.1.m_segments64 off (off + size) w l) ∧
    ∀ off w l, bindPass d mem st.1 off 0 w l = [] := by
  have k64 : ¬lc_cmd mem c = LC_SEGMENT_64 := by
    rcases hc with hc | hc <;> rw [hc] <;> decide
  have k32 : ¬lc_cmd mem c = LC_SEGMENT := by
    rcases hc with hc | hc <;> rw [hc] <;> decide
  unfold processCommand at hs
  dsimp only at hs
  rw [if_neg k64, if_neg k32, if_pos hc] at hs
  obtain ⟨m1, hr, hk⟩ := Res.bind_eq_ok.mp hs
  cases hk
  obtain ⟨rb, ex, e1⟩ := readDyldInfo_frame hr
  obtain ⟨rb1, e3⟩ := readDyldRebase_frame d mem c st.1
  refine ⟨?_, fun off size w l hz => ?_, fun off w l => ?_⟩
  · rw [e1]
    show (readDyldBinds d mem c (readDyldRebase d mem c st.1)).m_binds = _
    rw [readDyldBinds_binds, e3]
    rfl
  · unfold bindPass
    rw [if_neg hz]
  · rfl

/-- C20 on `dyldInfoCommand` with the machine `tracingDecoders`: the three
records appear in the order regular, lazy, weak. -/
theorem C20_bind_passes_witness :
    processCommand .x86_64 tracingDecoders dyldInfoCommand 0 0 (object64, Locals.init) =
        .ok dyldInfoAfter ∧
      dyldInfoAfter.1.m_binds.map (fun b => (b.vmaddr, b.is_weak, b.is_lazy)) =
        [(0x100, false, false), (0x200, false, true), (0x300, true, false)] ∧
      dyldInfoAfter.1.m_binds =
        object64.m_binds ++
          bindPass tracingDecoders dyldInfoCommand object64 (u32 dyldInfoCommand (0 + 16))
            (u32 dyldInfoCommand (0 + 20)) false false ++
          bindPass tracingDecoders dyldInfoCommand object64 (u32 dyldInfoCommand (0 + 32))
            (u32 dyldInfoCommand (0 + 36)) false true ++
          bindPass tracingDecoders dyldInfoCommand object64 (u32 dyldInfoCommand (0 + 24))
            (u32 dyldInfoCommand (0 + 28)) true false :=
  ⟨by decide, by decide,
    (C20_bind_passes_in_order .x86_64 tracingDecoders dyldInfoCommand 0 0
      (object64, Locals.init) dyldInfoAfter (by decide) (by decide)).1⟩

/-! ## C25: `close` -/

theorem construct_mapped {h : Host} {d : Decoders} {mem : Mem} {fuel : Nat}
    {need_exports : Bool} {fd : Int} {m : MachOImpl}
    (hparse : MachOImpl.construct h d mem fuel need_exports fd = .ok m) :
    m.m_mapped = true ∧ m.m_fd = fd := by
  obtain ⟨m0, st, m1, h0, hw, hc, hr⟩ := construct_stages hparse
  have e0 := validateHeader_frame h0
  obtain ⟨bd, e1⟩ := readClassicBinds_frame hc
  obtain ⟨rl, rb, e2⟩ := readRelocations_frame hr
  have hwalk : ∀ (n c : Nat) {st st' : MachOImpl × Locals},
      walkCommands h d mem fuel n c st = .ok st' →
      st'.1.m_mapped = st.1.m_mapped ∧ st'.1.m_fd = st.1.m_fd := by
    intro n
    induction n with
    | zero =>
      intro c st st' hs
      simp only [walkCommands, Res.ok.injEq] at hs
      subst hs
      exact ⟨rfl, rfl⟩
    | succ n ih =>
      intro c st st' hs
      simp only [walkCommands] at hs
      obtain ⟨st1, h1, h2⟩ := Res.bind_eq_ok.mp hs
      obtain ⟨b1, b2⟩ := ih _ h2
      have a : st1.1.m_mapped = st.1.m_mapped ∧ st1.1.m_fd = st.1.m_fd := by
        rcases processCommand_cases h1 with ⟨hc, r, hr, e⟩ | ⟨hc, r, hr, e⟩ |
          ⟨hc, m1, hr, e⟩ | ⟨hc, e⟩ | ⟨hc, e⟩ | ⟨hc, e⟩ | ⟨hc, e⟩ | ⟨hc, e⟩ | ⟨hc, e⟩ | ⟨hc, e⟩
        · obtain ⟨dd, ef, ui, inf, exf, e1⟩ := readSegment_frame hr
          subst e
          rw [e1]
          exact ⟨rfl, rfl⟩
        · obtain ⟨dd, ef, ui, inf, exf, e1⟩ := readSegment_frame hr
          subst e
          rw [e1]
          exact ⟨rfl, rfl⟩
        · obtain ⟨rb, ex, e1⟩ := readDyldInfo_frame hr
          subst e
          rw [e1]
          exact ⟨rfl, rfl⟩
        all_goals
          subst e
          exact ⟨rfl, rfl⟩
      exact ⟨b1.trans a.1, b2.trans a.2⟩
  obtain ⟨w1, w2⟩ := hwalk _ _ hw
  rw [e2, e1]
  constructor
  · show st.1.m_mapped = true
    rw [w1, e0]
    rfl
  · show st.1.m_fd = fd
    rw [w2, e0]
    rfl

/-- Every state in which `close` can run has a non-null mapping pointer or the
descriptor -1: the constructor leaves the mapping pointer non-null, `close`
leaves the descriptor -1 or the state as it was. -/
theorem objectState_mapped_or_closed {s : MachOImpl} (hs : MachOImpl.ObjectState s) :
    s.m_mapped = true ∨ s.m_fd = -1 := by
  induction hs with
  | construct h d mem fuel need_exports fd s hparse => exact Or.inl (construct_mapped hparse).1
  | close s _ ih =>
    cases hb : s.m_mapped
    · rcases ih with h1 | h1
      · rw [hb] at h1
        cases h1
      · right
        simp [MachOImpl.close, hb, h1]
    · right
      simp [MachOImpl.close, hb]

/-- C25. `close` is idempotent on the parser state: for every state `s` of an
object (the state the constructor returned, or the state an earlier call of
`close` left), `close (close s) = close s`, and the second call issues no
`munmap` and no `close` of a descriptor; after the first call the mapping
pointer is null, the descriptor is -1 and the Bind, Rebase, Export and
Relocation lists are empty. -/
theorem C25_close_idempotent (s : MachOImpl) (hs : MachOImpl.ObjectState s) :
    MachOImpl.close (MachOImpl.close s) = MachOImpl.close s ∧
    (MachOImpl.close s).closeCalls = [] ∧
    (MachOImpl.close s).m_mapped = false ∧
    (MachOImpl.close s).m_fd = -1 ∧
    (MachOImpl.close s).m_binds = [] ∧ (MachOImpl.close s).m_rebases = [] ∧
    (MachOImpl.close s).m_exports = [] ∧ (MachOImpl.close s).m_relocations = [] := by
  have inv := objectState_mapped_or_closed hs
  cases hb : s.m_mapped
  · have hfd : s.m_fd = -1 := by
      rcases inv with h1 | h1
      · rw [hb] at h1
        cases h1
      · exact h1
    simp [MachOImpl.close, MachOImpl.closeCalls, hb, hfd]
  · simp [MachOImpl.close, MachOImpl.closeCalls, hb]

/-- C25 on the state parsed from `imageTwoByTwo` with descriptor 3: the first
call of `close` unmaps and closes descriptor 3, the second does nothing. -/
theorem C25_close_witness :
    MachOImpl.ObjectState imageTwoByTwoParsed ∧
    imageTwoByTwoParsed.closeCalls = [.munmap, .close 3] ∧
    MachOImpl.close (MachOImpl.close imageTwoByTwoParsed) =
      MachOImpl.close imageTwoByTwoParsed ∧
    (MachOImpl.close imageTwoByTwoParsed).closeCalls = [] ∧
    (MachOImpl.close imageTwoByTwoParsed).m_fd = -1 :=
  have hs : MachOImpl.ObjectState imageTwoByTwoParsed :=
    .construct .x86_64 noDecoders imageTwoByTwo 1 true 3 imageTwoByTwoParsed (by decide)
  have key := C25_close_idempotent imageTwoByTwoParsed hs
  ⟨hs, by decide, key.1, key.2.1, key.2.2.2.1⟩

/-! ## C28: node and parent identifiers in `FSGetCatalogInfo` -/

/-- The loop of source lines 249-258 has no `break`: entered at any `i ≥ 1`
with both fields requested, it ends with the assignments of the iteration
`i = 1` whenever `inodes[1]` is non-zero. -/
theorem catalogIdLoop_second_inode (inodes : List Nat) (h1 : inodes.getD 1 0 ≠ 0) :
    ∀ (i : Nat) (info : CatalogIds),
      catalogIdLoop inodes true true (i + 1) info =
        { nodeID := inodes.getD 1 0, parentDirID := inodes.getD 0 0 } := by
  intro i
  induction i with
  | zero =>
    intro info
    rw [catalogIdLoop, if_neg h1]
    rfl
  | succ i ih =>
    intro info
    rw [catalogIdLoop]
    by_cases hz : inodes.getD (i + 1 + 1) 0 = 0
    · rw [if_pos hz]
      exact ih _
    · rw [if_neg hz]
      exact ih _

/-- With both identifiers requested, an inode array of length at least 2 whose
second entry is non-zero yields `nodeID = inodes[1]` and
`parentDirID = inodes[0]`, whatever the deeper entries are. -/
theorem catalogIds_second_inode (inodes : List Nat) (info : CatalogIds)
    (hlen : 2 ≤ inodes.length) (h1 : inodes.getD 1 0 ≠ 0) :
    catalogIds inodes true true info =
      { nodeID := inodes.getD 1 0, parentDirID := inodes.getD 0 0 } := by
  obtain ⟨n, hn⟩ : ∃ n, inodes.length - 1 = n + 1 := ⟨inodes.length - 2, by omega⟩
  unfold catalogIds
  simp only [true_or, if_true]
  rw [hn]
  exact catalogIdLoop_second_inode inodes h1 n _

/-- C28 (the code at the failing input). For the inode array
`[10, 20, 30, 0, 0, 0, 0, 0]` (three non-zero inodes followed by zeros), with
both identifiers requested and `*infoOut` zeroed, the block returns
`nodeID = 20` and `parentDirID = 10`, not the deepest inode 30 and its parent
20; whatever the number of trailing zeros.  For two non-zero inodes it returns
the deepest inode and its parent. -/
theorem C28_catalog_ids_of_depth_three :
    catalogIds [10, 20, 30, 0, 0, 0, 0, 0] true true CatalogIds.zero =
        { nodeID := 20, parentDirID := 10 } ∧
      (∀ k, catalogIds ([10, 20, 30] ++ List.replicate k 0) true true CatalogIds.zero =
        { nodeID := 20, parentDirID := 10 }) ∧
      catalogIds [10, 20, 0, 0, 0, 0, 0, 0] true true CatalogIds.zero =
        { nodeID := 20, parentDirID := 10 } := by
  refine ⟨by decide, fun k => ?_, by decide⟩
  exact catalogIds_second_inode _ _ (by simp) (by simp)

/-! ## C26: the varint reader -/

theorem uleb128Loop_encode :
    ∀ (fuel n s r c : Nat) (post : List Nat), n ≤ fuel → r < 2 ^ s → n * 2 ^ s < 2 ^ 64 →
      uleb128Loop (encodeUleb128Fuel fuel n ++ post) s r c =
        (r + n * 2 ^ s, c + (encodeUleb128Fuel fuel n).length) := by
  intro fuel
  induction fuel with
  | zero =>
    intro n s r c post hn hr hlt
    obtain rfl : n = 0 := by omega
    simp [encodeUleb128Fuel, uleb128Loop]
  | succ fuel ih =>
    intro n s r c post hn hr hlt
    have hor : ∀ x : Nat, r ||| x * 2 ^ s = r + x * 2 ^ s := by
      intro x
      rw [Nat.lor_comm, Nat.mul_comm x, ← Nat.mul_add_lt_is_or hr, Nat.add_comm]
    rw [encodeUleb128Fuel]
    by_cases h128 : n < 128
    · rw [if_pos h128]
      simp only [List.singleton_append, uleb128Loop, List.length_singleton]
      rw [if_neg (by omega), Nat.mod_eq_of_lt h128, Nat.mod_eq_of_lt hlt, hor]
    · rw [if_neg h128]
      rw [List.cons_append, uleb128Loop, List.length_cons]
      have hdm := Nat.div_add_mod n 128
      have hm : n % 128 < 128 := Nat.mod_lt _ (by decide)
      have hb : (n % 128 + 128) % 128 = n % 128 := by omega
      have hsplit : n * 2 ^ s = n / 128 * 2 ^ (s + 7) + n % 128 * 2 ^ s := by
        rw [pow_add]
        nth_rewrite 1 [← hdm]
        ring
      have hlow : n % 128 * 2 ^ s < 2 ^ 64 := by omega
      have hhigh : n / 128 * 2 ^ (s + 7) < 2 ^ 64 := by omega
      have hr1 : r + n % 128 * 2 ^ s < 2 ^ (s + 7) := by
        have : n % 128 * 2 ^ s ≤ 127 * 2 ^ s := Nat.mul_le_mul_right _ (by omega)
        rw [pow_add]
        omega
      rw [if_pos (by omega), hb, Nat.mod_eq_of_lt hlow, hor,
        ih (n / 128) (s + 7) _ (c + 1) post (by omega) hr1 hhigh, hsplit]
      congr 1
      · omega
      · omega

theorem encodeUleb128Fuel_length :
    ∀ (fuel n k : Nat), n ≤ fuel →
      ((encodeUleb128Fuel fuel n).length ≤ k + 1 ↔ n < 128 ^ (k + 1)) := by
  intro fuel
  induction fuel with
  | zero =>
    intro n k hn
    obtain rfl : n = 0 := by omega
    simp [encodeUleb128Fuel]
  | succ fuel ih =>
    intro n k hn
    rw [encodeUleb128Fuel]
    by_cases h128 : n < 128
    · rw [if_pos h128]
      have : 128 ≤ 128 ^ (k + 1) := Nat.le_self_pow (by omega) _
      simp only [List.length_singleton]
      constructor
      · intro _; omega
      · intro _; omega
    · rw [if_neg h128, List.length_cons]
      cases k with
      | zero =>
        constructor
        · intro hl
          have : 0 < (encodeUleb128Fuel fuel (n / 128)).length := by
            cases fuel <;> simp [encodeUleb128Fuel]; split_ifs <;> simp
          omega
        · intro hl
          simp at hl
          omega
      | succ k =>
        rw [Nat.succ_le_succ_iff, ih (n / 128) k (by omega), Nat.div_lt_iff_lt_mul (by decide),
          pow_succ 128 (k + 1)]

theorem encodeUleb128Fuel_pos (fuel n : Nat) : 1 ≤ (encodeUleb128Fuel fuel n).length := by
  cases fuel with
  | zero => simp [encodeUleb128Fuel]
  | succ fuel =>
    rw [encodeUleb128Fuel]
    split_ifs <;> simp

/-- C26. For every unsigned 64-bit integer `n`, the varint reader `uleb128`,
started at the first byte of the unsigned little-endian base-128 encoding of
`n` (whatever bytes precede and follow it in the mapping), returns `n` and the
cursor advanced by the length of the encoding.  The encoding has 1 byte for
`n < 128`, `k + 2` bytes for `128^(k+1) ≤ n < 128^(k+2)` (2 bytes for
`128 ≤ n < 16384`), and 10 bytes for `n ≥ 2^63`. -/
theorem C26_uleb128_round_trip (n : Nat) (hn : n < 2 ^ 64) (pre post : List Nat) :
    uleb128 (pre ++ encodeUleb128 n ++ post) pre.length =
      (n, pre.length + (encodeUleb128 n).length) ∧
    ((encodeUleb128 n).length = 1 ↔ n < 128) ∧
    (∀ k, (encodeUleb128 n).length = k + 2 ↔ 128 ^ (k + 1) ≤ n ∧ n < 128 ^ (k + 2)) ∧
    ((encodeUleb128 n).length = 10 ↔ 2 ^ 63 ≤ n) ∧
    1 ≤ (encodeUleb128 n).length ∧ (encodeUleb128 n).length ≤ 10 := by
  have hloop := uleb128Loop_encode n n 0 0 0 post (Nat.le_refl n) (by decide)
    (by rw [Nat.pow_zero, Nat.mul_one]; exact hn)
  have hpos := encodeUleb128Fuel_pos n n
  have L := fun k => encodeUleb128Fuel_length n n k (Nat.le_refl n)
  have L0 := L 0
  have L8 := L 8
  have L9 := L 9
  have e9 : (128 : Nat) ^ (8 + 1) = 2 ^ 63 := by norm_num
  have e10 : (2 : Nat) ^ 64 < 128 ^ (9 + 1) := by norm_num
  rw [e9] at L8
  rw [Nat.zero_add, Nat.pow_one] at L0
  unfold encodeUleb128
  refine ⟨?_, ?_, ?_, ?_, hpos, ?_⟩
  · unfold uleb128
    rw [List.append_assoc, List.drop_left, hloop]
    simp
  · omega
  · intro k
    have a := L k
    have b := L (k + 1)
    rw [show k + 1 + 1 = k + 2 from rfl] at b
    generalize (128 : Nat) ^ (k + 1) = X at a ⊢
    generalize (128 : Nat) ^ (k + 2) = Y at b ⊢
    omega
  · have : (encodeUleb128Fuel n n).length ≤ 9 + 1 := L9.mpr (lt_trans hn e10)
    omega
  · exact L9.mpr (lt_trans hn e10)

/-- C26 on the values 0, 127, 128, 16384 and `2^64 - 1`, each encoded after one
foreign byte and before another. -/
theorem C26_uleb128_witness :
    uleb128 ([7] ++ [0] ++ [9]) 1 = (0, 2) ∧
    uleb128 ([7] ++ [127] ++ [9]) 1 = (127, 2) ∧
    uleb128 ([7] ++ [128, 1] ++ [9]) 1 = (128, 3) ∧
    uleb128 ([7] ++ [128, 128, 1] ++ [9]) 1 = (16384, 4) ∧
    encodeUleb128 (2 ^ 64 - 1) = [255, 255, 255, 255, 255, 255, 255, 255, 255, 1] ∧
    uleb128 ([7] ++ encodeUleb128 (2 ^ 64 - 1) ++ [9]) 1 = (2 ^ 64 - 1, 1 + 10) :=
  ⟨(C26_uleb128_round_trip 0 (by decide) [7] [9]).1,
    (C26_uleb128_round_trip 127 (by decide) [7] [9]).1,
    (C26_uleb128_round_trip 128 (by decide) [7] [9]).1,
    (C26_uleb128_round_trip 16384 (by decide) [7] [9]).1,
    by decide,
    (C26_uleb128_round_trip (2 ^ 64 - 1) (by decide) [7] [9]).1.trans (by decide)⟩
/-! ## C21: the symbol list -/

theorem u64_mod_u32 (mem : Mem) (off : Nat) : u64 mem off % 2 ^ 32 = u32 mem off := by
  have h := u32_lt mem off
  unfold u64
  omega

theorem readSymbols_eq (mem : Mem) (is64 : Bool) (symstrtab : Nat) :
    ∀ (n symtab : Nat) (symbols : List Symbol),
      readSymbols mem is64 symstrtab n symtab symbols =
        symbols ++ (List.range n).map
          (symbolRecord mem (if is64 then 8 else 4) symtab symstrtab) := by
  intro n
  induction n with
  | zero => intro symtab symbols; simp [readSymbols]
  | succ n ih =>
    intro symtab symbols
    rw [readSymbols, ih, List.range_succ_eq_map, List.map_cons, List.map_map, List.append_assoc]
    congr 1
    have h0 : symbolRecord mem (if is64 then 8 else 4) symtab symstrtab 0 =
        { name := cstr mem (symstrtab + n_strx mem symtab)
          addr := if is64 then n_value mem symtab else n_value mem symtab % 2 ^ 32 } := by
      unfold symbolRecord symbolStride n_strx n_value
      cases is64
      · have hm := u64_mod_u32 mem (symtab + 8)
        norm_num at hm
        simp [hm]
      · simp
    rw [h0, List.singleton_append]
    congr 1
    apply List.map_congr_left
    intro k _
    simp only [Function.comp, Nat.succ_eq_add_one]
    unfold symbolRecord symbolStride
    cases is64
    · simp only [Bool.false_eq_true, if_false, show ¬(4 : Nat) = 8 by decide]
      rw [show symtab + 4 * 3 + k * 12 = symtab + (k + 1) * 12 by omega]
    · simp only [if_true]
      rw [show symtab + 4 * 4 + k * 16 = symtab + (k + 1) * 16 by omega]

/-- What one load command does to the symbol list. -/
theorem processCommand_symbols {h : Host} {d : Decoders} {mem : Mem} {fuel c : Nat}
    {st st' : MachOImpl × Locals} (hs : processCommand h d mem fuel c st = .ok st') :
    st'.1.m_symbols =
      st.1.m_symbols ++ commandSymbols mem (if st.1.m_is64 then 8 else 4) c := by
  unfold commandSymbols
  rcases processCommand_cases hs with ⟨hc, r, hr, e⟩ | ⟨hc, r, hr, e⟩ | ⟨hc, m1, hr, e⟩ |
    ⟨hc, e⟩ | ⟨hc, e⟩ | ⟨hc, e⟩ | ⟨hc, e⟩ | ⟨hc, e⟩ | ⟨hc, e⟩ | ⟨hc, e⟩
  · obtain ⟨dd, ef, ui, inf, exf, e1⟩ := readSegment_frame hr
    have k : ¬lc_cmd mem c = LC_SYMTAB := by rw [hc]; decide
    subst e
    rw [if_neg k, e1, List.append_nil]
  · obtain ⟨dd, ef, ui, inf, exf, e1⟩ := readSegment_frame hr
    have k : ¬lc_cmd mem c = LC_SYMTAB := by rw [hc]; decide
    subst e
    rw [if_neg k, e1, List.append_nil]
  · obtain ⟨rb, ex, e1⟩ := readDyldInfo_frame hr
    have k : ¬lc_cmd mem c = LC_SYMTAB := by rcases hc with hc | hc <;> rw [hc] <;> decide
    subst e
    rw [if_neg k, e1, List.append_nil]
  · subst e
    rw [if_pos hc]
    exact readSymbols_eq mem _ _ _ _ _
  · have k : ¬lc_cmd mem c = LC_SYMTAB := by rw [hc]; decide
    subst e
    rw [if_neg k, List.append_nil]
  · have k : ¬lc_cmd mem c = LC_SYMTAB := by rw [hc]; decide
    subst e
    rw [if_neg k, List.append_nil]
  · have k : ¬lc_cmd mem c = LC_SYMTAB := by rw [hc]; decide
    subst e
    rw [if_neg k, List.append_nil]
  · have k : ¬lc_cmd mem c = LC_SYMTAB := by rw [hc]; decide
    subst e
    rw [if_neg k, List.append_nil]
  · have k : ¬lc_cmd mem c = LC_SYMTAB := by rw [hc]; decide
    subst e
    rw [if_neg k, List.append_nil]
  · have k : ¬lc_cmd mem c = LC_SYMTAB := fun hx => hc (by rw [hx]; simp)
    subst e
    rw [if_neg k, List.append_nil]

/-- The symbol list after the walk: the records of the commands visited, in
command order. -/
theorem walkCommands_symbols {h : Host} {d : Decoders} {mem : Mem} {fuel : Nat} :
    ∀ (n c : Nat) {st st' : MachOImpl × Locals},
      walkCommands h d mem fuel n c st = .ok st' →
      st'.1.m_symbols = st.1.m_symbols ++
        (commandOffsets mem n c).flatMap (commandSymbols mem (if st.1.m_is64 then 8 else 4)) := by
  intro n
  induction n with
  | zero =>
    intro c st st' hs
    simp only [walkCommands, Res.ok.injEq] at hs
    subst hs
    simp [commandOffsets]
  | succ n ih =>
    intro c st st' hs
    simp only [walkCommands] at hs
    obtain ⟨st1, h1, h2⟩ := Res.bind_eq_ok.mp hs
    obtain ⟨a1, -⟩ := processCommand_segments h1
    rw [ih _ h2, processCommand_symbols h1, a1]
    simp [commandOffsets, List.flatMap_cons, List.append_assoc]

/-- A symbol-table command always returns, with the records of its entries
appended to the symbol list. -/
theorem processCommand_symtab (h : Host) (d : Decoders) (mem : Mem) (fuel c : Nat)
    (st : MachOImpl × Locals) (hc : lc_cmd mem c = LC_SYMTAB) :
    ∃ st', processCommand h d mem fuel c st = .ok st' ∧
      st'.1.m_symbols =
        st.1.m_symbols ++ commandSymbols mem (if st.1.m_is64 then 8 else 4) c ∧
      st'.2.symtab = some (u32 mem (c + 8)) ∧ st'.2.symstrtab = some (u32 mem (c + 16)) := by
  have k1 : ¬lc_cmd mem c = LC_SEGMENT_64 := by rw [hc]; decide
  have k2 : ¬lc_cmd mem c = LC_SEGMENT := by rw [hc]; decide
  have k3 : ¬(lc_cmd mem c = LC_DYLD_INFO ∨ lc_cmd mem c = LC_DYLD_INFO_ONLY) := by
    rw [hc]; decide
  have hp : processCommand h d mem fuel c st =
      .ok ({ st.1 with
          m_symbols := readSymbols mem st.1.m_is64 (u32 mem (c + 16)) (u32 mem (c + 12))
            (u32 mem (c + 8)) st.1.m_symbols },
        { st.2 with symtab := some (u32 mem (c + 8)), symstrtab := some (u32 mem (c + 16)) }) := by
    unfold processCommand
    dsimp only
    rw [if_neg k1, if_neg k2, if_neg k3, if_pos hc]
  refine ⟨_, hp, ?_, rfl, rfl⟩
  unfold commandSymbols
  rw [if_pos hc]
  exact readSymbols_eq mem _ _ _ _ _

/-- C21. On every image on which the parse returns, the pointer width is 4 or
8 and the symbol list is the concatenation, in command order, of the records
of the symbol-table commands.  Every symbol-table command (declaring `nsyms`
entries at `symoff`, string table at `stroff`) returns and appends exactly
`nsyms` records in on-disk order: record `k` is read from the entry at
`symoff + k * stride` (stride 12 for pointer width 4, 16 for width 8), its name
is the C string at `stroff + n_strx` of that entry, and its address is the
entry's value (the 4-byte value for width 4, so below `2^32`). -/
theorem C21_symbols_in_table_order (h : Host) (d : Decoders) (mem : Mem) (fuel : Nat)
    (need_exports : Bool) (fd : Int) (m : MachOImpl)
    (hparse : MachOImpl.construct h d mem fuel need_exports fd = .ok m) :
    (m.m_ptrsize = 4 ∨ m.m_ptrsize = 8) ∧
    m.m_symbols = (imageCommands mem m.m_is64).flatMap (commandSymbols mem m.m_ptrsize) ∧
    (∀ c, lc_cmd mem c = LC_SYMTAB →
      (∀ st : MachOImpl × Locals, st.1.m_is64 = m.m_is64 →
        ∃ st', processCommand h d mem fuel c st = .ok st' ∧
          st'.1.m_symbols = st.1.m_symbols ++ commandSymbols mem m.m_ptrsize c) ∧
      (commandSymbols mem m.m_ptrsize c).length = u32 mem (c + 12) ∧
      ∀ k, k < u32 mem (c + 12) →
        (commandSymbols mem m.m_ptrsize c)[k]? =
          some (symbolRecord mem m.m_ptrsize (u32 mem (c + 8)) (u32 mem (c + 16)) k)) ∧
    (∀ symoff stroff k,
      symbolRecord mem m.m_ptrsize symoff stroff k =
        { name := cstr mem
            (stroff + n_strx mem (symoff + k * (if m.m_ptrsize = 4 then 12 else 16)))
          addr :=
            if m.m_ptrsize = 4 then
              n_value mem (symoff + k * (if m.m_ptrsize = 4 then 12 else 16)) % 2 ^ 32
            else n_value mem (symoff + k * (if m.m_ptrsize = 4 then 12 else 16)) }) := by
  obtain ⟨m0, st, m1, h0, hw, hc, hr⟩ := construct_stages hparse
  have e0 := validateHeader_frame h0
  obtain ⟨a1, a2, -⟩ := walkCommands_segments _ _ hw
  have hsym := walkCommands_symbols _ _ hw
  obtain ⟨bd, e1⟩ := readClassicBinds_frame hc
  obtain ⟨rl, rb, e2⟩ := readRelocations_frame hr
  have hi : m.m_is64 = m0.m_is64 := by rw [e2, e1]; exact a1
  have hp : m.m_ptrsize = m0.m_ptrsize := by rw [e2, e1]; exact a2
  have hs : m.m_symbols = st.1.m_symbols := by rw [e2, e1]
  have hwidth : m.m_ptrsize = (if m.m_is64 then 8 else 4) := by
    rw [hp, hi, e0]
    by_cases hm : hdr_magic mem = MH_MAGIC_64 <;> simp [hm]
  refine ⟨?_, ?_, ?_, ?_⟩
  · rw [hwidth]
    cases m.m_is64
    · exact Or.inl rfl
    · exact Or.inr rfl
  · rw [hs, hsym, hwidth, hi, imageCommands, e0]
    exact List.nil_append _
  · intro c hcmd
    refine ⟨fun st hst => ?_, ?_, fun k hk => ?_⟩
    · obtain ⟨st', p1, p2, -⟩ := processCommand_symtab h d mem fuel c st hcmd
      exact ⟨st', p1, by rw [p2, hst, hwidth]⟩
    · unfold commandSymbols
      rw [if_pos hcmd, List.length_map, List.length_range]
    · unfold commandSymbols
      rw [if_pos hcmd, List.getElem?_map, List.getElem?_range hk]
      rfl
  · intro symoff stroff k
    rw [hwidth]
    unfold symbolRecord symbolStride n_strx n_value
    cases m.m_is64
    · have hm := u64_mod_u32 mem (symoff + k * 12 + 8)
      norm_num at hm
      simp [hm]
    · simp

/-- C21 on `classicImage LC_UUID 8 7 0`, whose symbol-table command declares
two entries at offset 312 with the string table at 336: "foo" at `0x1234` and
"bar" at `0x5678`. -/
theorem C21_symbols_witness :
    classicImagePointerParsed.m_symbols =
        [symbolRecord (classicImage LC_UUID 8 7 0) 4 312 336 0,
          symbolRecord (classicImage LC_UUID 8 7 0) 4 312 336 1] ∧
      classicImagePointerParsed.m_symbols =
        [{ name := str_foo, addr := 0x1234 }, { name := str_bar, addr := 0x5678 }] :=
  ⟨(C21_symbols_in_table_order .i386 noDecoders (classicImage LC_UUID 8 7 0) 1 true 3
      classicImagePointerParsed (by decide)).2.1.trans (by decide), by decide⟩

/-! ## C27: termination of `readExport` -/

theorem readExportChildren_no_fuel
    {recur : Nat → Bytes × List Export → Res (Bytes × List Export)} {mem : Mem} {start : Nat} :
    ∀ (n p : Nat),
      (∀ off ∈ childOffsets mem n p, ∀ st, recur (start + off) st ≠ .fault .fuel) →
      ∀ st, readExportChildren recur mem start n p st ≠ .fault .fuel := by
  intro n
  induction n with
  | zero =>
    intro p _ st hf
    simp [readExportChildren] at hf
  | succ n ih =>
    intro p hrec st hf
    simp only [readExportChildren] at hf
    by_cases h0 : (uleb128 mem (p + (cstr mem p).length + 1)).1 = 0
    · rw [if_pos h0] at hf
      cases hf
    · rw [if_neg h0] at hf
      rcases Res.bind_eq_fault.mp hf with hl | ⟨a, -, hk⟩
      · exact hrec _ (by simp [childOffsets]) _ hl
      · exact ih _ (fun off ho => hrec off (by simp [childOffsets, ho])) _ hk

theorem exportNode_ge {mem : Mem} {start p : Nat} (hp : ExportNode mem start p) :
    start ≤ p := by
  cases hp with
  | root => exact Nat.le_refl _
  | child _ _ => exact Nat.le_add_right _ _

theorem readExport_no_fuel (mem : Mem) (start end_ : Nat)
    (hoff : ∀ p, ExportNode mem start p → ∀ off ∈ nodeChildOffsets mem p, p - start < off) :
    ∀ (k p : Nat), ExportNode mem start p → end_ - p ≤ k → ∀ fuel, k < fuel →
      ∀ st, readExport mem start end_ fuel p st ≠ .fault .fuel := by
  intro k
  induction k with
  | zero =>
    intro p _ hk fuel hfuel st hf
    obtain ⟨f, rfl⟩ : ∃ f, fuel = f + 1 := ⟨fuel - 1, by omega⟩
    simp only [readExport] at hf
    rw [if_pos (by omega)] at hf
    cases hf
  | succ k ih =>
    intro p hp hk fuel hfuel st hf
    obtain ⟨f, rfl⟩ : ∃ f, fuel = f + 1 := ⟨fuel - 1, by omega⟩
    have hge := exportNode_ge hp
    simp only [readExport] at hf
    by_cases hend : end_ ≤ p
    · rw [if_pos hend] at hf
      cases hf
    rw [if_neg hend] at hf
    have hchild : ∀ off ∈ nodeChildOffsets mem p, ∀ st,
        readExport mem start end_ f (start + off) st ≠ .fault .fuel := by
      intro off ho st
      have := hoff p hp off ho
      exact ih (start + off) (ExportNode.child hp ho) (by omega) f (by omega) st
    unfold nodeChildOffsets at hchild
    by_cases ht : u8 mem p ≠ 0
    · rw [if_pos ht] at hf hchild
      by_cases hflag : (uleb128 mem (p + 1)).1 &&& 8 ≠ 0
      · rw [if_pos hflag] at hf
        cases hf
      rw [if_neg hflag] at hf hchild
      by_cases hexp : p + 1 + u8 mem p ≠ (uleb128 mem (uleb128 mem (p + 1)).2).2
      · rw [if_pos hexp] at hf
        cases hf
      rw [if_neg hexp] at hf hchild
      exact readExportChildren_no_fuel _ _ hchild _ hf
    · rw [if_neg ht] at hf hchild
      exact readExportChildren_no_fuel _ _ hchild _ hf

theorem readExport_cycle_node :
    ∀ (fuel : Nat) (st : Bytes × List Export),
      readExport trieCycleBytes 0 10 fuel 5 st = .fault .fuel := by
  intro fuel
  induction fuel with
  | zero => intro st; rfl
  | succ f ih =>
    intro st
    simp only [readExport]
    rw [if_neg (by decide), if_neg (by decide), show u8 trieCycleBytes (5 + 1) = 1 from by decide]
    simp only [readExportChildren]
    rw [show (uleb128 trieCycleBytes (5 + 2 + (cstr trieCycleBytes (5 + 2)).length + 1)).1 = 5
      from by decide, if_neg (by decide), ih]
    rfl

/-- C27. On every export sub-stream in which each child offset read at a node
is strictly greater than the offset of that node (and smaller than the length
of the sub-stream), `readExport` terminates: with more fuel than the length of
the sub-stream the call from the root does not run out of fuel.  The only test
the code makes on a child offset is `off != 0` (a zero offset fails the
assertion, any other offset is followed); in the sub-stream `trieCycleBytes`,
where the child offset of the node at offset 5 is 5, the call never returns. -/
theorem C27_readExport_terminates (mem : Mem) (start end_ : Nat)
    (hoff : ∀ p, ExportNode mem start p → ∀ off ∈ nodeChildOffsets mem p,
      p - start < off ∧ off < end_ - start) :
    (∀ fuel, end_ - start < fuel →
      ∀ st, readExport mem start end_ fuel start st ≠ .fault .fuel) ∧
    (∀ (recur : Nat → Bytes × List Export → Res (Bytes × List Export)) n p st,
      readExportChildren recur mem start (n + 1) p st =
        if (uleb128 mem (p + (cstr mem p).length + 1)).1 = 0 then .fault .assertion
        else
          (recur (start + (uleb128 mem (p + (cstr mem p).length + 1)).1)
            (st.1 ++ cstr mem p, st.2)).bind fun st1 =>
              readExportChildren recur mem start n
                (uleb128 mem (p + (cstr mem p).length + 1)).2
                (st1.1.take st.1.length, st1.2)) ∧
    nodeChildOffsets trieCycleBytes 5 = [5] ∧
    ∀ fuel, readExport trieCycleBytes 0 10 fuel 0 ([], []) = .fault .fuel := by
  refine ⟨fun fuel hfuel st => ?_, fun recur n p st => rfl, by decide, fun fuel => ?_⟩
  · exact readExport_no_fuel mem start end_ (fun p hp off ho => (hoff p hp off ho).1)
      (end_ - start) start ExportNode.root (Nat.le_refl _) fuel hfuel st
  · cases fuel with
    | zero => rfl
    | succ f =>
      simp only [readExport]
      rw [if_neg (by decide), if_neg (by decide),
        show u8 trieCycleBytes (0 + 1) = 1 from by decide]
      simp only [readExportChildren]
      rw [show (uleb128 trieCycleBytes (0 + 2 + (cstr trieCycleBytes (0 + 2)).length + 1)).1 = 5
        from by decide, if_neg (by decide), Nat.zero_add, readExport_cycle_node]
      rfl

/-- C27 on `trieNotTerminalBytes` (14 bytes), whose nodes are at the offsets 0,
5 and 10, each child offset pointing forward: with fuel 15 the call returns. -/
theorem C27_readExport_terminates_witness :
    readExport trieNotTerminalBytes 0 14 15 0 ([], []) ≠ .fault .fuel ∧
    readExport trieNotTerminalBytes 0 14 15 0 ([], []) =
      .ok ([], [{ name := [0x61, 0x62], flag := 0, addr := 0x10 }]) := by
  have hnodes : ∀ p, ExportNode trieNotTerminalBytes 0 p → p = 0 ∨ p = 5 ∨ p = 10 := by
    intro p hp
    induction hp with
    | root => exact Or.inl rfl
    | child hq ho ih =>
      rcases ih with rfl | rfl | rfl
      · rw [show nodeChildOffsets trieNotTerminalBytes 0 = [5] from by decide] at ho
        simp at ho
        subst ho
        exact Or.inr (Or.inl rfl)
      · rw [show nodeChildOffsets trieNotTerminalBytes 5 = [10] from by decide] at ho
        simp at ho
        subst ho
        exact Or.inr (Or.inr rfl)
      · rw [show nodeChildOffsets trieNotTerminalBytes 10 = [] from by decide] at ho
        cases ho
  have hoff : ∀ p, ExportNode trieNotTerminalBytes 0 p →
      ∀ off ∈ nodeChildOffsets trieNotTerminalBytes p, p - 0 < off ∧ off < 14 - 0 := by
    intro p hp off ho
    rcases hnodes p hp with rfl | rfl | rfl
    · rw [show nodeChildOffsets trieNotTerminalBytes 0 = [5] from by decide] at ho
      simp at ho
      subst ho
      decide
    · rw [show nodeChildOffsets trieNotTerminalBytes 5 = [10] from by decide] at ho
      simp at ho
      subst ho
      decide
    · rw [show nodeChildOffsets trieNotTerminalBytes 10 = [] from by decide] at ho
      cases ho
  exact ⟨(C27_readExport_terminates trieNotTerminalBytes 0 14 hoff).1 15 (by decide) ([], []),
    by decide⟩

/-! ## C24: the include-exports switch -/

theorem validateHeader_withoutExports (mem : Mem) (m : MachOImpl) :
    validateHeader mem m.withoutExports =
      (validateHeader mem m).bind fun r => .ok r.withoutExports := by
  unfold validateHeader
  dsimp only
  generalize (if hdr_magic mem = MH_MAGIC_64 then Res.ok true
    else if hdr_magic mem = MH_CIGAM then Res.fault (.error .unsupportedEndianness)
    else if hdr_magic mem ≠ MH_MAGIC then Res.fault (.error .notMachO)
    else Res.ok false) = r
  cases r with
  | fault f => rfl
  | ok b =>
    simp only [Res.bind]
    by_cases hc : hdr_cputype mem &&& 0x00ffffff ≠ CPU_TYPE_X86
    · rw [if_pos hc, if_pos hc]
    · rw [if_neg hc, if_neg hc]
      rfl

theorem noteSpecialSection_withoutExports (mem : Mem) (wide : Bool) (sec : Nat) (s : Section)
    (m : MachOImpl) :
    noteSpecialSection mem wide sec s m.withoutExports =
      (noteSpecialSection mem wide sec s m).withoutExports := by
  unfold noteSpecialSection
  dsimp only
  split_ifs <;> rfl

theorem readSection_withoutExports (h : Host) (mem : Mem) (wide : Bool) (fuel sec : Nat)
    (m : MachOImpl) (bs : List Nat) :
    readSection h mem wide fuel sec (m.withoutExports, bs) =
      (readSection h mem wide fuel sec (m, bs)).bind fun r => .ok (r.1.withoutExports, r.2) := by
  have hn := noteSpecialSection_withoutExports mem wide sec (savedSection h mem wide sec)
    { m with m_sections := m.m_sections ++ [savedSection h mem wide sec] }
  unfold readSection
  dsimp only
  have hn' : noteSpecialSection mem wide sec (savedSection h mem wide sec)
      { m.withoutExports with
        m_sections := m.withoutExports.m_sections ++ [savedSection h mem wide sec] } =
      (noteSpecialSection mem wide sec (savedSection h mem wide sec)
        { m with m_sections := m.m_sections ++ [savedSection h mem wide sec] }).withoutExports :=
    hn
  rw [hn']
  generalize sec_flags mem wide sec &&& SECTION_TYPE = t
  generalize noteSpecialSection mem wide sec (savedSection h mem wide sec)
    { m with m_sections := m.m_sections ++ [savedSection h mem wide sec] } = M
  have hloop : ∀ (l : List Nat) (k k' : List Nat → MachOImpl),
      (∀ funcs, k' funcs = (k funcs).withoutExports) →
      ((funcPointerLoop M.m_ptrsize (sec_end mem wide sec) fuel (sec_addr mem wide sec) l).bind
          fun funcs => Res.ok (k' funcs, bs)) =
        ((funcPointerLoop M.m_ptrsize (sec_end mem wide sec) fuel (sec_addr mem wide sec) l).bind
          fun funcs => Res.ok (k funcs, bs)).bind fun r => .ok (r.1.withoutExports, r.2) := by
    intro l k k' hk
    cases funcPointerLoop M.m_ptrsize (sec_end mem wide sec) fuel (sec_addr mem wide sec) l with
    | fault f => rfl
    | ok funcs =>
      simp only [Res.bind]
      rw [hk]
  by_cases h0 : t = S_REGULAR
  · rw [if_pos h0, if_pos h0]
    rfl
  rw [if_neg h0, if_neg h0]
  by_cases h1 : t = S_MOD_INIT_FUNC_POINTERS
  · rw [if_pos h1, if_pos h1]
    exact hloop _ _ _ (fun _ => rfl)
  rw [if_neg h1, if_neg h1]
  by_cases h2 : t = S_MOD_TERM_FUNC_POINTERS
  · rw [if_pos h2, if_pos h2]
    exact hloop _ _ _ (fun _ => rfl)
  rw [if_neg h2, if_neg h2]
  by_cases h3 : t = S_NON_LAZY_SYMBOL_POINTERS ∨ t = S_LAZY_SYMBOL_POINTERS
  · rw [if_pos h3, if_pos h3]
    rfl
  rw [if_neg h3, if_neg h3]
  by_cases h4 : t = S_SYMBOL_STUBS
  · rw [if_pos h4, if_pos h4]
    by_cases h5 : M.m_is64 = false
    · rw [if_pos h5, if_pos (show M.withoutExports.m_is64 = false from h5)]
      rfl
    · rw [if_neg h5, if_neg (show ¬M.withoutExports.m_is64 = false from h5)]
      rfl
  rw [if_neg h4, if_neg h4]
  by_cases h6 : t = S_ZEROFILL ∨ t = S_CSTRING_LITERALS
      ∨ t = S_4BYTE_LITERALS ∨ t = S_8BYTE_LITERALS
      ∨ t = S_LITERAL_POINTERS ∨ t = S_COALESCED
      ∨ t = S_GB_ZEROFILL ∨ t = S_INTERPOSING
      ∨ t = S_16BYTE_LITERALS ∨ t = S_DTRACE_DOF
      ∨ t = S_LAZY_DYLIB_SYMBOL_POINTERS
  · rw [if_pos h6, if_pos h6]
    rfl
  · rw [if_neg h6, if_neg h6]
    rfl

theorem readSections_withoutExports (h : Host) (mem : Mem) (wide : Bool)
    (fuel sections : Nat) :
    ∀ (n j : Nat) (m : MachOImpl) (bs : List Nat),
      readSections h mem wide fuel sections n j (m.withoutExports, bs) =
        (readSections h mem wide fuel sections n j (m, bs)).bind fun r =>
          .ok (r.1.withoutExports, r.2) := by
  intro n
  induction n with
  | zero => intro j m bs; rfl
  | succ n ih =>
    intro j m bs
    simp only [readSections]
    rw [readSection_withoutExports]
    cases readSection h mem wide fuel (sections + j * sizeof_section wide) (m, bs) with
    | fault f => rfl
    | ok r =>
      simp only [Res.bind]
      exact ih _ _ _

theorem readSegment_withoutExports (h : Host) (mem : Mem) (wide : Bool) (fuel c : Nat)
    (m : MachOImpl) (bs : List Nat) :
    readSegment h mem wide fuel c (m.withoutExports, bs) =
      (readSegment h mem wide fuel c (m, bs)).bind fun r => .ok (r.1.withoutExports, r.2) := by
  unfold readSegment
  dsimp only
  rw [← readSections_withoutExports]
  congr 2
  cases wide <;> split_ifs <;> rfl

theorem readDyldBinds_withoutExports (d : Decoders) (mem : Mem) (c : Nat) (m : MachOImpl) :
    readDyldBinds d mem c (readDyldRebase d mem c m.withoutExports) =
      (readDyldBinds d mem c (readDyldRebase d mem c m)).withoutExports := by
  unfold readDyldBinds readDyldRebase readBind readRebase
  dsimp only
  split_ifs <;> rfl

theorem readDyldInfo_withoutExports (d : Decoders) (mem : Mem) (fuel c : Nat)
    (m : MachOImpl) :
    readDyldInfo d mem fuel c m.withoutExports =
      .ok (readDyldBinds d mem c (readDyldRebase d mem c m)).withoutExports := by
  unfold readDyldInfo
  rw [readDyldBinds_withoutExports]
  unfold readDyldExports
  dsimp only
  rw [if_neg (by simp [MachOImpl.withoutExports])]

theorem readDyldInfo_ok_withoutExports {d : Decoders} {mem : Mem} {fuel c : Nat}
    {m m' : MachOImpl} (hs : readDyldInfo d mem fuel c m = .ok m') :
    m'.withoutExports = (readDyldBinds d mem c (readDyldRebase d mem c m)).withoutExports := by
  unfold readDyldInfo at hs
  obtain ⟨ex, e⟩ := readDyldExports_frame hs
  rw [e]
  rfl

theorem processCommand_withoutExports {h : Host} {d : Decoders} {mem : Mem} {fuel c : Nat}
    {st st' : MachOImpl × Locals} (hs : processCommand h d mem fuel c st = .ok st') :
    processCommand h d mem fuel c (st.1.withoutExports, st.2) =
      .ok (st'.1.withoutExports, st'.2) := by
  unfold processCommand at hs ⊢
  dsimp only at hs ⊢
  by_cases h1 : lc_cmd mem c = LC_SEGMENT_64
  · rw [if_pos h1] at hs ⊢
    obtain ⟨r, hr, hk⟩ := Res.bind_eq_ok.mp hs
    cases hk
    rw [readSegment_withoutExports, hr]
    rfl
  rw [if_neg h1] at hs ⊢
  by_cases h2 : lc_cmd mem c = LC_SEGMENT
  · rw [if_pos h2] at hs ⊢
    obtain ⟨r, hr, hk⟩ := Res.bind_eq_ok.mp hs
    cases hk
    rw [readSegment_withoutExports, hr]
    rfl
  rw [if_neg h2] at hs ⊢
  by_cases h3 : lc_cmd mem c = LC_DYLD_INFO ∨ lc_cmd mem c = LC_DYLD_INFO_ONLY
  · rw [if_pos h3] at hs ⊢
    obtain ⟨m1, hr, hk⟩ := Res.bind_eq_ok.mp hs
    cases hk
    rw [readDyldInfo_withoutExports, ← readDyldInfo_ok_withoutExports hr]
    rfl
  rw [if_neg h3] at hs ⊢
  by_cases h4 : lc_cmd mem c = LC_SYMTAB
  · rw [if_pos h4] at hs ⊢
    cases hs
    rfl
  rw [if_neg h4] at hs ⊢
  by_cases h5 : lc_cmd mem c = LC_DYSYMTAB
  · rw [if_pos h5] at hs ⊢
    cases hs
    rfl
  rw [if_neg h5] at hs ⊢
  by_cases h6 : lc_cmd mem c = LC_LOAD_DYLINKER
  · rw [if_pos h6] at hs ⊢
    cases hs
    rfl
  rw [if_neg h6] at hs ⊢
  by_cases h7 : lc_cmd mem c = LC_UUID
  · rw [if_pos h7] at hs ⊢
    cases hs
    rfl
  rw [if_neg h7] at hs ⊢
  by_cases h8 : lc_cmd mem c = LC_UNIXTHREAD
  · rw [if_pos h8] at hs ⊢
    cases hs
    rfl
  rw [if_neg h8] at hs ⊢
  by_cases h9 : lc_cmd mem c = LC_MAIN
  · rw [if_pos h9] at hs ⊢
    cases hs
    rfl
  rw [if_neg h9] at hs ⊢
  by_cases h10 : lc_cmd mem c = LC_LOAD_DYLIB
  · rw [if_pos h10] at hs ⊢
    cases hs
    rfl
  rw [if_neg h10] at hs ⊢
  by_cases h11 : lc_cmd mem c = LC_RPATH
  · rw [if_pos h11] at hs ⊢
    cases hs
    rfl
  rw [if_neg h11] at hs ⊢
  cases hs
  rfl

theorem walkCommands_withoutExports {h : Host} {d : Decoders} {mem : Mem} {fuel : Nat} :
    ∀ (n c : Nat) {st st' : MachOImpl × Locals},
      walkCommands h d mem fuel n c st = .ok st' →
      walkCommands h d mem fuel n c (st.1.withoutExports, st.2) =
        .ok (st'.1.withoutExports, st'.2) := by
  intro n
  induction n with
  | zero =>
    intro c st st' hs
    simp only [walkCommands, Res.ok.injEq] at hs
    subst hs
    rfl
  | succ n ih =>
    intro c st st' hs
    simp only [walkCommands] at hs ⊢
    obtain ⟨st1, h1, h2⟩ := Res.bind_eq_ok.mp hs
    rw [processCommand_withoutExports h1]
    exact ih _ h2

theorem readClassicBinds64_withoutExports (mem : Mem) (m : MachOImpl)
    (dysyms symtab symstrtab : Nat) :
    ∀ (secs : List Nat) (binds : List Bind),
      readClassicBinds64 mem m.withoutExports dysyms symtab symstrtab secs binds =
        readClassicBinds64 mem m dysyms symtab symstrtab secs binds := by
  intro secs
  induction secs with
  | nil => intro binds; rfl
  | cons s rest ih =>
    intro binds
    simp only [readClassicBinds64]
    rw [ih]
    rfl

theorem readClassicBinds32_withoutExports (mem : Mem) (m : MachOImpl)
    (dysyms symtab symstrtab : Nat) :
    ∀ (secs : List Nat) (binds : List Bind),
      readClassicBinds32 mem m.withoutExports dysyms symtab symstrtab secs binds =
        readClassicBinds32 mem m dysyms symtab symstrtab secs binds := by
  intro secs
  induction secs with
  | nil => intro binds; rfl
  | cons s rest ih =>
    intro binds
    simp only [readClassicBinds32]
    by_cases ht : sec_flags mem false s &&& SECTION_TYPE = S_SYMBOL_STUBS
    · rw [if_pos ht, if_pos ht]
      have e : readStubBind mem m.withoutExports s dysyms symtab symstrtab binds =
          readStubBind mem m s dysyms symtab symstrtab binds := rfl
      rw [e]
      congr 1
      funext b
      exact ih b
    · rw [if_neg ht, if_neg ht, ih]
      rfl

theorem readClassicBinds_withoutExports (mem : Mem) (m : MachOImpl) (l : Locals) :
    readClassicBinds mem m.withoutExports l =
      (readClassicBinds mem m l).bind fun r => .ok r.withoutExports := by
  unfold readClassicBinds
  split
  · rw [readClassicBinds64_withoutExports, readClassicBinds32_withoutExports,
      show m.withoutExports.m_binds = m.m_binds from rfl]
    generalize readClassicBinds32 mem m _ _ _ l.bind_sections_32
      (readClassicBinds64 mem m _ _ _ l.bind_sections_64 m.m_binds) = r
    cases r with
    | fault f => rfl
    | ok b => rfl
  · rfl

theorem readExternalRelocations_withoutExports (h : Host) (mem : Mem) (m : MachOImpl)
    (ext : Nat) (symtab symstrtab : Option Nat) :
    ∀ (n i : Nat) (rl : List Relocation),
      readExternalRelocations h mem m.withoutExports ext symtab symstrtab n i rl =
        readExternalRelocations h mem m ext symtab symstrtab n i rl := by
  intro n
  induction n with
  | zero => intro i rl; rfl
  | succ n ih =>
    intro i rl
    simp only [readExternalRelocations]
    have e : readExternalRelocation h mem m.withoutExports (ext + 8 * i) symtab symstrtab rl =
        readExternalRelocation h mem m (ext + 8 * i) symtab symstrtab rl := rfl
    rw [e]
    congr 1
    funext r
    exact ih _ _

theorem readRelocations_withoutExports (h : Host) (mem : Mem) (m : MachOImpl) (l : Locals) :
    readRelocations h mem m.withoutExports l =
      (readRelocations h mem m l).bind fun r => .ok r.withoutExports := by
  unfold readRelocations
  dsimp only
  cases he : l.ext_relocinfo with
  | none =>
    simp only [Res.bind]
    cases l.loc_relocinfo <;> rfl
  | some ext =>
    simp only
    rw [readExternalRelocations_withoutExports,
      show m.withoutExports.m_relocations = m.m_relocations from rfl]
    generalize readExternalRelocations h mem m ext l.symtab l.symstrtab l.ext_reloccount 0
      m.m_relocations = r
    cases r with
    | fault f => rfl
    | ok rl =>
      simp only [Res.bind]
      cases l.loc_relocinfo <;> rfl

theorem readSection_not_trie {h : Host} {mem : Mem} {wide : Bool} {fuel sec : Nat}
    {st : MachOImpl × List Nat} {f : Fault}
    (hf : readSection h mem wide fuel sec st = .fault f) :
    f ≠ .error .brokenExportTrie := by
  unfold readSection at hf
  dsimp only at hf
  split_ifs at hf
  all_goals first
    | (rcases Res.bind_eq_fault.mp hf with hl | ⟨a, -, hk⟩
       · rw [funcPointerLoop_fault_fuel _ _ _ hl]
         decide
       · cases hk)
    | (cases hf; decide)

theorem readSections_not_trie {h : Host} {mem : Mem} {wide : Bool} {fuel sections : Nat} :
    ∀ (n j : Nat) {st : MachOImpl × List Nat} {f : Fault},
      readSections h mem wide fuel sections n j st = .fault f →
      f ≠ .error .brokenExportTrie := by
  intro n
  induction n with
  | zero =>
    intro j st f hf
    simp [readSections] at hf
  | succ n ih =>
    intro j st f hf
    simp only [readSections] at hf
    rcases Res.bind_eq_fault.mp hf with hl | ⟨a, -, hk⟩
    · exact readSection_not_trie hl
    · exact ih _ hk

/-- With the include-exports switch off, a dynamic-linker-info command always
returns. -/
theorem readDyldInfo_switch_off (d : Decoders) (mem : Mem) (fuel c : Nat) (m : MachOImpl)
    (hoff : m.m_need_exports = false) :
    readDyldInfo d mem fuel c m = .ok (readDyldBinds d mem c (readDyldRebase d mem c m)) := by
  obtain ⟨rb, e1⟩ := readDyldRebase_frame d mem c m
  have hne : (readDyldBinds d mem c (readDyldRebase d mem c m)).m_need_exports = false := by
    rw [readDyldBinds_frame, e1]
    exact hoff
  unfold readDyldInfo readDyldExports
  dsimp only
  rw [if_neg (by rw [hne]; decide)]

theorem processCommand_not_trie {h : Host} {d : Decoders} {mem : Mem} {fuel c : Nat}
    {st : MachOImpl × Locals} {f : Fault} (hoff : st.1.m_need_exports = false)
    (hf : processCommand h d mem fuel c st = .fault f) : f ≠ .error .brokenExportTrie := by
  unfold processCommand at hf
  dsimp only at hf
  by_cases h1 : lc_cmd mem c = LC_SEGMENT_64
  · rw [if_pos h1] at hf
    rcases Res.bind_eq_fault.mp hf with hl | ⟨a, -, hk⟩
    · exact readSections_not_trie _ _ hl
    · cases hk
  rw [if_neg h1] at hf
  by_cases h2 : lc_cmd mem c = LC_SEGMENT
  · rw [if_pos h2] at hf
    rcases Res.bind_eq_fault.mp hf with hl | ⟨a, -, hk⟩
    · exact readSections_not_trie _ _ hl
    · cases hk
  rw [if_neg h2] at hf
  by_cases h3 : lc_cmd mem c = LC_DYLD_INFO ∨ lc_cmd mem c = LC_DYLD_INFO_ONLY
  · rw [if_pos h3, readDyldInfo_switch_off d mem fuel c st.1 hoff] at hf
    cases hf
  rw [if_neg h3] at hf
  split_ifs at hf

theorem walkCommands_not_trie {h : Host} {d : Decoders} {mem : Mem} {fuel : Nat} :
    ∀ (n c : Nat) {st : MachOImpl × Locals} {f : Fault}, st.1.m_need_exports = false →
      walkCommands h d mem fuel n c st = .fault f → f ≠ .error .brokenExportTrie := by
  intro n
  induction n with
  | zero =>
    intro c st f _ hf
    simp [walkCommands] at hf
  | succ n ih =>
    intro c st f hoff hf
    simp only [walkCommands] at hf
    rcases Res.bind_eq_fault.mp hf with hl | ⟨a, ha, hk⟩
    · exact processCommand_not_trie hoff hl
    · obtain ⟨-, -, a3, -⟩ := processCommand_segments ha
      exact ih _ (a3.trans hoff) hk

theorem readClassicBinds_not_trie {mem : Mem} {m : MachOImpl} {l : Locals} {f : Fault}
    (hf : readClassicBinds mem m l = .fault f) : f ≠ .error .brokenExportTrie := by
  have h32 : ∀ (dysyms symtab symstrtab : Nat) (secs : List Nat) (binds : List Bind)
      {f : Fault}, readClassicBinds32 mem m dysyms symtab symstrtab secs binds = .fault f →
      f ≠ .error .brokenExportTrie := by
    intro dysyms symtab symstrtab secs
    induction secs with
    | nil =>
      intro binds f hf
      simp [readClassicBinds32] at hf
    | cons sec rest ih =>
      intro binds f hf
      simp only [readClassicBinds32] at hf
      split_ifs at hf
      · rcases Res.bind_eq_fault.mp hf with hl | ⟨a, -, hk⟩
        · unfold readStubBind at hl
          dsimp only at hl
          split_ifs at hl
          cases hl
          decide
        · exact ih _ hk
      · exact ih _ hf
  unfold readClassicBinds at hf
  split at hf
  · rcases Res.bind_eq_fault.mp hf with hl | ⟨a, -, hk⟩
    · exact h32 _ _ _ _ _ hl
    · cases hk
  · cases hf

theorem readRelocations_not_trie {h : Host} {mem : Mem} {m : MachOImpl} {l : Locals}
    {f : Fault} (hf : readRelocations h mem m l = .fault f) :
    f ≠ .error .brokenExportTrie := by
  have h1 : ∀ (reloc : Nat) (symtab symstrtab : Option Nat) (rl : List Relocation) {f : Fault},
      readExternalRelocation h mem m reloc symtab symstrtab rl = .fault f →
      f ≠ .error .brokenExportTrie := by
    intro reloc symtab symstrtab rl f hf
    unfold readExternalRelocation at hf
    by_cases he : r_extern mem reloc = 0
    · rw [if_pos he] at hf
      cases hf
      decide
    rw [if_neg he] at hf
    by_cases hl : r_length mem reloc ≠ RELOC_PTRLEN h
    · rw [if_pos hl] at hf
      cases hf
    rw [if_neg hl] at hf
    by_cases ht : r_type mem reloc = RELOC_VANILLA h
    · rw [if_pos ht] at hf
      cases symtab <;> cases symstrtab <;> cases hf <;> decide
    · rw [if_neg ht] at hf
      cases hf
  have hn : ∀ (ext : Nat) (symtab symstrtab : Option Nat) (n i : Nat) (rl : List Relocation)
      {f : Fault}, readExternalRelocations h mem m ext symtab symstrtab n i rl = .fault f →
      f ≠ .error .brokenExportTrie := by
    intro ext symtab symstrtab n
    induction n with
    | zero =>
      intro i rl f hf
      simp [readExternalRelocations] at hf
    | succ n ih =>
      intro i rl f hf
      simp only [readExternalRelocations] at hf
      rcases Res.bind_eq_fault.mp hf with hl | ⟨a, -, hk⟩
      · exact h1 _ _ _ _ hl
      · exact ih _ _ hk
  unfold readRelocations at hf
  dsimp only at hf
  rcases Res.bind_eq_fault.mp hf with hl | ⟨a, -, hk⟩
  · split at hl
    · exact hn _ _ _ _ _ _ hl
    · cases hl
  · split at hk <;> cases hk

/-- With the include-exports switch off the parse never fails with the "broken
export trie" error. -/
theorem construct_switch_off_not_trie (h : Host) (d : Decoders) (mem : Mem) (fuel : Nat)
    (fd : Int) :
    MachOImpl.construct h d mem fuel false fd ≠ .fault (.error .brokenExportTrie) := by
  intro hf
  unfold MachOImpl.construct at hf
  by_cases hfd : fd ≤ 0
  · rw [if_pos hfd] at hf
    cases hf
  rw [if_neg hfd] at hf
  rcases Res.bind_eq_fault.mp hf with hl | ⟨m0, h0, hk⟩
  · by_cases hmagic : hdr_magic mem = MH_MAGIC ∨ hdr_magic mem = MH_MAGIC_64
    · rw [validateHeader_of_magic mem _ hmagic] at hl
      split_ifs at hl
      cases hl
    · rw [validateHeader_bad_magic mem _ hmagic] at hl
      split_ifs at hl <;> cases hl
  · have e0 := validateHeader_frame h0
    have hoff : m0.m_need_exports = false := by rw [e0]; rfl
    unfold processLoaderCommands at hk
    rcases Res.bind_eq_fault.mp hk with hl | ⟨st, hst, hk1⟩
    · exact walkCommands_not_trie _ _ hoff hl rfl
    · rcases Res.bind_eq_fault.mp hk1 with hl | ⟨m1, -, hk2⟩
      · exact readClassicBinds_not_trie hl rfl
      · exact readRelocations_not_trie hk2 rfl

/-- Parsing the same bytes with the include-exports switch off returns whenever
the parse with the given switch returns, with the same object but for the
switch and the Export list. -/
theorem construct_withoutExports {h : Host} {d : Decoders} {mem : Mem} {fuel : Nat}
    {need_exports : Bool} {fd : Int} {m : MachOImpl}
    (hparse : MachOImpl.construct h d mem fuel need_exports fd = .ok m) :
    MachOImpl.construct h d mem fuel false fd = .ok m.withoutExports := by
  unfold MachOImpl.construct at hparse ⊢
  by_cases hfd : fd ≤ 0
  · rw [if_pos hfd] at hparse
    cases hparse
  rw [if_neg hfd] at hparse ⊢
  obtain ⟨m0, h0, hp⟩ := Res.bind_eq_ok.mp hparse
  have hv : validateHeader mem (MachOImpl.fresh false fd) = .ok m0.withoutExports := by
    have := validateHeader_withoutExports mem (MachOImpl.fresh need_exports fd)
    rw [h0] at this
    exact this
  rw [hv, Res.bind_ok]
  unfold processLoaderCommands at hp ⊢
  obtain ⟨st, hw, hk⟩ := Res.bind_eq_ok.mp hp
  obtain ⟨m1, hc, hr⟩ := Res.bind_eq_ok.mp hk
  have hw' := walkCommands_withoutExports _ _ hw
  rw [show sizeof_mach_header m0.withoutExports.m_is64 = sizeof_mach_header m0.m_is64 from rfl,
    hw', Res.bind_ok, readClassicBinds_withoutExports, hc, Res.bind_ok, Res.bind_ok,
    readRelocations_withoutExports, hr, Res.bind_ok]

/-- C24. For every image: parsing with the include-exports switch off never
fails with the "broken export trie" error, and when it returns the Export list
is empty; whenever parsing the same bytes with the switch on returns, parsing
with the switch off returns too, and the two objects differ in nothing but the
switch and the Export list: segments, sections, symbols, rebases, binds,
relocations, dylibs, rpaths, the two entry addresses, the text base and the
init and exit lists are equal. -/
theorem C24_exports_switch_frame (h : Host) (d : Decoders) (mem : Mem) (fuel : Nat)
    (fd : Int) :
    MachOImpl.construct h d mem fuel false fd ≠ .fault (.error .brokenExportTrie) ∧
    (∀ m', MachOImpl.construct h d mem fuel false fd = .ok m' → m'.m_exports = []) ∧
    (∀ m, MachOImpl.construct h d mem fuel true fd = .ok m →
      ∃ m', MachOImpl.construct h d mem fuel false fd = .ok m' ∧
        m' = { m with m_need_exports := false, m_exports := [] } ∧
        m'.m_segments = m.m_segments ∧ m'.m_segments64 = m.m_segments64 ∧
        m'.m_sections = m.m_sections ∧ m'.m_symbols = m.m_symbols ∧
        m'.m_rebases = m.m_rebases ∧ m'.m_binds = m.m_binds ∧
        m'.m_relocations = m.m_relocations ∧ m'.m_dylibs = m.m_dylibs ∧
        m'.m_rpaths = m.m_rpaths ∧ m'.m_entry = m.m_entry ∧ m'.m_main = m.m_main ∧
        m'.m_text_offset = m.m_text_offset ∧ m'.m_init_funcs = m.m_init_funcs ∧
        m'.m_exit_funcs = m.m_exit_funcs) := by
  refine ⟨construct_switch_off_not_trie h d mem fuel fd, fun m' hm' => ?_, fun m hm => ?_⟩
  · have h2 := construct_withoutExports hm'
    rw [hm'] at h2
    have e : m' = m'.withoutExports := Res.ok.inj h2
    rw [e]
    rfl
  · exact ⟨m.withoutExports, construct_withoutExports hm, rfl, rfl, rfl, rfl, rfl, rfl, rfl, rfl,
      rfl, rfl, rfl, rfl, rfl, rfl, rfl⟩

/-- C24 on `imageWithExports`: with the switch on the parse yields one Export
record, with the switch off none, and the same object otherwise. -/
theorem C24_exports_switch_witness :
    MachOImpl.construct .x86_64 noDecoders imageWithExports 5 true 3 =
        .ok imageWithExportsParsed ∧
      imageWithExportsParsed.m_exports = [{ name := [0x61, 0x62], flag := 0, addr := 0x10 }] ∧
      ∃ m', MachOImpl.construct .x86_64 noDecoders imageWithExports 5 false 3 = .ok m' ∧
        m' = { imageWithExportsParsed with m_need_exports := false, m_exports := [] } :=
  have key := (C24_exports_switch_frame .x86_64 noDecoders imageWithExports 5 3).2.2
    imageWithExportsParsed (by decide)
  ⟨by decide, rfl, key.elim fun m' k => ⟨m', k.1, k.2.1⟩⟩
/-! ## C22: the symbol index space -/

theorem symbolIndex_lt (mem : Mem) (dysyms off i : Nat) :
    symbolIndex mem dysyms off i < 2 ^ 30 := by
  unfold symbolIndex
  rw [and_mask30]
  exact Nat.mod_lt _ (by decide)

theorem symEntry_eq (symtab index stride : Nat) (hs : stride ≤ 4) (hi : index < 2 ^ 30) :
    symEntry symtab index stride = symtab + index * (4 * stride) := by
  have hb : index * stride ≤ index * 4 := Nat.mul_le_mul_left _ hs
  have hlt : index * stride < 2 ^ 32 := by omega
  unfold symEntry
  rw [Nat.mod_eq_of_lt hlt]
  ring

/-- The record the classic binder builds for a slot carries the name and the
value of the symbol-table entry number `symbolIndex`. -/
theorem classicBindAt_symbol (mem : Mem) (m : MachOImpl) (wide : Bool)
    (sec dysyms symtab symstrtab i : Nat) (hw : m.m_ptrsize = if m.m_is64 then 8 else 4) :
    (classicBindAt mem m wide sec dysyms symtab symstrtab i).name =
      (symbolRecord mem m.m_ptrsize symtab symstrtab
        (symbolIndex mem dysyms (sec_reserved1 mem wide sec) i)).name ∧
    (classicBindAt mem m wide sec dysyms symtab symstrtab i).value =
      (symbolRecord mem m.m_ptrsize symtab symstrtab
        (symbolIndex mem dysyms (sec_reserved1 mem wide sec) i)).addr := by
  have hlt := symbolIndex_lt mem dysyms (sec_reserved1 mem wide sec) i
  unfold classicBindAt symbolRecord symbolStride
  dsimp only
  rw [← symbolIndex, hw]
  generalize symbolIndex mem dysyms (sec_reserved1 mem wide sec) i = k at hlt ⊢
  cases m.m_is64
  · have e := symEntry_eq symtab k 3 (by decide) hlt
    have hm := u64_mod_u32 mem (symtab + k * 12 + 8)
    simp only [Bool.false_eq_true, if_false, if_true, show ¬(4 : Nat) = 8 by decide]
    rw [e, and_mask32]
    exact ⟨rfl, hm⟩
  · have e := symEntry_eq symtab k 4 (by decide) hlt
    simp only [if_true, Bool.true_eq_false, if_false]
    rw [e]
    exact ⟨rfl, rfl⟩

/-- The record the stub binder builds for a slot, in an image of pointer width
4, carries the name and the value of the symbol-table entry number
`symbolIndex`. -/
theorem stubBindAt_symbol (mem : Mem) (m : MachOImpl) (sec dysyms symtab symstrtab i : Nat)
    (h64 : m.m_is64 = false) (hw : m.m_ptrsize = 4) :
    (stubBindAt mem m sec dysyms symtab symstrtab i).name =
      (symbolRecord mem m.m_ptrsize symtab symstrtab
        (symbolIndex mem dysyms (sec_reserved1 mem false sec) i)).name ∧
    (stubBindAt mem m sec dysyms symtab symstrtab i).value =
      (symbolRecord mem m.m_ptrsize symtab symstrtab
        (symbolIndex mem dysyms (sec_reserved1 mem false sec) i)).addr := by
  have hlt := symbolIndex_lt mem dysyms (sec_reserved1 mem false sec) i
  unfold stubBindAt symbolRecord symbolStride
  dsimp only
  rw [← symbolIndex, hw, h64]
  generalize symbolIndex mem dysyms (sec_reserved1 mem false sec) i = k at hlt ⊢
  have e := symEntry_eq symtab k 3 (by decide) hlt
  have hm := u64_mod_u32 mem (symtab + k * 12 + 8)
  simp only [if_true, show ¬(4 : Nat) = 8 by decide, if_false]
  rw [e, and_mask32]
  exact ⟨rfl, hm⟩

theorem r_symbolnum_lt (mem : Mem) (reloc : Nat) : r_symbolnum mem reloc < 2 ^ 30 := by
  unfold r_symbolnum
  have : u32 mem (reloc + 4) % 2 ^ 24 < 2 ^ 24 := Nat.mod_lt _ (by decide)
  omega

/-- The record the external relocation reader builds carries the name of the
symbol-table entry number `r_symbolnum`. -/
theorem externalRelocationRecord_symbol (mem : Mem) (m : MachOImpl)
    (symtab symstrtab reloc : Nat) (hw : m.m_ptrsize = if m.m_is64 then 8 else 4) :
    (externalRelocationRecord mem m.m_is64 symtab symstrtab reloc).name =
      (symbolRecord mem m.m_ptrsize symtab symstrtab (r_symbolnum mem reloc)).name := by
  have hlt := r_symbolnum_lt mem reloc
  unfold externalRelocationRecord symbolRecord symbolStride
  dsimp only
  rw [hw]
  cases m.m_is64
  · simp only [Bool.false_eq_true, if_false, show ¬(4 : Nat) = 8 by decide]
    rw [symEntry_eq symtab _ 3 (by decide) hlt]
    rfl
  · simp only [if_true]
    rw [symEntry_eq symtab _ 4 (by decide) hlt]
    rfl

/-- What one load command does to the symbol-table pointers of the walk. -/
theorem processCommand_symtab_locals {h : Host} {d : Decoders} {mem : Mem} {fuel c : Nat}
    {st st' : MachOImpl × Locals} (hs : processCommand h d mem fuel c st = .ok st') :
    (lc_cmd mem c = LC_SYMTAB →
      st'.2.symtab = some (u32 mem (c + 8)) ∧ st'.2.symstrtab = some (u32 mem (c + 16))) ∧
    (lc_cmd mem c ≠ LC_SYMTAB →
      st'.2.symtab = st.2.symtab ∧ st'.2.symstrtab = st.2.symstrtab) := by
  rcases processCommand_cases hs with ⟨hc, r, hr, e⟩ | ⟨hc, r, hr, e⟩ | ⟨hc, m1, hr, e⟩ |
    ⟨hc, e⟩ | ⟨hc, e⟩ | ⟨hc, e⟩ | ⟨hc, e⟩ | ⟨hc, e⟩ | ⟨hc, e⟩ | ⟨hc, e⟩
  · have k : ¬lc_cmd mem c = LC_SYMTAB := by rw [hc]; decide
    subst e
    exact ⟨fun hx => absurd hx k, fun _ => ⟨rfl, rfl⟩⟩
  · have k : ¬lc_cmd mem c = LC_SYMTAB := by rw [hc]; decide
    subst e
    exact ⟨fun hx => absurd hx k, fun _ => ⟨rfl, rfl⟩⟩
  · have k : ¬lc_cmd mem c = LC_SYMTAB := by rcases hc with hc | hc <;> rw [hc] <;> decide
    subst e
    exact ⟨fun hx => absurd hx k, fun _ => ⟨rfl, rfl⟩⟩
  · subst e
    exact ⟨fun _ => ⟨rfl, rfl⟩, fun hx => absurd hc hx⟩
  · have k : ¬lc_cmd mem c = LC_SYMTAB := by rw [hc]; decide
    obtain ⟨-, l2, l3, -⟩ := readDysymtab_locals mem c st.2
    subst e
    exact ⟨fun hx => absurd hx k, fun _ => ⟨l2, l3⟩⟩
  · have k : ¬lc_cmd mem c = LC_SYMTAB := by rw [hc]; decide
    subst e
    exact ⟨fun hx => absurd hx k, fun _ => ⟨rfl, rfl⟩⟩
  · have k : ¬lc_cmd mem c = LC_SYMTAB := by rw [hc]; decide
    subst e
    exact ⟨fun hx => absurd hx k, fun _ => ⟨rfl, rfl⟩⟩
  · have k : ¬lc_cmd mem c = LC_SYMTAB := by rw [hc]; decide
    subst e
    exact ⟨fun hx => absurd hx k, fun _ => ⟨rfl, rfl⟩⟩
  · have k : ¬lc_cmd mem c = LC_SYMTAB := by rw [hc]; decide
    subst e
    exact ⟨fun hx => absurd hx k, fun _ => ⟨rfl, rfl⟩⟩
  · have k : ¬lc_cmd mem c = LC_SYMTAB := fun hx => hc (by rw [hx]; simp)
    subst e
    exact ⟨fun hx => absurd hx k, fun _ => ⟨rfl, rfl⟩⟩

theorem walkCommands_no_symtab {h : Host} {d : Decoders} {mem : Mem} {fuel : Nat} :
    ∀ (n c : Nat) {st st' : MachOImpl × Locals},
      walkCommands h d mem fuel n c st = .ok st' →
      (∀ x ∈ commandOffsets mem n c, lc_cmd mem x ≠ LC_SYMTAB) →
      st'.2.symtab = st.2.symtab ∧ st'.2.symstrtab = st.2.symstrtab := by
  intro n
  induction n with
  | zero =>
    intro c st st' hs _
    simp only [walkCommands, Res.ok.injEq] at hs
    subst hs
    exact ⟨rfl, rfl⟩
  | succ n ih =>
    intro c st st' hs hno
    simp only [walkCommands] at hs
    obtain ⟨st1, h1, h2⟩ := Res.bind_eq_ok.mp hs
    obtain ⟨a1, a2⟩ := (processCommand_symtab_locals h1).2
      (hno c (by simp [commandOffsets]))
    obtain ⟨b1, b2⟩ := ih _ h2 (fun x hx => hno x (by simp [commandOffsets, hx]))
    exact ⟨b1.trans a1, b2.trans a2⟩

/-- After the walk the symbol-table pointers are those of the last
symbol-table command. -/
theorem walkCommands_last_symtab {h : Host} {d : Decoders} {mem : Mem} {fuel : Nat} :
    ∀ (n c : Nat) {st st' : MachOImpl × Locals} (pre post : List Nat) (cSym : Nat),
      walkCommands h d mem fuel n c st = .ok st' →
      commandOffsets mem n c = pre ++ cSym :: post →
      lc_cmd mem cSym = LC_SYMTAB → (∀ x ∈ post, lc_cmd mem x ≠ LC_SYMTAB) →
      st'.2.symtab = some (u32 mem (cSym + 8)) ∧
      st'.2.symstrtab = some (u32 mem (cSym + 16)) := by
  intro n
  induction n with
  | zero =>
    intro c st st' pre post cSym _ hl
    simp [commandOffsets] at hl
  | succ n ih =>
    intro c st st' pre post cSym hs hl hsym hpost
    simp only [walkCommands] at hs
    obtain ⟨st1, h1, h2⟩ := Res.bind_eq_ok.mp hs
    rw [commandOffsets] at hl
    cases pre with
    | nil =>
      rw [List.nil_append, List.cons.injEq] at hl
      obtain ⟨rfl, hrest⟩ := hl
      obtain ⟨a1, a2⟩ := (processCommand_symtab_locals h1).1 hsym
      obtain ⟨b1, b2⟩ := walkCommands_no_symtab _ _ h2 (by rw [hrest]; exact hpost)
      exact ⟨b1.trans a1, b2.trans a2⟩
    | cons p pre =>
      rw [List.cons_append, List.cons.injEq] at hl
      exact ih _ pre post cSym h2 hl.2 hsym hpost

/-- The classic binder appends `classicBinds` to the Bind list and changes
nothing else. -/
theorem readClassicBinds_eq {mem : Mem} {m m1 : MachOImpl} {l : Locals}
    (hs : readClassicBinds mem m l = .ok m1) :
    m1 = { m with m_binds := m.m_binds ++ classicBinds mem m l } := by
  unfold readClassicBinds at hs
  unfold classicBinds
  split at hs
  · rename_i dysyms symtab symstrtab h1 h2 h3 h4
    obtain ⟨bd, hb, hk⟩ := Res.bind_eq_ok.mp hs
    cases hk
    rw [readClassicBinds64_eq] at hb
    have := readClassicBinds32_ok _ hb
    rw [this, List.append_assoc]
  · cases hs
    rw [List.append_nil]

/-- The records the external relocation reader appends. -/
theorem readExternalRelocations_records {h : Host} {mem : Mem} {m : MachOImpl} {ext : Nat}
    {symtab symstrtab : Option Nat} :
    ∀ (n i : Nat) (rl rl' : List Relocation),
      readExternalRelocations h mem m ext symtab symstrtab n i rl = .ok rl' →
      ∃ added, rl' = rl ++ added ∧
        ∀ r ∈ added, ∃ reloc symoff stroff, symtab = some symoff ∧ symstrtab = some stroff ∧
          r = externalRelocationRecord mem m.m_is64 symoff stroff reloc := by
  intro n
  induction n with
  | zero =>
    intro i rl rl' hs
    simp only [readExternalRelocations, Res.ok.injEq] at hs
    subst hs
    exact ⟨[], (List.append_nil _).symm, fun r hr => by cases hr⟩
  | succ n ih =>
    intro i rl rl' hs
    simp only [readExternalRelocations] at hs
    obtain ⟨rl1, h1, h2⟩ := Res.bind_eq_ok.mp hs
    obtain ⟨added, e, hall⟩ := ih _ _ _ h2
    have hone : rl1 = rl ∨ ∃ symoff stroff, symtab = some symoff ∧ symstrtab = some stroff ∧
        rl1 = rl ++ [externalRelocationRecord mem m.m_is64 symoff stroff (ext + 8 * i)] := by
      unfold readExternalRelocation at h1
      by_cases he : r_extern mem (ext + 8 * i) = 0
      · rw [if_pos he] at h1
        cases h1
      rw [if_neg he] at h1
      by_cases hl : r_length mem (ext + 8 * i) ≠ RELOC_PTRLEN h
      · rw [if_pos hl] at h1
        cases h1
        exact Or.inl rfl
      rw [if_neg hl] at h1
      by_cases ht : r_type mem (ext + 8 * i) = RELOC_VANILLA h
      · rw [if_pos ht] at h1
        cases symtab with
        | none => cases h1
        | some symoff =>
          cases symstrtab with
          | none => cases h1
          | some stroff =>
            cases h1
            exact Or.inr ⟨symoff, stroff, rfl, rfl, rfl⟩
      · rw [if_neg ht] at h1
        cases h1
        exact Or.inl rfl
    rcases hone with rfl | ⟨symoff, stroff, e1, e2, rfl⟩
    · exact ⟨added, e, hall⟩
    · refine ⟨externalRelocationRecord mem m.m_is64 symoff stroff (ext + 8 * i) :: added, ?_, ?_⟩
      · rw [e, List.append_assoc]
        rfl
      · intro r hr
        rcases List.mem_cons.mp hr with rfl | hr
        · exact ⟨_, symoff, stroff, e1, e2, rfl⟩
        · exact hall r hr

theorem readInternalRelocation_records (h : Host) (mem : Mem) (reloc : Nat)
    (rebases : List Rebase) :
    ∃ added, readInternalRelocation h mem reloc rebases = rebases ++ added ∧
      ∀ r ∈ added, r.vmaddr < 2 ^ 32 := by
  unfold readInternalRelocation
  split_ifs
  all_goals first
    | exact ⟨[], (List.append_nil _).symm, fun r hr => by cases hr⟩
    | (refine ⟨_, rfl, fun r hr => ?_⟩
       rw [List.mem_singleton] at hr
       subst hr
       first
        | (show scattered_r_address mem reloc < 2 ^ 32
           unfold scattered_r_address
           have : u32 mem reloc % 2 ^ 24 < 2 ^ 24 := Nat.mod_lt _ (by decide)
           omega)
        | (show int32ToU64 (r_address mem reloc) &&& 0xffffffff < 2 ^ 32
           rw [and_mask32]
           exact Nat.mod_lt _ (by decide)))

theorem readInternalRelocations_records (h : Host) (mem : Mem) (loc : Nat) :
    ∀ (n i : Nat) (rebases : List Rebase),
      ∃ added, readInternalRelocations h mem loc n i rebases = rebases ++ added ∧
        ∀ r ∈ added, r.vmaddr < 2 ^ 32 := by
  intro n
  induction n with
  | zero => intro i rebases; exact ⟨[], (List.append_nil _).symm, fun r hr => by cases hr⟩
  | succ n ih =>
    intro i rebases
    simp only [readInternalRelocations]
    obtain ⟨a1, e1, h1⟩ := readInternalRelocation_records h mem (loc + 8 * i) rebases
    obtain ⟨a2, e2, h2⟩ := ih (i + 1) (readInternalRelocation h mem (loc + 8 * i) rebases)
    refine ⟨a1 ++ a2, ?_, ?_⟩
    · rw [e2, e1, List.append_assoc]
    · intro r hr
      rcases List.mem_append.mp hr with hr | hr
      · exact h1 r hr
      · exact h2 r hr

/-- The relocation stage appends Relocation records built from the external
table and Rebase records built from the local table, and changes nothing else. -/
theorem readRelocations_records {h : Host} {mem : Mem} {m m' : MachOImpl} {l : Locals}
    (hs : readRelocations h mem m l = .ok m') :
    ∃ rels rebs,
      m' = { m with m_relocations := m.m_relocations ++ rels, m_rebases := m.m_rebases ++ rebs } ∧
      (∀ r ∈ rels, ∃ reloc symoff stroff, l.symtab = some symoff ∧ l.symstrtab = some stroff ∧
        r = externalRelocationRecord mem m.m_is64 symoff stroff reloc) ∧
      ∀ r ∈ rebs, r.vmaddr < 2 ^ 32 := by
  unfold readRelocations at hs
  dsimp only at hs
  obtain ⟨rl, hrl, hk⟩ := Res.bind_eq_ok.mp hs
  have hext : ∃ rels, rl = m.m_relocations ++ rels ∧
      ∀ r ∈ rels, ∃ reloc symoff stroff, l.symtab = some symoff ∧ l.symstrtab = some stroff ∧
        r = externalRelocationRecord mem m.m_is64 symoff stroff reloc := by
    split at hrl
    · exact readExternalRelocations_records _ _ _ _ hrl
    · cases hrl
      exact ⟨[], (List.append_nil _).symm, fun r hr => by cases hr⟩
  obtain ⟨rels, e1, hrels⟩ := hext
  split at hk
  · rename_i loc hloc
    obtain ⟨rebs, e2, hrebs⟩ :=
      readInternalRelocations_records h mem loc l.loc_reloccount 0 m.m_rebases
    cases hk
    exact ⟨rels, rebs, by rw [e1, e2], hrels, hrebs⟩
  · cases hk
    refine ⟨rels, [], ?_, hrels, fun r hr => by cases hr⟩
    rw [e1, List.append_nil]

/-- Every record of `classicBinds` carries the name and the value of an entry
of the symbol table the walk left in its `symtab` pointer. -/
theorem classicBinds_symbol (mem : Mem) (m : MachOImpl) (l : Locals) (symoff stroff : Nat)
    (hw : m.m_ptrsize = if m.m_is64 then 8 else 4)
    (hsym : l.symtab = some symoff) (hstr : l.symstrtab = some stroff)
    (hstub : ∀ s ∈ l.bind_sections_32,
      sec_flags mem false s &&& SECTION_TYPE = S_SYMBOL_STUBS → m.m_is64 = false) :
    ∀ b ∈ classicBinds mem m l, ∃ k,
      b.name = (symbolRecord mem m.m_ptrsize symoff stroff k).name ∧
      b.value = (symbolRecord mem m.m_ptrsize symoff stroff k).addr := by
  have hptr : ∀ wide dysyms s, ∀ b ∈ pointerBindRecords mem m wide dysyms symoff stroff s,
      ∃ k, b.name = (symbolRecord mem m.m_ptrsize symoff stroff k).name ∧
        b.value = (symbolRecord mem m.m_ptrsize symoff stroff k).addr := by
    intro wide dysyms s b hb
    unfold pointerBindRecords readClassicBind at hb
    rw [List.nil_append, List.mem_map] at hb
    obtain ⟨i, -, rfl⟩ := hb
    exact ⟨_, classicBindAt_symbol mem m wide s dysyms symoff stroff i hw⟩
  intro b hb
  unfold classicBinds at hb
  rw [hsym, hstr] at hb
  cases hdy : l.dyinfo with
  | some x =>
    rw [hdy] at hb
    cases hds : l.dysyms <;> rw [hds] at hb <;> cases hb
  | none =>
    rw [hdy] at hb
    cases hds : l.dysyms with
    | none =>
      rw [hds] at hb
      cases hb
    | some dysyms =>
      rw [hds] at hb
      simp only at hb
      rcases List.mem_append.mp hb with hb | hb
      · obtain ⟨s, -, hbs⟩ := List.mem_flatMap.mp hb
        exact hptr _ _ _ _ hbs
      · obtain ⟨s, hs, hbs⟩ := List.mem_flatMap.mp hb
        unfold narrowBindRecords at hbs
        by_cases ht : sec_flags mem false s &&& SECTION_TYPE = S_SYMBOL_STUBS
        · rw [if_pos ht] at hbs
          have h64 := hstub s hs ht
          have hw4 : m.m_ptrsize = 4 := by rw [hw, h64]; rfl
          unfold stubBindRecords at hbs
          split_ifs at hbs
          · rw [List.mem_map] at hbs
            obtain ⟨i, -, rfl⟩ := hbs
            exact ⟨_, stubBindAt_symbol mem m s dysyms symoff stroff i h64 hw4⟩
          · cases hbs
        · rw [if_neg ht] at hbs
          exact hptr _ _ _ _ hbs

/-- C22 (counterexample). The image `imageTwoSymtabs` has two symbol-table
commands; the parse returns the symbol list "bar", "foo", "bar" and one classic
Bind record, produced from symbol index 0 of the pointer section at offset 84.
The record is named "foo" (entry 0 of the table of the last symbol-table
command), while element 0 of the parsed symbol list is "bar". -/
theorem C22_second_symbol_table_renumbers :
    MachOImpl.construct .i386 noDecoders imageTwoSymtabs 1 true 3 =
        .ok imageTwoSymtabsParsed ∧
      symbolIndex imageTwoSymtabs 280 (sec_reserved1 imageTwoSymtabs false 84) 0 = 0 ∧
      imageTwoSymtabsParsed.m_binds =
        pointerBindRecords imageTwoSymtabs object32 false 280 284 308 84 ∧
      imageTwoSymtabsParsed.m_binds.map (fun b => (b.name, b.value)) = [(str_foo, 0x1234)] ∧
      imageTwoSymtabsParsed.m_symbols[0]? = some { name := str_bar, addr := 0x5678 } := by
  decide

/-- C22 (amended). On every image on which the parse returns and whose last
symbol-table command is `cSym` (declaring `nsyms` entries at `symoff`, string
table at `stroff`): the classic binder, the stub binder and the external
relocation reader all read the table of `cSym`.  A classic Bind record
produced from symbol index `k` carries the name and the value, and a
Relocation record produced from index `k` the name, of entry `k` of that table;
for `k < nsyms` this entry is element `base + k` of the parsed symbol list,
where `base` is the number of symbols declared by the symbol-table commands
before `cSym`, so it is element `k` when `cSym` is the only symbol-table
command. -/
theorem C22_symbol_index_space (h : Host) (d : Decoders) (mem : Mem) (fuel : Nat)
    (need_exports : Bool) (fd : Int) (m : MachOImpl) (pre post : List Nat) (cSym : Nat)
    (hparse : MachOImpl.construct h d mem fuel need_exports fd = .ok m)
    (hcmds : imageCommands mem m.m_is64 = pre ++ cSym :: post)
    (hsym : lc_cmd mem cSym = LC_SYMTAB)
    (hpost : ∀ c ∈ post, lc_cmd mem c ≠ LC_SYMTAB) :
    ∃ m0 st,
      validateHeader mem (MachOImpl.fresh need_exports fd) = .ok m0 ∧
      walkCommands h d mem fuel (hdr_ncmds mem) (sizeof_mach_header m0.m_is64)
        (m0, Locals.init) = .ok st ∧
      st.2.symtab = some (u32 mem (cSym + 8)) ∧
      st.2.symstrtab = some (u32 mem (cSym + 16)) ∧
      m.m_symbols = pre.flatMap (commandSymbols mem m.m_ptrsize) ++
        (List.range (u32 mem (cSym + 12))).map
          (symbolRecord mem m.m_ptrsize (u32 mem (cSym + 8)) (u32 mem (cSym + 16))) ∧
      (∀ k, k < u32 mem (cSym + 12) →
        m.m_symbols[(pre.flatMap (commandSymbols mem m.m_ptrsize)).length + k]? =
          some (symbolRecord mem m.m_ptrsize (u32 mem (cSym + 8)) (u32 mem (cSym + 16)) k)) ∧
      ((∀ c ∈ pre, lc_cmd mem c ≠ LC_SYMTAB) → ∀ k, k < u32 mem (cSym + 12) →
        m.m_symbols[k]? =
          some (symbolRecord mem m.m_ptrsize (u32 mem (cSym + 8)) (u32 mem (cSym + 16)) k)) ∧
      m.m_binds = st.1.m_binds ++ classicBinds mem st.1 st.2 ∧
      (∀ b ∈ classicBinds mem st.1 st.2, ∃ k,
        b.name =
          (symbolRecord mem m.m_ptrsize (u32 mem (cSym + 8)) (u32 mem (cSym + 16)) k).name ∧
        b.value =
          (symbolRecord mem m.m_ptrsize (u32 mem (cSym + 8)) (u32 mem (cSym + 16)) k).addr) ∧
      (∀ wide sec dysyms i,
        (classicBindAt mem st.1 wide sec dysyms (u32 mem (cSym + 8)) (u32 mem (cSym + 16))
            i).name =
          (symbolRecord mem m.m_ptrsize (u32 mem (cSym + 8)) (u32 mem (cSym + 16))
            (symbolIndex mem dysyms (sec_reserved1 mem wide sec) i)).name ∧
        (classicBindAt mem st.1 wide sec dysyms (u32 mem (cSym + 8)) (u32 mem (cSym + 16))
            i).value =
          (symbolRecord mem m.m_ptrsize (u32 mem (cSym + 8)) (u32 mem (cSym + 16))
            (symbolIndex mem dysyms (sec_reserved1 mem wide sec) i)).addr) ∧
      (m.m_ptrsize = 4 → ∀ sec dysyms i,
        (stubBindAt mem st.1 sec dysyms (u32 mem (cSym + 8)) (u32 mem (cSym + 16)) i).name =
          (symbolRecord mem m.m_ptrsize (u32 mem (cSym + 8)) (u32 mem (cSym + 16))
            (symbolIndex mem dysyms (sec_reserved1 mem false sec) i)).name ∧
        (stubBindAt mem st.1 sec dysyms (u32 mem (cSym + 8)) (u32 mem (cSym + 16)) i).value =
          (symbolRecord mem m.m_ptrsize (u32 mem (cSym + 8)) (u32 mem (cSym + 16))
            (symbolIndex mem dysyms (sec_reserved1 mem false sec) i)).addr) ∧
      ∃ rels, m.m_relocations = st.1.m_relocations ++ rels ∧
        ∀ r ∈ rels, ∃ reloc,
          r = externalRelocationRecord mem m.m_is64 (u32 mem (cSym + 8)) (u32 mem (cSym + 16))
            reloc ∧
          r.name =
            (symbolRecord mem m.m_ptrsize (u32 mem (cSym + 8)) (u32 mem (cSym + 16))
              (r_symbolnum mem reloc)).name := by
  obtain ⟨m0, st, m1, h0, hw, hc, hr⟩ := construct_stages hparse
  have e0 := validateHeader_frame h0
  obtain ⟨a1, a2, -⟩ := walkCommands_segments _ _ hw
  have hsyms := walkCommands_symbols _ _ hw
  obtain ⟨-, -, c3⟩ := walkCommands_candidates _ _ hw
  have e1 := readClassicBinds_eq hc
  obtain ⟨rels, rebs, e2, hrels, -⟩ := readRelocations_records hr
  have hi : m.m_is64 = st.1.m_is64 := by rw [e2, e1]
  have hp : m.m_ptrsize = st.1.m_ptrsize := by rw [e2, e1]
  have hs : m.m_symbols = st.1.m_symbols := by rw [e2, e1]
  have hi0 : m.m_is64 = m0.m_is64 := hi.trans a1
  have hwidth0 : m0.m_ptrsize = (if m0.m_is64 then 8 else 4) := by
    rw [e0]
    by_cases hm : hdr_magic mem = MH_MAGIC_64 <;> simp [hm]
  have hwst : st.1.m_ptrsize = (if st.1.m_is64 then 8 else 4) := by rw [a1, a2, hwidth0]
  have hwm : m.m_ptrsize = (if m.m_is64 then 8 else 4) := by rw [hp, hi, hwst]
  rw [hi0] at hcmds
  obtain ⟨t1, t2⟩ := walkCommands_last_symtab _ _ pre post cSym hw hcmds hsym hpost
  have hpostnil : post.flatMap (commandSymbols mem m.m_ptrsize) = [] := by
    rw [List.flatMap_eq_nil_iff]
    intro c hc'
    unfold commandSymbols
    rw [if_neg (hpost c hc')]
  have hlist : m.m_symbols = pre.flatMap (commandSymbols mem m.m_ptrsize) ++
      (List.range (u32 mem (cSym + 12))).map
        (symbolRecord mem m.m_ptrsize (u32 mem (cSym + 8)) (u32 mem (cSym + 16))) := by
    rw [hs, hsyms]
    rw [show commandOffsets mem (hdr_ncmds mem) (sizeof_mach_header m0.m_is64) =
      pre ++ cSym :: post from hcmds]
    rw [show (if (m0, Locals.init).1.m_is64 = true then 8 else 4) = m.m_ptrsize from by
      rw [hwm, hi0]]
    rw [List.flatMap_append, List.flatMap_cons, hpostnil, List.append_nil]
    rw [show (m0, Locals.init).1.m_symbols = [] from by rw [e0]; rfl, List.nil_append]
    unfold commandSymbols
    rw [if_pos hsym]
  have hget : ∀ k, k < u32 mem (cSym + 12) →
      m.m_symbols[(pre.flatMap (commandSymbols mem m.m_ptrsize)).length + k]? =
        some (symbolRecord mem m.m_ptrsize (u32 mem (cSym + 8)) (u32 mem (cSym + 16)) k) := by
    intro k hk
    rw [hlist, List.getElem?_append_right (Nat.le_add_right _ _), Nat.add_sub_cancel_left,
      List.getElem?_map, List.getElem?_range hk]
    rfl
  have hstub : ∀ s ∈ st.2.bind_sections_32,
      sec_flags mem false s &&& SECTION_TYPE = S_SYMBOL_STUBS → st.1.m_is64 = false := by
    intro s hs' ht
    rw [c3] at hs'
    have hs'' : s ∈ bindCandidates mem m0.m_is64 false := by
      unfold bindCandidates imageCommands
      simpa [Locals.init] using hs'
    obtain ⟨c, -, -, -, hcand⟩ := (mem_bindCandidates mem _ false s).mp hs''
    rw [ht] at hcand
    rcases hcand with hx | hx | ⟨-, hx⟩
    · exact absurd hx (by decide)
    · exact absurd hx (by decide)
    · exact a1.trans hx
  refine ⟨m0, st, h0, hw, t1, t2, hlist, hget, ?_, ?_, ?_, ?_, ?_, ?_⟩
  · intro hpre k hk
    have hprenil : pre.flatMap (commandSymbols mem m.m_ptrsize) = [] := by
      rw [List.flatMap_eq_nil_iff]
      intro c hc'
      unfold commandSymbols
      rw [if_neg (hpre c hc')]
    have := hget k hk
    rw [hprenil, List.length_nil, Nat.zero_add] at this
    exact this
  · rw [e2, e1]
  · rw [hp]
    exact classicBinds_symbol mem st.1 st.2 _ _ hwst t1 t2 hstub
  · intro wide sec dysyms i
    rw [hp]
    exact classicBindAt_symbol mem st.1 wide sec dysyms _ _ i hwst
  · intro h4 sec dysyms i
    rw [hp] at h4 ⊢
    have h64 : st.1.m_is64 = false := by
      cases hb : st.1.m_is64
      · rfl
      · rw [hwst, hb] at h4
        cases h4
    exact stubBindAt_symbol mem st.1 sec dysyms _ _ i h64 h4
  · have h1i : m1.m_is64 = st.1.m_is64 := by rw [e1]
    refine ⟨rels, by rw [e2, e1], fun r hr' => ?_⟩
    obtain ⟨reloc, symoff, stroff, q1, q2, q3⟩ := hrels r hr'
    rw [t1] at q1
    rw [t2] at q2
    cases q1
    cases q2
    rw [h1i] at q3
    refine ⟨reloc, ?_, ?_⟩
    · rw [q3, hi]
    · rw [q3, hp]
      exact externalRelocationRecord_symbol mem st.1 (u32 mem (cSym + 8))
        (u32 mem (cSym + 16)) reloc hwst

/-- C22 on `classicImage LC_UUID 8 7 0`, whose only symbol-table command (at
offset 152) declares two entries: entry 1 of the table is element 1 of the
parsed symbol list, and the first classic Bind record, produced from symbol
index 1, carries its name and value. -/
theorem C22_symbol_index_witness :
    classicImagePointerParsed.m_symbols[1]? =
        some (symbolRecord (classicImage LC_UUID 8 7 0) 4 312 336 1) ∧
      symbolIndex (classicImage LC_UUID 8 7 0) 304
        (sec_reserved1 (classicImage LC_UUID 8 7 0) false 84) 0 = 1 ∧
      classicImagePointerParsed.m_binds[0]?.map (fun b => (b.name, b.value)) =
        classicImagePointerParsed.m_symbols[1]?.map (fun s => (s.name, s.addr)) :=
  have key := C22_symbol_index_space .i386 noDecoders (classicImage LC_UUID 8 7 0) 1 true 3
    classicImagePointerParsed [28] [176, 256] 152 (by decide) (by decide) (by decide)
    (by decide)
  ⟨key.elim fun _ k1 => k1.elim fun _ k2 =>
      (k2.2.2.2.2.2.2.1 (by decide) 1 (by decide)).trans (by decide),
    by decide, by decide⟩

/-! ## C23: addresses of a 32-bit image -/

end Darling
